import Mathlib

/-!
# Readers-writers with POSIX semaphores: two programs

A verification development for `frw-CS22BTECH11018.cpp` (the fair solution,
namespace `Fair`) and `rw-CS22BTECH11018.cpp` (the writer-preference solution,
namespace `WP`).

Each program is embedded as an interleaving step function: a state holds the
shared variables, the values of the semaphores and, for every thread, its
program point, its loop variable `i` and the size of its `waitTimes` vector.
One step executes one statement of one thread; `sem_wait` on a semaphore whose
value is 0 has no step (the thread is blocked).  The program points are named
after the statement that the thread executes next, with the source line given
next to each constructor.

Data abstractions: the values of the wait samples and the timestamps of the log
lines depend on the system clock and are not part of the interleaving model
(the log keeps iteration, role, phase and thread id; a thread keeps the number
of its samples).  The averaging code is embedded separately as pure functions
over the list of samples, with `double` taken as exact rationals extended with
one non-finite value, and with every division recording its divisor.
-/

namespace RW

/-- Phase of a log line: `CS Request`, `CS Entry`, `CS Exit`. -/
inductive Phase where
  | Request
  | Entry
  | Exit
deriving DecidableEq, Repr

/-- Role printed in a log line. -/
inductive Role where
  | Reader
  | Writer
deriving DecidableEq, Repr

/-- One line of the log file, without its timestamp:
`<iteration>st CS <phase> by <role> Thread <thread>`. -/
structure LogEvent where
  iteration : Nat
  role : Role
  phase : Phase
  thread : Nat
deriving DecidableEq, Repr

/-- Local state of a thread: program point, loop variable `i`, and
`waitTime.waitTimes.size()`. -/
structure Th (P : Type) where
  pc : P
  i : Nat
  nwait : Nat
deriving DecidableEq, Repr

/-- Thread names: `writer j` is `threadsW[j]` (printed id `j + 1`), `reader j` is
`threadsR[j]`. -/
inductive Tid where
  | writer (j : Nat)
  | reader (j : Nat)
deriving DecidableEq, Repr

/-- The four integers read from `inp-params.txt`. -/
structure Config where
  nw : Nat
  nr : Nat
  kw : Nat
  kr : Nat
deriving DecidableEq, Repr

/-- Blocking `sem_wait`: a positive value is decremented, a zero value gives no step. -/
def sem_wait (v : Nat) : Option Nat :=
  if 0 < v then some (v - 1) else none

/-- The call `sem_post`. -/
def sem_post (v : Nat) : Nat := v + 1

/-- Number of threads of a list whose program point lies in the region `q`. -/
def cntP {P : Type} (q : P → Bool) (ts : List (Th P)) : Nat :=
  ts.countP (fun t => q t.pc)

/-- The region that consists of the single program point `p`. -/
def isAt {P : Type} [DecidableEq P] (p : P) : P → Bool :=
  fun q => decide (q = p)

/-- Number of threads of a list that are at program point `p`. -/
def cnt {P : Type} [DecidableEq P] (p : P) (ts : List (Th P)) : Nat :=
  cntP (isAt p) ts

/-- Program point of thread `j` of a list, if there is such a thread. -/
def pcAt {P : Type} (ts : List (Th P)) (j : Nat) : Option P :=
  (ts[j]?).map (fun t => t.pc)

/-- Sum of `f` over the threads of a list. -/
def wsum {P : Type} (f : Th P → Nat) (ts : List (Th P)) : Nat :=
  (ts.map f).sum

/-- Value 1 for `true`, 0 for `false`. -/
def b2n (b : Bool) : Nat := if b then 1 else 0

end RW

/-! ## The fair program (`frw-CS22BTECH11018.cpp`) -/

namespace Fair

open RW

/-- Program points of `reader_fair`. -/
inductive RPc where
  | loop      -- line 58: `i < kr`
  | waitL1    -- line 61: `sem_wait(&l)`
  | logReq    -- line 63: log `CS Request`
  | postL1    -- line 65: `sem_post(&l)`
  | waitSQ    -- line 66: `sem_wait(&serviceQueue)`
  | waitRm    -- line 67: `sem_wait(&rmutex)`
  | inc       -- line 68: `readcount++`
  | test      -- line 69: `if (readcount == 1)`
  | waitRes   -- line 70: `sem_wait(&resource)`
  | postSQ    -- line 71: `sem_post(&serviceQueue)`
  | postRm    -- line 72: `sem_post(&rmutex)`
  | push      -- lines 74-76: `waitTimes.push_back(wait_time)`
  | waitL2    -- line 77: `sem_wait(&l)`
  | logEntry  -- line 79: log `CS Entry`
  | postL2    -- line 81: `sem_post(&l)`
  | sleepCS   -- lines 84-85: critical-section delay
  | waitRm2   -- line 88: `sem_wait(&rmutex)`
  | dec       -- line 89: `readcount--`
  | test2     -- line 90: `if (readcount == 0)`
  | postRes   -- line 91: `sem_post(&resource)`
  | postRm2   -- line 92: `sem_post(&rmutex)`
  | waitL3    -- line 93: `sem_wait(&l)`
  | logExit   -- line 94: log `CS Exit`
  | postL3    -- line 96: `sem_post(&l)`
  | sleepRem  -- lines 99-100 and `++i`
  | avg       -- lines 104-109: the thread's average
  | done
deriving DecidableEq, Repr

/-- Program points of `writer_fair`. -/
inductive WPc where
  | loop      -- line 119: `i < kw`
  | waitL1    -- line 122: `sem_wait(&l)`
  | logReq    -- line 124: log `CS Request`
  | postL1    -- line 126: `sem_post(&l)`
  | waitSQ    -- line 127: `sem_wait(&serviceQueue)`
  | waitRes   -- line 128: `sem_wait(&resource)`
  | postSQ    -- line 129: `sem_post(&serviceQueue)`
  | push      -- lines 130-132: `waitTimes.push_back(wait_time)`
  | waitL2    -- line 134: `sem_wait(&l)`
  | logEntry  -- line 136: log `CS Entry`
  | postL2    -- line 138: `sem_post(&l)`
  | sleepCS   -- lines 141-142: critical-section delay
  | waitL3    -- line 145: `sem_wait(&l)`
  | logExit   -- line 146: log `CS Exit`
  | postL3    -- line 148: `sem_post(&l)`
  | postRes   -- line 149: `sem_post(&resource)`
  | sleepRem  -- lines 152-153 and `++i`
  | avg       -- lines 157-162: the thread's average
  | done
deriving DecidableEq, Repr

/-- Shared state of the fair program and the local states of its threads. -/
structure State where
  readcount : Int
  resource : Nat
  rmutex : Nat
  serviceQueue : Nat
  l : Nat
  fair_rw_log : List LogEvent
  writers : List (Th WPc)
  readers : List (Th RPc)
deriving DecidableEq, Repr

/-- One statement of reader thread `j` (`reader_fair(j + 1, kr, _)`). -/
def reader_fair (kr : Nat) (s : State) (j : Nat) : Option State :=
  match s.readers[j]? with
  | none => none
  | some t =>
    match t.pc with
    | .loop =>
      if t.i < kr then some { s with readers := s.readers.set j { t with pc := .waitL1 } }
      else some { s with readers := s.readers.set j { t with pc := .avg } }
    | .waitL1 =>
      (sem_wait s.l).map fun v =>
        { s with l := v, readers := s.readers.set j { t with pc := .logReq } }
    | .logReq =>
      some { s with
        fair_rw_log := s.fair_rw_log ++ [⟨t.i + 1, .Reader, .Request, j + 1⟩],
        readers := s.readers.set j { t with pc := .postL1 } }
    | .postL1 =>
      some { s with l := sem_post s.l, readers := s.readers.set j { t with pc := .waitSQ } }
    | .waitSQ =>
      (sem_wait s.serviceQueue).map fun v =>
        { s with serviceQueue := v, readers := s.readers.set j { t with pc := .waitRm } }
    | .waitRm =>
      (sem_wait s.rmutex).map fun v =>
        { s with rmutex := v, readers := s.readers.set j { t with pc := .inc } }
    | .inc =>
      some { s with
        readcount := s.readcount + 1,
        readers := s.readers.set j { t with pc := .test } }
    | .test =>
      if s.readcount = 1 then
        some { s with readers := s.readers.set j { t with pc := .waitRes } }
      else some { s with readers := s.readers.set j { t with pc := .postSQ } }
    | .waitRes =>
      (sem_wait s.resource).map fun v =>
        { s with resource := v, readers := s.readers.set j { t with pc := .postSQ } }
    | .postSQ =>
      some { s with
        serviceQueue := sem_post s.serviceQueue,
        readers := s.readers.set j { t with pc := .postRm } }
    | .postRm =>
      some { s with
        rmutex := sem_post s.rmutex,
        readers := s.readers.set j { t with pc := .push } }
    | .push =>
      some { s with readers := s.readers.set j { t with pc := .waitL2, nwait := t.nwait + 1 } }
    | .waitL2 =>
      (sem_wait s.l).map fun v =>
        { s with l := v, readers := s.readers.set j { t with pc := .logEntry } }
    | .logEntry =>
      some { s with
        fair_rw_log := s.fair_rw_log ++ [⟨t.i + 1, .Reader, .Entry, j + 1⟩],
        readers := s.readers.set j { t with pc := .postL2 } }
    | .postL2 =>
      some { s with l := sem_post s.l, readers := s.readers.set j { t with pc := .sleepCS } }
    | .sleepCS =>
      some { s with readers := s.readers.set j { t with pc := .waitRm2 } }
    | .waitRm2 =>
      (sem_wait s.rmutex).map fun v =>
        { s with rmutex := v, readers := s.readers.set j { t with pc := .dec } }
    | .dec =>
      some { s with
        readcount := s.readcount - 1,
        readers := s.readers.set j { t with pc := .test2 } }
    | .test2 =>
      if s.readcount = 0 then
        some { s with readers := s.readers.set j { t with pc := .postRes } }
      else some { s with readers := s.readers.set j { t with pc := .postRm2 } }
    | .postRes =>
      some { s with
        resource := sem_post s.resource,
        readers := s.readers.set j { t with pc := .postRm2 } }
    | .postRm2 =>
      some { s with
        rmutex := sem_post s.rmutex,
        readers := s.readers.set j { t with pc := .waitL3 } }
    | .waitL3 =>
      (sem_wait s.l).map fun v =>
        { s with l := v, readers := s.readers.set j { t with pc := .logExit } }
    | .logExit =>
      some { s with
        fair_rw_log := s.fair_rw_log ++ [⟨t.i + 1, .Reader, .Exit, j + 1⟩],
        readers := s.readers.set j { t with pc := .postL3 } }
    | .postL3 =>
      some { s with l := sem_post s.l, readers := s.readers.set j { t with pc := .sleepRem } }
    | .sleepRem =>
      some { s with readers := s.readers.set j { t with pc := .loop, i := t.i + 1 } }
    | .avg =>
      some { s with readers := s.readers.set j { t with pc := .done } }
    | .done => none

/-- One statement of writer thread `j` (`writer_fair(j + 1, kw, _)`). -/
def writer_fair (kw : Nat) (s : State) (j : Nat) : Option State :=
  match s.writers[j]? with
  | none => none
  | some t =>
    match t.pc with
    | .loop =>
      if t.i < kw then some { s with writers := s.writers.set j { t with pc := .waitL1 } }
      else some { s with writers := s.writers.set j { t with pc := .avg } }
    | .waitL1 =>
      (sem_wait s.l).map fun v =>
        { s with l := v, writers := s.writers.set j { t with pc := .logReq } }
    | .logReq =>
      some { s with
        fair_rw_log := s.fair_rw_log ++ [⟨t.i + 1, .Writer, .Request, j + 1⟩],
        writers := s.writers.set j { t with pc := .postL1 } }
    | .postL1 =>
      some { s with l := sem_post s.l, writers := s.writers.set j { t with pc := .waitSQ } }
    | .waitSQ =>
      (sem_wait s.serviceQueue).map fun v =>
        { s with serviceQueue := v, writers := s.writers.set j { t with pc := .waitRes } }
    | .waitRes =>
      (sem_wait s.resource).map fun v =>
        { s with resource := v, writers := s.writers.set j { t with pc := .postSQ } }
    | .postSQ =>
      some { s with
        serviceQueue := sem_post s.serviceQueue,
        writers := s.writers.set j { t with pc := .push } }
    | .push =>
      some { s with writers := s.writers.set j { t with pc := .waitL2, nwait := t.nwait + 1 } }
    | .waitL2 =>
      (sem_wait s.l).map fun v =>
        { s with l := v, writers := s.writers.set j { t with pc := .logEntry } }
    | .logEntry =>
      some { s with
        fair_rw_log := s.fair_rw_log ++ [⟨t.i + 1, .Writer, .Entry, j + 1⟩],
        writers := s.writers.set j { t with pc := .postL2 } }
    | .postL2 =>
      some { s with l := sem_post s.l, writers := s.writers.set j { t with pc := .sleepCS } }
    | .sleepCS =>
      some { s with writers := s.writers.set j { t with pc := .waitL3 } }
    | .waitL3 =>
      (sem_wait s.l).map fun v =>
        { s with l := v, writers := s.writers.set j { t with pc := .logExit } }
    | .logExit =>
      some { s with
        fair_rw_log := s.fair_rw_log ++ [⟨t.i + 1, .Writer, .Exit, j + 1⟩],
        writers := s.writers.set j { t with pc := .postL3 } }
    | .postL3 =>
      some { s with l := sem_post s.l, writers := s.writers.set j { t with pc := .postRes } }
    | .postRes =>
      some { s with
        resource := sem_post s.resource,
        writers := s.writers.set j { t with pc := .sleepRem } }
    | .sleepRem =>
      some { s with writers := s.writers.set j { t with pc := .loop, i := t.i + 1 } }
    | .avg =>
      some { s with writers := s.writers.set j { t with pc := .done } }
    | .done => none

/-- State in which `main` has initialised the four semaphores to 1 and created
`nw` writer threads and `nr` reader threads (lines 183-202).  All threads are
present from the start: a thread that `main` has not created yet behaves like one
that has not been scheduled yet. -/
def main (c : Config) : State :=
  { readcount := 0, resource := 1, rmutex := 1, serviceQueue := 1, l := 1,
    fair_rw_log := [],
    writers := List.replicate c.nw ⟨.loop, 0, 0⟩,
    readers := List.replicate c.nr ⟨.loop, 0, 0⟩ }

/-- One step of the program: the scheduler picks thread `t`. -/
def step (c : Config) (s : State) : Tid → Option State
  | .writer j => writer_fair c.kw s j
  | .reader j => reader_fair c.kr s j

/-- Runs a schedule; `none` when it picks a thread that has no step. -/
def run (c : Config) (s : State) : List Tid → Option State
  | [] => some s
  | t :: ts => (step c s t).bind fun s' => run c s' ts

/-- States visited by a schedule, the first and the last included. -/
def trace (c : Config) (s : State) : List Tid → Option (List State)
  | [] => some [s]
  | t :: ts => (step c s t).bind fun s' => (trace c s' ts).map fun tr => s :: tr

/-- States that some interleaving of the threads reaches from `main`. -/
def Reachable (c : Config) (s : State) : Prop :=
  ∃ sched, run c (main c) sched = some s

/-- Reader program points between a `sem_wait(&l)` and the matching `sem_post(&l)`. -/
def RPc.inL : RPc → Bool
  | .logReq | .postL1 | .logEntry | .postL2 | .logExit | .postL3 => true
  | _ => false

/-- Reader program points between `sem_wait(&serviceQueue)` (line 66) and
`sem_post(&serviceQueue)` (line 71). -/
def RPc.inSQ : RPc → Bool
  | .waitRm | .inc | .test | .waitRes | .postSQ => true
  | _ => false

/-- Reader program points between a `sem_wait(&rmutex)` (lines 67, 88) and the
matching `sem_post(&rmutex)` (lines 72, 92). -/
def RPc.inRm : RPc → Bool
  | .inc | .test | .waitRes | .postSQ | .postRm | .dec | .test2 | .postRes | .postRm2 => true
  | _ => false

/-- The program points of `RPc.inRm` other than the two tests and the two
operations on `resource`. -/
def RPc.rmRest : RPc → Bool
  | .inc | .postSQ | .postRm | .dec | .postRm2 => true
  | _ => false

/-- Reader program points after `readcount++` (line 68) and before `readcount--`
(line 89): the reader is between `acquire_read` and `release_read`. -/
def RPc.counted : RPc → Bool
  | .test | .waitRes | .postSQ | .postRm | .push | .waitL2 | .logEntry | .postL2 | .sleepCS
  | .waitRm2 | .dec => true
  | _ => false

/-- Reader program points past `if (readcount == 1) sem_wait(&resource)` and
before `readcount--`. -/
def RPc.admitted : RPc → Bool
  | .postSQ | .postRm | .push | .waitL2 | .logEntry | .postL2 | .sleepCS | .waitRm2 | .dec => true
  | _ => false

/-- Reader critical section: the entry protocol (lines 66-72) is finished and the
exit protocol (lines 88-92) has not started. -/
def RPc.inCS : RPc → Bool
  | .push | .waitL2 | .logEntry | .postL2 | .sleepCS | .waitRm2 => true
  | _ => false

/-- Reader program points at which the reader group may be holding `resource` on
behalf of this reader: past `if (readcount == 1) sem_wait(&resource)` (lines 69-70)
and before the end of `if (readcount == 0) sem_post(&resource)` (lines 90-91). -/
def RPc.holding : RPc → Bool
  | .postSQ | .postRm | .push | .waitL2 | .logEntry | .postL2 | .sleepCS | .waitRm2 | .dec
  | .test2 | .postRes => true
  | _ => false

/-- The program points of `RPc.admitted` outside the critical section. -/
def RPc.admRest : RPc → Bool
  | .postSQ | .postRm | .dec => true
  | _ => false

/-- Reader program points of an iteration at which line 66 has not returned yet. -/
def RPc.beforeSQ : RPc → Bool
  | .loop | .waitL1 | .logReq | .postL1 | .waitSQ => true
  | _ => false

/-- Reader program points from the return of `sem_wait(&serviceQueue)` (line 66) to
the end of the critical section. -/
def RPc.ticketed : RPc → Bool
  | .waitRm | .inc | .test | .waitRes | .postSQ | .postRm | .push | .waitL2 | .logEntry
  | .postL2 | .sleepCS | .waitRm2 => true
  | _ => false

/-- Writer program points between a `sem_wait(&l)` and the matching `sem_post(&l)`. -/
def WPc.inL : WPc → Bool
  | .logReq | .postL1 | .logEntry | .postL2 | .logExit | .postL3 => true
  | _ => false

/-- Writer program points between `sem_wait(&serviceQueue)` (line 127) and
`sem_post(&serviceQueue)` (line 129). -/
def WPc.inSQ : WPc → Bool
  | .waitRes | .postSQ => true
  | _ => false

/-- Writer critical section: `sem_wait(&resource)` (line 128) has returned and
`sem_post(&resource)` (line 149) is not yet executed. -/
def WPc.inCS : WPc → Bool
  | .postSQ | .push | .waitL2 | .logEntry | .postL2 | .sleepCS | .waitL3 | .logExit | .postL3
  | .postRes => true
  | _ => false

/-- Some thread has not returned from its thread function. -/
def unfinished (s : State) : Prop :=
  (∃ j p, pcAt s.readers j = some p ∧ p ≠ RPc.done)
    ∨ (∃ j p, pcAt s.writers j = some p ∧ p ≠ WPc.done)

/-- Number of readers at program point `p`. -/
abbrev nR (s : State) (p : RPc) : Nat := cnt p s.readers

/-- Number of writers at program point `p`. -/
abbrev nW (s : State) (p : WPc) : Nat := cnt p s.writers

/-- Number of threads between a `sem_wait(&l)` and the matching `sem_post(&l)`. -/
def holdL (s : State) : Nat := cntP RPc.inL s.readers + cntP WPc.inL s.writers

/-- Number of threads between `sem_wait(&serviceQueue)` and `sem_post(&serviceQueue)`. -/
def holdSQ (s : State) : Nat := cntP RPc.inSQ s.readers + cntP WPc.inSQ s.writers

/-- Number of readers between a `sem_wait(&rmutex)` and the matching `sem_post(&rmutex)`. -/
def holdRm (s : State) : Nat := cntP RPc.inRm s.readers

/-- Number of readers past the `if (readcount == 1) sem_wait(&resource)` and before
`readcount--`. -/
def admitted (s : State) : Nat := cntP RPc.admitted s.readers

/-- Number of readers that have executed `readcount++` and not yet `readcount--`. -/
def counted (s : State) : Nat := cntP RPc.counted s.readers

/-- Number of readers inside the critical section. -/
def readersInCS (s : State) : Nat := cntP RPc.inCS s.readers

/-- Number of writers inside the critical section. -/
def writersInCS (s : State) : Nat := cntP WPc.inCS s.writers

/-- The reader group holds `resource`: the first reader of the group has acquired
it (line 70) and the last one has not posted it (line 91). -/
def readersHold (s : State) : Prop := 1 ≤ cntP RPc.holding s.readers

instance (s : State) : Decidable (readersHold s) := by
  unfold readersHold
  infer_instance

/-- Invariant of the fair program: every binary semaphore is accounted for by
the threads between its `sem_wait` and its `sem_post`, and `readcount` counts the
readers between `readcount++` and `readcount--`. -/
@[mk_iff fair_inv_iff]
structure Inv (s : State) : Prop where
  hl : s.l + holdL s = 1
  hsq : s.serviceQueue + holdSQ s = 1
  hrm : s.rmutex + holdRm s = 1
  hrc : s.readcount = ((counted s : Nat) : Int)
  hres1 : s.resource + writersInCS s ≤ 1
  hres2 : readersHold s → s.resource + writersInCS s = 0
  hres3 : ¬ readersHold s → s.resource + writersInCS s = 1
  hpost : 1 ≤ nR s .postRes → s.readcount = 0
  hfirst : 1 ≤ nR s .waitRes → s.readcount = 1

/-- Number of program points of the thread function after this one. -/
def RPc.left : RPc → Nat
  | .loop => 26
  | .waitL1 => 25
  | .logReq => 24
  | .postL1 => 23
  | .waitSQ => 22
  | .waitRm => 21
  | .inc => 20
  | .test => 19
  | .waitRes => 18
  | .postSQ => 17
  | .postRm => 16
  | .push => 15
  | .waitL2 => 14
  | .logEntry => 13
  | .postL2 => 12
  | .sleepCS => 11
  | .waitRm2 => 10
  | .dec => 9
  | .test2 => 8
  | .postRes => 7
  | .postRm2 => 6
  | .waitL3 => 5
  | .logExit => 4
  | .postL3 => 3
  | .sleepRem => 2
  | .avg => 1
  | .done => 0

/-- Program points inside the body of the `for` loop. -/
def RPc.inBody : RPc → Bool
  | .waitL1 | .logReq | .postL1 | .waitSQ | .waitRm | .inc | .test | .waitRes | .postSQ
  | .postRm | .push | .waitL2 | .logEntry | .postL2 | .sleepCS | .waitRm2 | .dec | .test2
  | .postRes | .postRm2 | .waitL3 | .logExit | .postL3 | .sleepRem => true
  | _ => false

/-- Program points of the loop body after `waitTimes.push_back`. -/
def RPc.pushed : RPc → Bool
  | .waitL2 | .logEntry | .postL2 | .sleepCS | .waitRm2 | .dec | .test2 | .postRes
  | .postRm2 | .waitL3 | .logExit | .postL3 | .sleepRem => true
  | _ => false

/-- Program points after the `for` loop. -/
def RPc.finished : RPc → Bool
  | .avg | .done => true
  | _ => false

/-- Number of program points of the thread function after this one. -/
def WPc.left : WPc → Nat
  | .loop => 18
  | .waitL1 => 17
  | .logReq => 16
  | .postL1 => 15
  | .waitSQ => 14
  | .waitRes => 13
  | .postSQ => 12
  | .push => 11
  | .waitL2 => 10
  | .logEntry => 9
  | .postL2 => 8
  | .sleepCS => 7
  | .waitL3 => 6
  | .logExit => 5
  | .postL3 => 4
  | .postRes => 3
  | .sleepRem => 2
  | .avg => 1
  | .done => 0

/-- Program points inside the body of the `for` loop. -/
def WPc.inBody : WPc → Bool
  | .waitL1 | .logReq | .postL1 | .waitSQ | .waitRes | .postSQ | .push | .waitL2
  | .logEntry | .postL2 | .sleepCS | .waitL3 | .logExit | .postL3 | .postRes | .sleepRem => true
  | _ => false

/-- Program points of the loop body after `waitTimes.push_back`. -/
def WPc.pushed : WPc → Bool
  | .waitL2 | .logEntry | .postL2 | .sleepCS | .waitL3 | .logExit | .postL3 | .postRes
  | .sleepRem => true
  | _ => false

/-- Program points after the `for` loop. -/
def WPc.finished : WPc → Bool
  | .avg | .done => true
  | _ => false

/-- Local invariant of a reader thread with repetition count `k`: the loop
variable stays within `k`, it is below `k` inside the loop body and equal to `k`
after the loop, and `waitTimes.size()` is the number of `push_back` calls so far. -/
def RPc.localInv (k : Nat) (t : Th RPc) : Prop :=
  t.i ≤ k ∧ (RPc.inBody t.pc = true → t.i < k) ∧ (RPc.finished t.pc = true → t.i = k)
    ∧ t.nwait = t.i + b2n (RPc.pushed t.pc)

/-- Local invariant of a writer thread with repetition count `k`. -/
def WPc.localInv (k : Nat) (t : Th WPc) : Prop :=
  t.i ≤ k ∧ (WPc.inBody t.pc = true → t.i < k) ∧ (WPc.finished t.pc = true → t.i = k)
    ∧ t.nwait = t.i + b2n (WPc.pushed t.pc)

/-- Upper bound on the number of statements a reader thread can still execute. -/
def RPc.todo (k : Nat) (t : Th RPc) : Nat :=
  if RPc.finished t.pc = true then RPc.left t.pc else (k - t.i) * 25 + RPc.left t.pc

/-- Upper bound on the number of statements a writer thread can still execute. -/
def WPc.todo (k : Nat) (t : Th WPc) : Nat :=
  if WPc.finished t.pc = true then WPc.left t.pc else (k - t.i) * 17 + WPc.left t.pc

/-- Every thread satisfies its local invariant. -/
def LocalInv (c : Config) (s : State) : Prop :=
  (∀ (j : Nat) (t : Th RPc), s.readers[j]? = some t → RPc.localInv c.kr t)
    ∧ (∀ (j : Nat) (t : Th WPc), s.writers[j]? = some t → WPc.localInv c.kw t)

/-- Upper bound on the number of steps the program can still take. -/
def todo (c : Config) (s : State) : Nat :=
  wsum (RPc.todo c.kr) s.readers + wsum (WPc.todo c.kw) s.writers

/-- The state `s` with its shared variables replaced and reader `j` at `t`. -/
def withReader (s : State) (j : Nat) (rc : Int) (res rm sq l : Nat) (log : List LogEvent)
    (t : Th RPc) : State :=
  { readcount := rc, resource := res, rmutex := rm, serviceQueue := sq, l := l,
    fair_rw_log := log, writers := s.writers, readers := s.readers.set j t }

/-- Schedule that lets reader `k` run alone from the top of its loop to the end of
its entry protocol: 11 statements for the reader that finds `readcount == 1`, 10
for the others. -/
def enterSched (k : Nat) : List Tid :=
  List.replicate (if k = 0 then 11 else 10) (.reader k)

/-- Schedule that admits readers `0, ..., k - 1` one after the other. -/
def crowdSched : Nat → List Tid
  | 0 => []
  | k + 1 => crowdSched k ++ enterSched k

end Fair

/-! ## The writer-preference program (`rw-CS22BTECH11018.cpp`) -/

namespace WP

open RW

/-- Program points of `reader`. -/
inductive RPc where
  | loop      -- line 55: `i < kr`
  | waitL1    -- line 59: `sem_wait(&l)`
  | logReq    -- line 61: log `CS Request`
  | postL1    -- line 63: `sem_post(&l)`
  | waitTry   -- line 64: `sem_wait(&readTry)`
  | waitRl    -- line 65: `sem_wait(&read_lock)`
  | inc       -- line 66: `readcount++`
  | test      -- line 67: `if (readcount == 1)`
  | waitRes   -- line 68: `sem_wait(&read_write_lock)`
  | postRl    -- line 69: `sem_post(&read_lock)`
  | postTry   -- line 70: `sem_post(&readTry)`
  | push      -- lines 71-73: `waitTimes.push_back(wait_time)`
  | waitL2    -- line 75: `sem_wait(&l)`
  | logEntry  -- line 77: log `CS Entry`
  | postL2    -- line 79: `sem_post(&l)`
  | sleepCS   -- lines 81-82: critical-section delay
  | waitRl2   -- line 85: `sem_wait(&read_lock)`
  | dec       -- line 86: `readcount--`
  | test2     -- line 87: `if (readcount == 0)`
  | postRes   -- line 88: `sem_post(&read_write_lock)`
  | postRl2   -- line 89: `sem_post(&read_lock)`
  | waitL3    -- line 90: `sem_wait(&l)`
  | logExit   -- line 91: log `CS Exit`
  | postL3    -- line 93: `sem_post(&l)`
  | sleepRem  -- lines 95-96 and `++i`
  | done
deriving DecidableEq, Repr

/-- Program points of `writer`. -/
inductive WPc where
  | loop      -- line 107: `i < kw`
  | waitL1    -- line 111: `sem_wait(&l)`
  | logReq    -- line 113: log `CS Request`
  | postL1    -- line 115: `sem_post(&l)`
  | waitWl    -- line 116: `sem_wait(&write_lock)`
  | inc       -- line 117: `writecount++`
  | test      -- line 118: `if (writecount == 1)`
  | waitTry   -- line 119: `sem_wait(&readTry)`
  | postWl    -- line 120: `sem_post(&write_lock)`
  | waitRes   -- line 121: `sem_wait(&read_write_lock)`
  | push      -- lines 122-124: `waitTimes.push_back(wait_time)`
  | waitL2    -- line 125: `sem_wait(&l)`
  | logEntry  -- line 127: log `CS Entry`
  | postL2    -- line 129: `sem_post(&l)`
  | sleepCS   -- lines 131-132: critical-section delay
  | waitL3    -- line 133: `sem_wait(&l)`
  | logExit   -- line 135: log `CS Exit`
  | postL3    -- line 137: `sem_post(&l)`
  | postRes   -- line 138: `sem_post(&read_write_lock)`
  | waitWl2   -- line 140: `sem_wait(&write_lock)`
  | dec       -- line 141: `writecount--`
  | test2     -- line 142: `if (writecount == 0)`
  | postTry   -- line 143: `sem_post(&readTry)`
  | postWl2   -- line 144: `sem_post(&write_lock)`
  | sleepRem  -- lines 147-148 and `++i`
  | done
deriving DecidableEq, Repr

/-- Shared state of the writer-preference program and the local states of its
threads; `rw_lock` is the log stream. -/
structure State where
  readcount : Int
  writecount : Int
  read_lock : Nat
  write_lock : Nat
  readTry : Nat
  read_write_lock : Nat
  l : Nat
  rw_lock : List LogEvent
  writers : List (Th WPc)
  readers : List (Th RPc)
deriving DecidableEq, Repr

/-- One statement of reader thread `j` (`reader(j + 1, kr, _)`). -/
def reader (kr : Nat) (s : State) (j : Nat) : Option State :=
  match s.readers[j]? with
  | none => none
  | some t =>
    match t.pc with
    | .loop =>
      if t.i < kr then some { s with readers := s.readers.set j { t with pc := .waitL1 } }
      else some { s with readers := s.readers.set j { t with pc := .done } }
    | .waitL1 =>
      (sem_wait s.l).map fun v =>
        { s with l := v, readers := s.readers.set j { t with pc := .logReq } }
    | .logReq =>
      some { s with
        rw_lock := s.rw_lock ++ [⟨t.i + 1, .Reader, .Request, j + 1⟩],
        readers := s.readers.set j { t with pc := .postL1 } }
    | .postL1 =>
      some { s with l := sem_post s.l, readers := s.readers.set j { t with pc := .waitTry } }
    | .waitTry =>
      (sem_wait s.readTry).map fun v =>
        { s with readTry := v, readers := s.readers.set j { t with pc := .waitRl } }
    | .waitRl =>
      (sem_wait s.read_lock).map fun v =>
        { s with read_lock := v, readers := s.readers.set j { t with pc := .inc } }
    | .inc =>
      some { s with
        readcount := s.readcount + 1,
        readers := s.readers.set j { t with pc := .test } }
    | .test =>
      if s.readcount = 1 then
        some { s with readers := s.readers.set j { t with pc := .waitRes } }
      else some { s with readers := s.readers.set j { t with pc := .postRl } }
    | .waitRes =>
      (sem_wait s.read_write_lock).map fun v =>
        { s with read_write_lock := v, readers := s.readers.set j { t with pc := .postRl } }
    | .postRl =>
      some { s with
        read_lock := sem_post s.read_lock,
        readers := s.readers.set j { t with pc := .postTry } }
    | .postTry =>
      some { s with
        readTry := sem_post s.readTry,
        readers := s.readers.set j { t with pc := .push } }
    | .push =>
      some { s with readers := s.readers.set j { t with pc := .waitL2, nwait := t.nwait + 1 } }
    | .waitL2 =>
      (sem_wait s.l).map fun v =>
        { s with l := v, readers := s.readers.set j { t with pc := .logEntry } }
    | .logEntry =>
      some { s with
        rw_lock := s.rw_lock ++ [⟨t.i + 1, .Reader, .Entry, j + 1⟩],
        readers := s.readers.set j { t with pc := .postL2 } }
    | .postL2 =>
      some { s with l := sem_post s.l, readers := s.readers.set j { t with pc := .sleepCS } }
    | .sleepCS =>
      some { s with readers := s.readers.set j { t with pc := .waitRl2 } }
    | .waitRl2 =>
      (sem_wait s.read_lock).map fun v =>
        { s with read_lock := v, readers := s.readers.set j { t with pc := .dec } }
    | .dec =>
      some { s with
        readcount := s.readcount - 1,
        readers := s.readers.set j { t with pc := .test2 } }
    | .test2 =>
      if s.readcount = 0 then
        some { s with readers := s.readers.set j { t with pc := .postRes } }
      else some { s with readers := s.readers.set j { t with pc := .postRl2 } }
    | .postRes =>
      some { s with
        read_write_lock := sem_post s.read_write_lock,
        readers := s.readers.set j { t with pc := .postRl2 } }
    | .postRl2 =>
      some { s with
        read_lock := sem_post s.read_lock,
        readers := s.readers.set j { t with pc := .waitL3 } }
    | .waitL3 =>
      (sem_wait s.l).map fun v =>
        { s with l := v, readers := s.readers.set j { t with pc := .logExit } }
    | .logExit =>
      some { s with
        rw_lock := s.rw_lock ++ [⟨t.i + 1, .Reader, .Exit, j + 1⟩],
        readers := s.readers.set j { t with pc := .postL3 } }
    | .postL3 =>
      some { s with l := sem_post s.l, readers := s.readers.set j { t with pc := .sleepRem } }
    | .sleepRem =>
      some { s with readers := s.readers.set j { t with pc := .loop, i := t.i + 1 } }
    | .done => none

/-- One statement of writer thread `j` (`writer(j + 1, kw, _)`). -/
def writer (kw : Nat) (s : State) (j : Nat) : Option State :=
  match s.writers[j]? with
  | none => none
  | some t =>
    match t.pc with
    | .loop =>
      if t.i < kw then some { s with writers := s.writers.set j { t with pc := .waitL1 } }
      else some { s with writers := s.writers.set j { t with pc := .done } }
    | .waitL1 =>
      (sem_wait s.l).map fun v =>
        { s with l := v, writers := s.writers.set j { t with pc := .logReq } }
    | .logReq =>
      some { s with
        rw_lock := s.rw_lock ++ [⟨t.i + 1, .Writer, .Request, j + 1⟩],
        writers := s.writers.set j { t with pc := .postL1 } }
    | .postL1 =>
      some { s with l := sem_post s.l, writers := s.writers.set j { t with pc := .waitWl } }
    | .waitWl =>
      (sem_wait s.write_lock).map fun v =>
        { s with write_lock := v, writers := s.writers.set j { t with pc := .inc } }
    | .inc =>
      some { s with
        writecount := s.writecount + 1,
        writers := s.writers.set j { t with pc := .test } }
    | .test =>
      if s.writecount = 1 then
        some { s with writers := s.writers.set j { t with pc := .waitTry } }
      else some { s with writers := s.writers.set j { t with pc := .postWl } }
    | .waitTry =>
      (sem_wait s.readTry).map fun v =>
        { s with readTry := v, writers := s.writers.set j { t with pc := .postWl } }
    | .postWl =>
      some { s with
        write_lock := sem_post s.write_lock,
        writers := s.writers.set j { t with pc := .waitRes } }
    | .waitRes =>
      (sem_wait s.read_write_lock).map fun v =>
        { s with read_write_lock := v, writers := s.writers.set j { t with pc := .push } }
    | .push =>
      some { s with writers := s.writers.set j { t with pc := .waitL2, nwait := t.nwait + 1 } }
    | .waitL2 =>
      (sem_wait s.l).map fun v =>
        { s with l := v, writers := s.writers.set j { t with pc := .logEntry } }
    | .logEntry =>
      some { s with
        rw_lock := s.rw_lock ++ [⟨t.i + 1, .Writer, .Entry, j + 1⟩],
        writers := s.writers.set j { t with pc := .postL2 } }
    | .postL2 =>
      some { s with l := sem_post s.l, writers := s.writers.set j { t with pc := .sleepCS } }
    | .sleepCS =>
      some { s with writers := s.writers.set j { t with pc := .waitL3 } }
    | .waitL3 =>
      (sem_wait s.l).map fun v =>
        { s with l := v, writers := s.writers.set j { t with pc := .logExit } }
    | .logExit =>
      some { s with
        rw_lock := s.rw_lock ++ [⟨t.i + 1, .Writer, .Exit, j + 1⟩],
        writers := s.writers.set j { t with pc := .postL3 } }
    | .postL3 =>
      some { s with l := sem_post s.l, writers := s.writers.set j { t with pc := .postRes } }
    | .postRes =>
      some { s with
        read_write_lock := sem_post s.read_write_lock,
        writers := s.writers.set j { t with pc := .waitWl2 } }
    | .waitWl2 =>
      (sem_wait s.write_lock).map fun v =>
        { s with write_lock := v, writers := s.writers.set j { t with pc := .dec } }
    | .dec =>
      some { s with
        writecount := s.writecount - 1,
        writers := s.writers.set j { t with pc := .test2 } }
    | .test2 =>
      if s.writecount = 0 then
        some { s with writers := s.writers.set j { t with pc := .postTry } }
      else some { s with writers := s.writers.set j { t with pc := .postWl2 } }
    | .postTry =>
      some { s with
        readTry := sem_post s.readTry,
        writers := s.writers.set j { t with pc := .postWl2 } }
    | .postWl2 =>
      some { s with
        write_lock := sem_post s.write_lock,
        writers := s.writers.set j { t with pc := .sleepRem } }
    | .sleepRem =>
      some { s with writers := s.writers.set j { t with pc := .loop, i := t.i + 1 } }
    | .done => none

/-- State in which `main` has initialised the five semaphores to 1 and created
`nw` writer threads and `nr` reader threads (lines 170-190).  All threads are
present from the start: a thread that `main` has not created yet behaves like one
that has not been scheduled yet. -/
def main (c : Config) : State :=
  { readcount := 0, writecount := 0, read_lock := 1, write_lock := 1, readTry := 1,
    read_write_lock := 1, l := 1, rw_lock := [],
    writers := List.replicate c.nw ⟨.loop, 0, 0⟩,
    readers := List.replicate c.nr ⟨.loop, 0, 0⟩ }

/-- One step of the program: the scheduler picks thread `t`. -/
def step (c : Config) (s : State) : Tid → Option State
  | .writer j => writer c.kw s j
  | .reader j => reader c.kr s j

/-- Runs a schedule; `none` when it picks a thread that has no step. -/
def run (c : Config) (s : State) : List Tid → Option State
  | [] => some s
  | t :: ts => (step c s t).bind fun s' => run c s' ts

/-- States visited by a schedule, the first and the last included. -/
def trace (c : Config) (s : State) : List Tid → Option (List State)
  | [] => some [s]
  | t :: ts => (step c s t).bind fun s' => (trace c s' ts).map fun tr => s :: tr

/-- States that some interleaving of the threads reaches from `main`. -/
def Reachable (c : Config) (s : State) : Prop :=
  ∃ sched, run c (main c) sched = some s

/-- Reader program points between a `sem_wait(&l)` and the matching `sem_post(&l)`. -/
def RPc.inL : RPc → Bool
  | .logReq | .postL1 | .logEntry | .postL2 | .logExit | .postL3 => true
  | _ => false

/-- Reader program points between `sem_wait(&readTry)` (line 64) and
`sem_post(&readTry)` (line 70). -/
def RPc.inTry : RPc → Bool
  | .waitRl | .inc | .test | .waitRes | .postRl | .postTry => true
  | _ => false

/-- The program points of `RPc.inTry` other than line 67 and line 68. -/
def RPc.tryRest : RPc → Bool
  | .waitRl | .inc | .postRl | .postTry => true
  | _ => false

/-- Reader program points between a `sem_wait(&read_lock)` (lines 65, 85) and the
matching `sem_post(&read_lock)` (lines 69, 89). -/
def RPc.inRl : RPc → Bool
  | .inc | .test | .waitRes | .postRl | .dec | .test2 | .postRes | .postRl2 => true
  | _ => false

/-- The program points of `RPc.inRl` other than the two tests and the two
operations on `read_write_lock`. -/
def RPc.rlRest : RPc → Bool
  | .inc | .postRl | .dec | .postRl2 => true
  | _ => false

/-- Reader program points after `readcount++` (line 66) and before `readcount--`
(line 86): the reader is between `acquire_read` and `release_read`. -/
def RPc.counted : RPc → Bool
  | .test | .waitRes | .postRl | .postTry | .push | .waitL2 | .logEntry | .postL2 | .sleepCS
  | .waitRl2 | .dec => true
  | _ => false

/-- Reader program points past `if (readcount == 1) sem_wait(&read_write_lock)` and
before `readcount--`. -/
def RPc.admitted : RPc → Bool
  | .postRl | .postTry | .push | .waitL2 | .logEntry | .postL2 | .sleepCS | .waitRl2
  | .dec => true
  | _ => false

/-- Reader program points at which the reader group may be holding
`read_write_lock` on behalf of this reader: past lines 67-68 and before the end
of lines 87-88. -/
def RPc.holding : RPc → Bool
  | .postRl | .postTry | .push | .waitL2 | .logEntry | .postL2 | .sleepCS | .waitRl2 | .dec
  | .test2 | .postRes => true
  | _ => false

/-- Reader critical section: the entry protocol (lines 64-70) is finished and the
exit protocol (lines 85-89) has not started. -/
def RPc.inCS : RPc → Bool
  | .push | .waitL2 | .logEntry | .postL2 | .sleepCS | .waitRl2 => true
  | _ => false

/-- The program points of `RPc.admitted` outside the critical section. -/
def RPc.admRest : RPc → Bool
  | .postRl | .postTry | .dec => true
  | _ => false

/-- Reader program points of an iteration at which line 64 has not returned yet. -/
def RPc.beforeTry : RPc → Bool
  | .loop | .waitL1 | .logReq | .postL1 | .waitTry => true
  | _ => false

/-- Reader program points from the return of `sem_wait(&readTry)` (line 64) to the
end of the critical section. -/
def RPc.ticketed : RPc → Bool
  | .waitRl | .inc | .test | .waitRes | .postRl | .postTry | .push | .waitL2 | .logEntry
  | .postL2 | .sleepCS | .waitRl2 => true
  | _ => false

/-- Writer program points between a `sem_wait(&l)` and the matching `sem_post(&l)`. -/
def WPc.inL : WPc → Bool
  | .logReq | .postL1 | .logEntry | .postL2 | .logExit | .postL3 => true
  | _ => false

/-- Writer program points between a `sem_wait(&write_lock)` (lines 116, 140) and
the matching `sem_post(&write_lock)` (lines 120, 144). -/
def WPc.inWl : WPc → Bool
  | .inc | .test | .waitTry | .postWl | .dec | .test2 | .postTry | .postWl2 => true
  | _ => false

/-- The program points of `WPc.inWl` other than the two tests and the two
operations on `readTry`. -/
def WPc.wlRest : WPc → Bool
  | .inc | .postWl | .dec | .postWl2 => true
  | _ => false

/-- Writer program points after `writecount++` (line 117) and before
`writecount--` (line 141). -/
def WPc.counted : WPc → Bool
  | .test | .waitTry | .postWl | .waitRes | .push | .waitL2 | .logEntry | .postL2 | .sleepCS
  | .waitL3 | .logExit | .postL3 | .postRes | .waitWl2 | .dec => true
  | _ => false

/-- Writer program points past `if (writecount == 1) sem_wait(&readTry)` and before
`writecount--`. -/
def WPc.admitted : WPc → Bool
  | .postWl | .waitRes | .push | .waitL2 | .logEntry | .postL2 | .sleepCS
  | .waitL3 | .logExit | .postL3 | .postRes | .waitWl2 | .dec => true
  | _ => false

/-- Writer program points at which the writer group may be holding `readTry` on
behalf of this writer: past lines 118-119 and before the end of lines 142-143. -/
def WPc.holding : WPc → Bool
  | .postWl | .waitRes | .push | .waitL2 | .logEntry | .postL2 | .sleepCS
  | .waitL3 | .logExit | .postL3 | .postRes | .waitWl2 | .dec | .test2 | .postTry => true
  | _ => false

/-- Writer critical section: `sem_wait(&read_write_lock)` (line 121) has returned
and `sem_post(&read_write_lock)` (line 138) is not yet executed. -/
def WPc.inCS : WPc → Bool
  | .push | .waitL2 | .logEntry | .postL2 | .sleepCS | .waitL3 | .logExit | .postL3
  | .postRes => true
  | _ => false

/-- The program points of `WPc.admitted` outside the critical section. -/
def WPc.admRest : WPc → Bool
  | .postWl | .waitRes | .waitWl2 | .dec => true
  | _ => false

/-- Some thread has not returned from its thread function. -/
def unfinished (s : State) : Prop :=
  (∃ j p, pcAt s.readers j = some p ∧ p ≠ RPc.done)
    ∨ (∃ j p, pcAt s.writers j = some p ∧ p ≠ WPc.done)

/-- Number of readers at program point `p`. -/
abbrev nR (s : State) (p : RPc) : Nat := cnt p s.readers

/-- Number of writers at program point `p`. -/
abbrev nW (s : State) (p : WPc) : Nat := cnt p s.writers

/-- Number of threads between a `sem_wait(&l)` and the matching `sem_post(&l)`. -/
def holdL (s : State) : Nat := cntP RPc.inL s.readers + cntP WPc.inL s.writers

/-- Number of readers between `sem_wait(&readTry)` and `sem_post(&readTry)`. -/
def holdTry (s : State) : Nat := cntP RPc.inTry s.readers

/-- Number of readers between a `sem_wait(&read_lock)` and the matching post. -/
def holdRl (s : State) : Nat := cntP RPc.inRl s.readers

/-- Number of writers between a `sem_wait(&write_lock)` and the matching post. -/
def holdWl (s : State) : Nat := cntP WPc.inWl s.writers

/-- Number of readers that have executed `readcount++` and not yet `readcount--`. -/
def counted (s : State) : Nat := cntP RPc.counted s.readers

/-- Number of writers that have executed `writecount++` and not yet `writecount--`. -/
def countedW (s : State) : Nat := cntP WPc.counted s.writers

/-- Number of readers inside the critical section. -/
def readersInCS (s : State) : Nat := cntP RPc.inCS s.readers

/-- Number of writers inside the critical section. -/
def writersInCS (s : State) : Nat := cntP WPc.inCS s.writers

/-- The reader group holds `read_write_lock`: the first reader of the group has
acquired it (line 68) and the last one has not posted it (line 88). -/
def readersHold (s : State) : Prop := 1 ≤ cntP RPc.holding s.readers

/-- The writer group holds `readTry`: the first writer of the group has acquired
it (line 119) and the last one has not posted it (line 143). -/
def writersHoldTry (s : State) : Prop := 1 ≤ cntP WPc.holding s.writers

instance (s : State) : Decidable (readersHold s) := by
  unfold readersHold
  infer_instance

instance (s : State) : Decidable (writersHoldTry s) := by
  unfold writersHoldTry
  infer_instance

/-- Invariant of the writer-preference program: every binary semaphore is
accounted for by the threads (or the group) between its `sem_wait` and its
`sem_post`, and the two counters count the threads between `++` and `--`. -/
@[mk_iff wp_inv_iff]
structure Inv (s : State) : Prop where
  hl : s.l + holdL s = 1
  hrl : s.read_lock + holdRl s = 1
  hwl : s.write_lock + holdWl s = 1
  hrc : s.readcount = ((counted s : Nat) : Int)
  hwc : s.writecount = ((countedW s : Nat) : Int)
  hres1 : s.read_write_lock + writersInCS s ≤ 1
  hres2 : readersHold s → s.read_write_lock + writersInCS s = 0
  hres3 : ¬ readersHold s → s.read_write_lock + writersInCS s = 1
  htry1 : s.readTry + holdTry s ≤ 1
  htry2 : writersHoldTry s → s.readTry + holdTry s = 0
  htry3 : ¬ writersHoldTry s → s.readTry + holdTry s = 1
  hpostR : 1 ≤ nR s .postRes → s.readcount = 0
  hfirstR : 1 ≤ nR s .waitRes → s.readcount = 1
  hpostW : 1 ≤ nW s .postTry → s.writecount = 0
  hfirstW : 1 ≤ nW s .waitTry → s.writecount = 1

/-- Number of program points of the thread function after this one. -/
def RPc.left : RPc → Nat
  | .loop => 25
  | .waitL1 => 24
  | .logReq => 23
  | .postL1 => 22
  | .waitTry => 21
  | .waitRl => 20
  | .inc => 19
  | .test => 18
  | .waitRes => 17
  | .postRl => 16
  | .postTry => 15
  | .push => 14
  | .waitL2 => 13
  | .logEntry => 12
  | .postL2 => 11
  | .sleepCS => 10
  | .waitRl2 => 9
  | .dec => 8
  | .test2 => 7
  | .postRes => 6
  | .postRl2 => 5
  | .waitL3 => 4
  | .logExit => 3
  | .postL3 => 2
  | .sleepRem => 1
  | .done => 0

/-- Program points inside the body of the `for` loop. -/
def RPc.inBody : RPc → Bool
  | .waitL1 | .logReq | .postL1 | .waitTry | .waitRl | .inc | .test | .waitRes | .postRl
  | .postTry | .push | .waitL2 | .logEntry | .postL2 | .sleepCS | .waitRl2 | .dec
  | .test2 | .postRes | .postRl2 | .waitL3 | .logExit | .postL3 | .sleepRem => true
  | _ => false

/-- Program points of the loop body after `waitTimes.push_back`. -/
def RPc.pushed : RPc → Bool
  | .waitL2 | .logEntry | .postL2 | .sleepCS | .waitRl2 | .dec | .test2 | .postRes
  | .postRl2 | .waitL3 | .logExit | .postL3 | .sleepRem => true
  | _ => false

/-- Program points after the `for` loop. -/
def RPc.finished : RPc → Bool
  | .done => true
  | _ => false

/-- Number of program points of the thread function after this one. -/
def WPc.left : WPc → Nat
  | .loop => 25
  | .waitL1 => 24
  | .logReq => 23
  | .postL1 => 22
  | .waitWl => 21
  | .inc => 20
  | .test => 19
  | .waitTry => 18
  | .postWl => 17
  | .waitRes => 16
  | .push => 15
  | .waitL2 => 14
  | .logEntry => 13
  | .postL2 => 12
  | .sleepCS => 11
  | .waitL3 => 10
  | .logExit => 9
  | .postL3 => 8
  | .postRes => 7
  | .waitWl2 => 6
  | .dec => 5
  | .test2 => 4
  | .postTry => 3
  | .postWl2 => 2
  | .sleepRem => 1
  | .done => 0

/-- Program points inside the body of the `for` loop. -/
def WPc.inBody : WPc → Bool
  | .waitL1 | .logReq | .postL1 | .waitWl | .inc | .test | .waitTry | .postWl | .waitRes
  | .push | .waitL2 | .logEntry | .postL2 | .sleepCS | .waitL3 | .logExit | .postL3
  | .postRes | .waitWl2 | .dec | .test2 | .postTry | .postWl2 | .sleepRem => true
  | _ => false

/-- Program points of the loop body after `waitTimes.push_back`. -/
def WPc.pushed : WPc → Bool
  | .waitL2 | .logEntry | .postL2 | .sleepCS | .waitL3 | .logExit | .postL3 | .postRes
  | .waitWl2 | .dec | .test2 | .postTry | .postWl2 | .sleepRem => true
  | _ => false

/-- Program points after the `for` loop. -/
def WPc.finished : WPc → Bool
  | .done => true
  | _ => false

/-- Local invariant of a reader thread with repetition count `k`: the loop
variable stays within `k`, it is below `k` inside the loop body and equal to `k`
after the loop, and `waitTimes.size()` is the number of `push_back` calls so far. -/
def RPc.localInv (k : Nat) (t : Th RPc) : Prop :=
  t.i ≤ k ∧ (RPc.inBody t.pc = true → t.i < k) ∧ (RPc.finished t.pc = true → t.i = k)
    ∧ t.nwait = t.i + b2n (RPc.pushed t.pc)

/-- Local invariant of a writer thread with repetition count `k`. -/
def WPc.localInv (k : Nat) (t : Th WPc) : Prop :=
  t.i ≤ k ∧ (WPc.inBody t.pc = true → t.i < k) ∧ (WPc.finished t.pc = true → t.i = k)
    ∧ t.nwait = t.i + b2n (WPc.pushed t.pc)

/-- Upper bound on the number of statements a reader thread can still execute. -/
def RPc.todo (k : Nat) (t : Th RPc) : Nat :=
  if RPc.finished t.pc = true then RPc.left t.pc else (k - t.i) * 25 + RPc.left t.pc

/-- Upper bound on the number of statements a writer thread can still execute. -/
def WPc.todo (k : Nat) (t : Th WPc) : Nat :=
  if WPc.finished t.pc = true then WPc.left t.pc else (k - t.i) * 25 + WPc.left t.pc

/-- Every thread satisfies its local invariant. -/
def LocalInv (c : Config) (s : State) : Prop :=
  (∀ (j : Nat) (t : Th RPc), s.readers[j]? = some t → RPc.localInv c.kr t)
    ∧ (∀ (j : Nat) (t : Th WPc), s.writers[j]? = some t → WPc.localInv c.kw t)

/-- Upper bound on the number of steps the program can still take. -/
def todo (c : Config) (s : State) : Nat :=
  wsum (RPc.todo c.kr) s.readers + wsum (WPc.todo c.kw) s.writers

/-- The state `s` with the shared variables of a reader replaced and reader `j`
at `t`. -/
def withReader (s : State) (j : Nat) (rc : Int) (res rl tr l : Nat) (log : List LogEvent)
    (t : Th RPc) : State :=
  { readcount := rc, writecount := s.writecount, read_lock := rl, write_lock := s.write_lock,
    readTry := tr, read_write_lock := res, l := l, rw_lock := log, writers := s.writers,
    readers := s.readers.set j t }

/-- Schedule that lets reader `k` run alone from the top of its loop to the end of
its entry protocol: 11 statements for the reader that finds `readcount == 1`, 10
for the others. -/
def enterSched (k : Nat) : List Tid :=
  List.replicate (if k = 0 then 11 else 10) (.reader k)

/-- Schedule that admits readers `0, ..., k - 1` one after the other. -/
def crowdSched : Nat → List Tid
  | 0 => []
  | k + 1 => crowdSched k ++ enterSched k

end WP

/-! ## The averaging code of the two programs -/

namespace Avg

/-- A `double`: a rational (rounding is not modelled), or `none` for a
non-finite value (NaN or an infinity). -/
abbrev Dbl := Option ℚ

/-- A value together with the divisors of the divisions executed to compute it. -/
structure Traced (α : Type) where
  val : α
  divisors : List Nat

/-- Addition of doubles (`+=`): a non-finite operand gives a non-finite sum. -/
def dadd (x y : Dbl) : Dbl :=
  match x, y with
  | some a, some b => some (a + b)
  | _, _ => none

/-- Division `x / n` of a double by an integer count.  The C++ operator has no
check of its own: with `n = 0` the quotient is NaN or an infinity. -/
def ddiv (x : Dbl) (n : Nat) : Traced Dbl :=
  { val := match x with
      | some a => if n = 0 then none else some (a / (n : ℚ))
      | none => none,
    divisors := [n] }

/-- What `main` writes to the averages file. -/
structure Report where
  readerAvg : List Dbl
  writerAvg : List Dbl
  overallAvgReaderWaitTime : Dbl
  overallAvgWriterWaitTime : Dbl

/-- The mean of a list of samples in the words of the specification: the sum of
the samples divided by their number. -/
def specMean (waitTimes : List ℚ) : ℚ :=
  waitTimes.sum / (waitTimes.length : ℚ)

end Avg

namespace Fair

open Avg

/-- Lines 103-109 of `reader_fair`: `totalWaitTime` accumulates the samples in a
loop and `avgWaitTime = totalWaitTime / waitTimes.size()`. -/
def reader_fair_avg (waitTimes : List ℚ) : Traced Dbl :=
  let totalWaitTime : ℚ := waitTimes.foldl (fun total wt => total + wt) 0
  ddiv (some totalWaitTime) waitTimes.length

/-- Lines 156-162 of `writer_fair`, the same computation for a writer. -/
def writer_fair_avg (waitTimes : List ℚ) : Traced Dbl :=
  let totalWaitTime : ℚ := waitTimes.foldl (fun total wt => total + wt) 0
  ddiv (some totalWaitTime) waitTimes.length

/-- Lines 226-251 of `main` in the fair program, after all threads are joined:
`readerWaitTimes[i]` and `writerWaitTimes[i]` hold the samples of thread `i`, whose
`avgWaitTime` the thread has computed itself; `nr` and `nw` are the sizes of the
two vectors. -/
def main_report (readerWaitTimes writerWaitTimes : List (List ℚ)) : Traced Report :=
  let nr := readerWaitTimes.length
  let nw := writerWaitTimes.length
  let rs := readerWaitTimes.map reader_fair_avg
  let ws := writerWaitTimes.map writer_fair_avg
  let totalReaderWaitTime : Dbl := rs.foldl (fun total a => dadd total a.val) (some 0)
  let totalWriterWaitTime : Dbl := ws.foldl (fun total a => dadd total a.val) (some 0)
  let overallR := ddiv totalReaderWaitTime nr
  let overallW := ddiv totalWriterWaitTime nw
  { val :=
      { readerAvg := rs.map (fun a => a.val),
        writerAvg := ws.map (fun a => a.val),
        overallAvgReaderWaitTime := overallR.val,
        overallAvgWriterWaitTime := overallW.val },
    divisors :=
      (rs.map (fun a => a.divisors)).flatten ++ (ws.map (fun a => a.divisors)).flatten
        ++ overallR.divisors ++ overallW.divisors }

end Fair

namespace WP

open Avg

/-- Lines 217 and 228 of `main`: `accumulate(begin, end, 0.0) / waitTimes.size()`. -/
def main_thread_avg (waitTimes : List ℚ) : Traced Dbl :=
  ddiv (some (waitTimes.foldl (fun acc wt => acc + wt) 0)) waitTimes.length

/-- Lines 213-240 of `main` in the writer-preference program, after all threads
are joined. -/
def main_report (readerWaitTimes writerWaitTimes : List (List ℚ)) : Traced Report :=
  let nr := readerWaitTimes.length
  let nw := writerWaitTimes.length
  let rs := readerWaitTimes.map main_thread_avg
  let ws := writerWaitTimes.map main_thread_avg
  let totalReaderWaitTime : Dbl := rs.foldl (fun total a => dadd total a.val) (some 0)
  let totalWriterWaitTime : Dbl := ws.foldl (fun total a => dadd total a.val) (some 0)
  let overallR := ddiv totalReaderWaitTime nr
  let overallW := ddiv totalWriterWaitTime nw
  { val :=
      { readerAvg := rs.map (fun a => a.val),
        writerAvg := ws.map (fun a => a.val),
        overallAvgReaderWaitTime := overallR.val,
        overallAvgWriterWaitTime := overallW.val },
    divisors :=
      (rs.map (fun a => a.divisors)).flatten ++ (ws.map (fun a => a.divisors)).flatten
        ++ overallR.divisors ++ overallW.divisors }

end WP

/-! ## Concrete schedules -/

namespace Fair

open RW

/-- Two writers and two readers, one iteration each. -/
def exConfig : Config := ⟨2, 2, 1, 1⟩

/-- Writer 0 runs into its critical section (7 statements); then writer 1 takes
`serviceQueue` and reaches line 128, where `resource` is 0 (5 statements). -/
def exQueued : List Tid :=
  List.replicate 7 (.writer 0) ++ List.replicate 5 (.writer 1)

/-- State after the schedule `exQueued`. -/
def exQueuedState : State :=
  (run exConfig (main exConfig) exQueued).getD (main exConfig)

/-- A wave of two readers requests: each runs up to line 66 (4 statements). -/
def exWave : List Tid :=
  List.replicate 4 (.reader 0) ++ List.replicate 4 (.reader 1)

/-- States visited by `exWave` from `exQueuedState`. -/
def exWaveTrace : List State :=
  (trace exConfig exQueuedState exWave).getD []

/-- Writer 0 runs into its critical section (7 statements); then reader 0 runs up
to and including `readcount++` (7 statements). -/
def exWriterThenReader : List Tid :=
  List.replicate 7 (.writer 0) ++ List.replicate 7 (.reader 0)

/-- State after the schedule `exWriterThenReader`. -/
def exWriterThenReaderState : State :=
  (run exConfig (main exConfig) exWriterThenReader).getD (main exConfig)

/-- Reader 0 runs alone up to line 89, `readcount--` (17 statements). -/
def exReaderToDec : List Tid := List.replicate 17 (.reader 0)

/-- State after the schedule `exReaderToDec`. -/
def exDecState : State :=
  (run exConfig (main exConfig) exReaderToDec).getD (main exConfig)

/-- State after reader 0 has executed `readcount--` in `exDecState`. -/
def exAfterDecState : State :=
  (step exConfig exDecState (.reader 0)).getD exDecState

/-- Reader 0 runs alone into its critical-section delay (15 statements). -/
def exReaderDelay : List Tid := List.replicate 15 (.reader 0)

/-- State after the schedule `exReaderDelay`. -/
def exDelayState : State :=
  (run exConfig (main exConfig) exReaderDelay).getD (main exConfig)

/-- One writer and one reader that run their loops zero times. -/
def exZeroConfig : Config := ⟨1, 1, 0, 0⟩

/-- State in which both threads of `exZeroConfig` have left their loops and are
about to compute their averages. -/
def exZeroState : State :=
  (run exZeroConfig (main exZeroConfig) [.reader 0, .writer 0]).getD (main exZeroConfig)

/-- The configuration `nw = 2`, `nr = 3`, `kw = 3`, `kr = 3`. -/
def exBusyConfig : Config := ⟨2, 3, 3, 3⟩

/-- Writer 0 runs into its critical section (7 statements), writer 1 takes
`serviceQueue` and reaches line 128 (5 statements), and each of the three readers
runs up to line 66 (4 statements each). -/
def exBusy : List Tid :=
  List.replicate 7 (.writer 0) ++ List.replicate 5 (.writer 1)
    ++ List.replicate 4 (.reader 0) ++ List.replicate 4 (.reader 1)
    ++ List.replicate 4 (.reader 2)

/-- State after the schedule `exBusy`: writer 1 and the three readers are blocked. -/
def exBusyState : State :=
  (run exBusyConfig (main exBusyConfig) exBusy).getD (main exBusyConfig)

end Fair

namespace WP

open RW

/-- Two writers and two readers, one iteration each. -/
def exConfig : Config := ⟨2, 2, 1, 1⟩

/-- Writer 0 runs into its critical section (10 statements); then writer 1
registers in `writecount` and reaches line 121, where `read_write_lock` is 0
(8 statements). -/
def exQueued : List Tid :=
  List.replicate 10 (.writer 0) ++ List.replicate 8 (.writer 1)

/-- State after the schedule `exQueued`. -/
def exQueuedState : State :=
  (run exConfig (main exConfig) exQueued).getD (main exConfig)

/-- A wave of two readers requests: each runs up to line 64 (4 statements). -/
def exWave : List Tid :=
  List.replicate 4 (.reader 0) ++ List.replicate 4 (.reader 1)

/-- States visited by `exWave` from `exQueuedState`. -/
def exWaveTrace : List State :=
  (trace exConfig exQueuedState exWave).getD []

/-- Writer 0 runs alone into its critical-section delay (14 statements). -/
def exWriterDelay : List Tid := List.replicate 14 (.writer 0)

/-- State after the schedule `exWriterDelay`. -/
def exDelayState : State :=
  (run exConfig (main exConfig) exWriterDelay).getD (main exConfig)

/-- Reader 0 runs alone up to line 86, `readcount--` (17 statements). -/
def exReaderToDec : List Tid := List.replicate 17 (.reader 0)

/-- State after the schedule `exReaderToDec`. -/
def exDecState : State :=
  (run exConfig (main exConfig) exReaderToDec).getD (main exConfig)

/-- The configuration `nw = 2`, `nr = 3`, `kw = 3`, `kr = 3`. -/
def exBusyConfig : Config := ⟨2, 3, 3, 3⟩

/-- Writer 0 runs into its critical section (10 statements), writer 1 registers
and reaches line 121 (8 statements), and each of the three readers runs up to
line 64 (4 statements each). -/
def exBusy : List Tid :=
  List.replicate 10 (.writer 0) ++ List.replicate 8 (.writer 1)
    ++ List.replicate 4 (.reader 0) ++ List.replicate 4 (.reader 1)
    ++ List.replicate 4 (.reader 2)

/-- State after the schedule `exBusy`: writer 1 and the three readers are blocked. -/
def exBusyState : State :=
  (run exBusyConfig (main exBusyConfig) exBusy).getD (main exBusyConfig)

/-- One writer and one reader, one iteration each. -/
def exPairConfig : Config := ⟨1, 1, 1, 1⟩

/-- Reader 0 runs alone into its critical-section delay (15 statements); then
writer 0 registers, takes `readTry` and reaches line 121, where `read_write_lock`
is held by the reader group (9 statements). -/
def exBehindReader : List Tid :=
  List.replicate 15 (.reader 0) ++ List.replicate 9 (.writer 0)

/-- State after the schedule `exBehindReader`. -/
def exBehindReaderState : State :=
  (run exPairConfig (main exPairConfig) exBehindReader).getD (main exPairConfig)

end WP
/-! ## Counting threads in a region -/

namespace RW

variable {P : Type}

theorem cntP_cons (q : P → Bool) (a : Th P) (ts : List (Th P)) :
    cntP q (a :: ts) = cntP q ts + b2n (q a.pc) := by
  unfold cntP b2n
  rw [List.countP_cons]

theorem cntP_set_add (q : P → Bool) {ts : List (Th P)} {j : Nat} {t : Th P}
    (h : ts[j]? = some t) (t' : Th P) :
    cntP q (ts.set j t') + b2n (q t.pc) = cntP q ts + b2n (q t'.pc) := by
  induction ts generalizing j with
  | nil => simp at h
  | cons a as ih =>
    cases j with
    | zero =>
      simp at h
      subst h
      simp only [List.set_cons_zero, cntP_cons]
      omega
    | succ j =>
      simp at h
      have := ih h
      simp only [List.set_cons_succ, cntP_cons]
      omega

theorem cntP_pos {ts : List (Th P)} {j : Nat} {t : Th P} (h : ts[j]? = some t)
    (q : P → Bool) : b2n (q t.pc) ≤ cntP q ts := by
  induction ts generalizing j with
  | nil => simp at h
  | cons a as ih =>
    cases j with
    | zero =>
      simp at h
      subst h
      rw [cntP_cons]
      omega
    | succ j =>
      simp at h
      have := ih h
      rw [cntP_cons]
      omega

theorem cntP_set {ts : List (Th P)} {j : Nat} {t : Th P} (h : ts[j]? = some t)
    (q : P → Bool) (t' : Th P) :
    cntP q (ts.set j t') = cntP q ts + b2n (q t'.pc) - b2n (q t.pc) := by
  have h1 := cntP_set_add q h t'
  have h2 := cntP_pos h q
  omega

theorem cntP_exists {ts : List (Th P)} {q : P → Bool} (h : 1 ≤ cntP q ts) :
    ∃ (j : Nat) (t : Th P), ts[j]? = some t ∧ q t.pc = true := by
  induction ts with
  | nil => simp [cntP] at h
  | cons a as ih =>
    cases ha : q a.pc with
    | true => exact ⟨0, a, by simp, ha⟩
    | false =>
      have h2 : 1 ≤ cntP q as := by
        rw [cntP_cons, ha] at h
        simpa [b2n] using h
      obtain ⟨j, t, hj, ht⟩ := ih h2
      exact ⟨j + 1, t, by simpa using hj, ht⟩

theorem cntP_replicate (q : P → Bool) (n : Nat) (t : Th P) :
    cntP q (List.replicate n t) = if q t.pc = true then n else 0 := by
  unfold cntP
  rw [List.countP_replicate]

theorem cntP_zero_of_forall {ts : List (Th P)} {q : P → Bool}
    (h : ∀ (j : Nat) (t : Th P), ts[j]? = some t → q t.pc = false) : cntP q ts = 0 := by
  by_contra hne
  obtain ⟨j, t, hj, ht⟩ := cntP_exists (Nat.one_le_iff_ne_zero.mpr hne)
  rw [h j t hj] at ht
  exact Bool.noConfusion ht

end RW
/-! ## The fair program: invariant -/

namespace Fair

open RW

theorem fair_counted_split (rs : List (Th RPc)) :
    cntP RPc.counted rs = cnt .test rs + cnt .waitRes rs + cntP RPc.admitted rs := by
  induction rs with
  | nil => rfl
  | cons a as ih =>
    have h : b2n (RPc.counted a.pc)
        = b2n (isAt .test a.pc) + b2n (isAt .waitRes a.pc) + b2n (RPc.admitted a.pc) := by
      cases a.pc <;> rfl
    simp only [cnt, cntP_cons] at ih ⊢
    omega

theorem inRm_split (rs : List (Th RPc)) :
    cntP RPc.inRm rs
      = cnt .test rs + cnt .waitRes rs + cnt .postRes rs + cnt .test2 rs + cntP RPc.rmRest rs := by
  induction rs with
  | nil => rfl
  | cons a as ih =>
    have h : b2n (RPc.inRm a.pc)
        = b2n (isAt .test a.pc) + b2n (isAt .waitRes a.pc) + b2n (isAt .postRes a.pc)
          + b2n (isAt .test2 a.pc) + b2n (RPc.rmRest a.pc) := by
      cases a.pc <;> rfl
    simp only [cnt, cntP_cons] at ih ⊢
    omega

theorem fair_admitted_split (rs : List (Th RPc)) :
    cntP RPc.admitted rs = cntP RPc.inCS rs + cntP RPc.admRest rs := by
  induction rs with
  | nil => rfl
  | cons a as ih =>
    have h : b2n (RPc.admitted a.pc) = b2n (RPc.inCS a.pc) + b2n (RPc.admRest a.pc) := by
      cases a.pc <;> rfl
    simp only [cntP_cons] at ih ⊢
    omega

theorem fair_holding_split (rs : List (Th RPc)) :
    cntP RPc.holding rs = cntP RPc.admitted rs + cnt .postRes rs + cnt .test2 rs := by
  induction rs with
  | nil => rfl
  | cons a as ih =>
    have h : b2n (RPc.holding a.pc)
        = b2n (RPc.admitted a.pc) + b2n (isAt .postRes a.pc) + b2n (isAt .test2 a.pc) := by
      cases a.pc <;> rfl
    simp only [cnt, cntP_cons] at ih ⊢
    omega

theorem fair_inv_main (c : Config) : Inv (main c) := by
  constructor <;>
    simp [main, holdL, holdSQ, holdRm, counted, admitted, writersInCS, readersInCS, readersHold, nR, nW, cnt, cntP_replicate, RPc.inL, RPc.inSQ, RPc.inRm, RPc.rmRest, RPc.counted, RPc.admitted, RPc.inCS, RPc.admRest, RPc.holding, WPc.inL, WPc.inSQ, WPc.inCS, isAt, b2n]

set_option maxHeartbeats 4000000 in
theorem reader_fair_inv {k : Nat} {s s' : State} {j : Nat} (h : Inv s)
    (hs : reader_fair k s j = some s') : Inv s' := by
  obtain ⟨hl, hsq, hrm, hrc, hres1, hres2, hres3, hpost, hfirst⟩ := h
  unfold reader_fair at hs
  cases hj : s.readers[j]? with
  | none => simp [hj] at hs
  | some t =>
    have p1 := cntP_pos hj RPc.inL
    have p2 := cntP_pos hj RPc.inSQ
    have p3 := cntP_pos hj RPc.inRm
    have p4 := cntP_pos hj RPc.rmRest
    have p5 := cntP_pos hj RPc.counted
    have p6 := cntP_pos hj RPc.admitted
    have p7 := cntP_pos hj RPc.holding
    have p8 := cntP_pos hj (isAt RPc.test)
    have p9 := cntP_pos hj (isAt RPc.waitRes)
    have p10 := cntP_pos hj (isAt RPc.postRes)
    have p11 := cntP_pos hj (isAt RPc.test2)
    have q1 := fair_counted_split s.readers
    have q2 := inRm_split s.readers
    have q3 := fair_holding_split s.readers
    obtain ⟨pc, i, n⟩ := t
    simp only [hj] at hs
    simp only [holdL, holdSQ, holdRm, counted, admitted, writersInCS, readersInCS, readersHold, nR, nW, cnt] at hl hsq hrm hrc hres1 hres2 hres3 hpost hfirst q1 q2 q3
    cases pc <;> simp [sem_wait, sem_post] at hs <;>
      simp only [RPc.inL, RPc.inSQ, RPc.inRm, RPc.rmRest, RPc.counted, RPc.admitted, RPc.inCS, RPc.admRest, RPc.holding, WPc.inL, WPc.inSQ, WPc.inCS, isAt, b2n, reduceCtorEq, decide_False, decide_True, Bool.false_eq_true, if_true,
        if_false] at p1 p2 p3 p4 p5 p6 p7 p8 p9 p10 p11
    all_goals
      first
      | contradiction
      | (have hc : True := trivial
         subst hs)
      | obtain ⟨hc, rfl⟩ := hs
      | (split at hs <;> rename_i hc <;> simp at hs <;> subst hs)
    all_goals
      rw [fair_inv_iff]
      simp only [holdL, holdSQ, holdRm, counted, admitted, writersInCS, readersInCS, readersHold, nR, nW, cnt, cntP_set hj, RPc.inL, RPc.inSQ, RPc.inRm, RPc.rmRest, RPc.counted, RPc.admitted, RPc.inCS, RPc.admRest, RPc.holding, WPc.inL, WPc.inSQ, WPc.inCS, isAt, b2n]
      simp only [reduceCtorEq, decide_False, decide_True, Bool.false_eq_true, if_true, if_false,
        Nat.add_zero, Nat.sub_zero, Nat.add_sub_cancel]
      refine ⟨?_, ?_, ?_, ?_, ?_, ?_, ?_, ?_, ?_⟩
      · first
        | assumption
        | (clear * - hl p1 hc
           omega)
      · first
        | assumption
        | (clear * - hsq p2 hc
           omega)
      · first
        | assumption
        | (clear * - hrm p3 hc
           omega)
      · first
        | assumption
        | (clear * - hrc p5
           omega)
      · first
        | assumption
        | (clear * - hres1 hres2 p7 hc
           omega)
      · first
        | assumption
        | (clear * - hrm hrc hres1 hres2 hres3 hpost hfirst hc p3 p4 p5 p6 p7 p8 p9 p10 p11 q1 q2 q3
           omega)
      · first
        | assumption
        | (clear * - hrm hrc hres1 hres2 hres3 hpost hfirst hc p3 p4 p5 p6 p7 p8 p9 p10 p11 q1 q2 q3
           omega)
      · first
        | assumption
        | (clear * - hrm hrc hpost hc p3 p4 p5 p6 p7 p8 p9 p10 p11 q1 q2 q3
           omega)
      · first
        | assumption
        | (clear * - hrm hrc hfirst hc p3 p4 p5 p6 p7 p8 p9 p10 p11 q1 q2 q3
           omega)

set_option maxHeartbeats 4000000 in
theorem writer_fair_inv {k : Nat} {s s' : State} {j : Nat} (h : Inv s)
    (hs : writer_fair k s j = some s') : Inv s' := by
  obtain ⟨hl, hsq, hrm, hrc, hres1, hres2, hres3, hpost, hfirst⟩ := h
  unfold writer_fair at hs
  cases hj : s.writers[j]? with
  | none => simp [hj] at hs
  | some t =>
    have p1 := cntP_pos hj WPc.inL
    have p2 := cntP_pos hj WPc.inSQ
    have p3 := cntP_pos hj WPc.inCS
    obtain ⟨pc, i, n⟩ := t
    simp only [hj] at hs
    simp only [holdL, holdSQ, holdRm, counted, admitted, writersInCS, readersInCS, readersHold, nR, nW, cnt] at hl hsq hrm hrc hres1 hres2 hres3 hpost hfirst
    cases pc <;> simp [sem_wait, sem_post] at hs <;>
      simp only [RPc.inL, RPc.inSQ, RPc.inRm, RPc.rmRest, RPc.counted, RPc.admitted, RPc.inCS, RPc.admRest, RPc.holding, WPc.inL, WPc.inSQ, WPc.inCS, isAt, b2n, reduceCtorEq, decide_False, decide_True, Bool.false_eq_true, if_true,
        if_false] at p1 p2 p3
    all_goals
      first
      | contradiction
      | (have hc : True := trivial
         subst hs)
      | obtain ⟨hc, rfl⟩ := hs
      | (split at hs <;> rename_i hc <;> simp at hs <;> subst hs)
    all_goals
      rw [fair_inv_iff]
      simp only [holdL, holdSQ, holdRm, counted, admitted, writersInCS, readersInCS, readersHold, nR, nW, cnt, cntP_set hj, RPc.inL, RPc.inSQ, RPc.inRm, RPc.rmRest, RPc.counted, RPc.admitted, RPc.inCS, RPc.admRest, RPc.holding, WPc.inL, WPc.inSQ, WPc.inCS, isAt, b2n]
      simp only [reduceCtorEq, decide_False, decide_True, Bool.false_eq_true, if_true, if_false,
        Nat.add_zero, Nat.sub_zero, Nat.add_sub_cancel]
      refine ⟨?_, ?_, ?_, ?_, ?_, ?_, ?_, ?_, ?_⟩
      · first
        | assumption
        | (clear * - hl p1 hc
           omega)
      · first
        | assumption
        | (clear * - hsq p2 hc
           omega)
      · assumption
      · assumption
      · first
        | assumption
        | (clear * - hres1 p3 hc
           omega)
      · first
        | assumption
        | (clear * - hres1 hres2 hres3 p3 hc
           omega)
      · first
        | assumption
        | (clear * - hres1 hres2 hres3 p3 hc
           omega)
      · assumption
      · assumption

theorem fair_step_inv {c : Config} {s s' : State} {t : Tid} (h : Inv s)
    (hs : step c s t = some s') : Inv s' := by
  cases t with
  | writer j => exact writer_fair_inv h hs
  | reader j => exact reader_fair_inv h hs

theorem fair_run_inv {c : Config} {sched : List Tid} {s s' : State} (h : Inv s)
    (hs : run c s sched = some s') : Inv s' := by
  induction sched generalizing s with
  | nil =>
    simp only [run, Option.some.injEq] at hs
    exact hs ▸ h
  | cons t ts ih =>
    simp only [run, Option.bind_eq_some] at hs
    obtain ⟨s1, h1, h2⟩ := hs
    exact ih (fair_step_inv h h1) h2

theorem fair_reachable_inv {c : Config} {s : State} (h : Reachable c s) : Inv s := by
  obtain ⟨sched, hs⟩ := h
  exact fair_run_inv (fair_inv_main c) hs

end Fair
/-! ## The writer-preference program: invariant -/

namespace WP

open RW

theorem wp_counted_split (ts : List (Th RPc)) :
    cntP RPc.counted ts = cnt .test ts + cnt .waitRes ts + cntP RPc.admitted ts := by
  induction ts with
  | nil => rfl
  | cons a as ih =>
    have h : b2n (RPc.counted a.pc)
        = b2n (isAt .test a.pc) + b2n (isAt .waitRes a.pc) + b2n (RPc.admitted a.pc) := by
      cases a.pc <;> rfl
    simp only [cnt, cntP_cons] at ih ⊢
    omega

theorem inRl_split (ts : List (Th RPc)) :
    cntP RPc.inRl ts = cnt .test ts + cnt .waitRes ts + cnt .postRes ts + cnt .test2 ts + cntP RPc.rlRest ts := by
  induction ts with
  | nil => rfl
  | cons a as ih =>
    have h : b2n (RPc.inRl a.pc)
        = b2n (isAt .test a.pc) + b2n (isAt .waitRes a.pc) + b2n (isAt .postRes a.pc) + b2n (isAt .test2 a.pc) + b2n (RPc.rlRest a.pc) := by
      cases a.pc <;> rfl
    simp only [cnt, cntP_cons] at ih ⊢
    omega

theorem wp_admitted_split (ts : List (Th RPc)) :
    cntP RPc.admitted ts = cntP RPc.inCS ts + cntP RPc.admRest ts := by
  induction ts with
  | nil => rfl
  | cons a as ih =>
    have h : b2n (RPc.admitted a.pc)
        = b2n (RPc.inCS a.pc) + b2n (RPc.admRest a.pc) := by
      cases a.pc <;> rfl
    simp only [cnt, cntP_cons] at ih ⊢
    omega

theorem wp_holding_split (ts : List (Th RPc)) :
    cntP RPc.holding ts = cntP RPc.admitted ts + cnt .postRes ts + cnt .test2 ts := by
  induction ts with
  | nil => rfl
  | cons a as ih =>
    have h : b2n (RPc.holding a.pc)
        = b2n (RPc.admitted a.pc) + b2n (isAt .postRes a.pc) + b2n (isAt .test2 a.pc) := by
      cases a.pc <;> rfl
    simp only [cnt, cntP_cons] at ih ⊢
    omega

theorem countedW_split (ts : List (Th WPc)) :
    cntP WPc.counted ts = cnt .test ts + cnt .waitTry ts + cntP WPc.admitted ts := by
  induction ts with
  | nil => rfl
  | cons a as ih =>
    have h : b2n (WPc.counted a.pc)
        = b2n (isAt .test a.pc) + b2n (isAt .waitTry a.pc) + b2n (WPc.admitted a.pc) := by
      cases a.pc <;> rfl
    simp only [cnt, cntP_cons] at ih ⊢
    omega

theorem inWl_split (ts : List (Th WPc)) :
    cntP WPc.inWl ts = cnt .test ts + cnt .waitTry ts + cnt .postTry ts + cnt .test2 ts + cntP WPc.wlRest ts := by
  induction ts with
  | nil => rfl
  | cons a as ih =>
    have h : b2n (WPc.inWl a.pc)
        = b2n (isAt .test a.pc) + b2n (isAt .waitTry a.pc) + b2n (isAt .postTry a.pc) + b2n (isAt .test2 a.pc) + b2n (WPc.wlRest a.pc) := by
      cases a.pc <;> rfl
    simp only [cnt, cntP_cons] at ih ⊢
    omega

theorem admittedW_split (ts : List (Th WPc)) :
    cntP WPc.admitted ts = cntP WPc.inCS ts + cntP WPc.admRest ts := by
  induction ts with
  | nil => rfl
  | cons a as ih =>
    have h : b2n (WPc.admitted a.pc)
        = b2n (WPc.inCS a.pc) + b2n (WPc.admRest a.pc) := by
      cases a.pc <;> rfl
    simp only [cnt, cntP_cons] at ih ⊢
    omega

theorem holdingW_split (ts : List (Th WPc)) :
    cntP WPc.holding ts = cntP WPc.admitted ts + cnt .postTry ts + cnt .test2 ts := by
  induction ts with
  | nil => rfl
  | cons a as ih =>
    have h : b2n (WPc.holding a.pc)
        = b2n (WPc.admitted a.pc) + b2n (isAt .postTry a.pc) + b2n (isAt .test2 a.pc) := by
      cases a.pc <;> rfl
    simp only [cnt, cntP_cons] at ih ⊢
    omega

theorem wp_inv_main (c : Config) : Inv (main c) := by
  constructor <;>
    simp [main, holdL, holdTry, holdRl, holdWl, counted, countedW, writersInCS, readersInCS, readersHold, writersHoldTry, nR, nW, cnt, cntP_replicate, RPc.inL, RPc.inTry, RPc.inRl, RPc.rlRest, RPc.counted, RPc.admitted, RPc.inCS, RPc.admRest, RPc.holding, WPc.inL, WPc.inWl, WPc.wlRest, WPc.counted, WPc.admitted, WPc.holding, WPc.inCS, WPc.admRest, isAt, b2n]

set_option maxHeartbeats 4000000 in
theorem reader_inv {k : Nat} {s s' : State} {j : Nat} (h : Inv s)
    (hs : reader k s j = some s') : Inv s' := by
  obtain ⟨hl, hrl, hwl, hrc, hwc, hres1, hres2, hres3, htry1, htry2, htry3, hpostR, hfirstR, hpostW, hfirstW⟩ := h
  unfold reader at hs
  cases hj : s.readers[j]? with
  | none => simp [hj] at hs
  | some t =>
    have p1 := cntP_pos hj RPc.inL
    have p2 := cntP_pos hj RPc.inTry
    have p3 := cntP_pos hj RPc.inRl
    have p4 := cntP_pos hj RPc.rlRest
    have p5 := cntP_pos hj RPc.counted
    have p6 := cntP_pos hj RPc.admitted
    have p7 := cntP_pos hj RPc.holding
    have p8 := cntP_pos hj (isAt RPc.test)
    have p9 := cntP_pos hj (isAt RPc.waitRes)
    have p10 := cntP_pos hj (isAt RPc.postRes)
    have p11 := cntP_pos hj (isAt RPc.test2)
    have q1 := wp_counted_split s.readers
    have q2 := inRl_split s.readers
    have q3 := wp_holding_split s.readers
    obtain ⟨pc, i, n⟩ := t
    simp only [hj] at hs
    simp only [holdL, holdTry, holdRl, holdWl, counted, countedW, writersInCS, readersInCS, readersHold, writersHoldTry, nR, nW, cnt] at hl hrl hwl hrc hwc hres1 hres2 hres3 htry1 htry2 htry3 hpostR hfirstR hpostW hfirstW q1 q2 q3
    cases pc <;> simp [sem_wait, sem_post] at hs <;>
      simp only [RPc.inL, RPc.inTry, RPc.inRl, RPc.rlRest, RPc.counted, RPc.admitted, RPc.inCS, RPc.admRest, RPc.holding, WPc.inL, WPc.inWl, WPc.wlRest, WPc.counted, WPc.admitted, WPc.holding, WPc.inCS, WPc.admRest, isAt, b2n, reduceCtorEq, decide_False, decide_True, Bool.false_eq_true, if_true,
        if_false] at p1 p2 p3 p4 p5 p6 p7 p8 p9 p10 p11
    all_goals
      first
      | contradiction
      | (have hc : True := trivial
         subst hs)
      | obtain ⟨hc, rfl⟩ := hs
      | (split at hs <;> rename_i hc <;> simp at hs <;> subst hs)
    all_goals
      rw [wp_inv_iff]
      simp only [holdL, holdTry, holdRl, holdWl, counted, countedW, writersInCS, readersInCS, readersHold, writersHoldTry, nR, nW, cnt, cntP_set hj, RPc.inL, RPc.inTry, RPc.inRl, RPc.rlRest, RPc.counted, RPc.admitted, RPc.inCS, RPc.admRest, RPc.holding, WPc.inL, WPc.inWl, WPc.wlRest, WPc.counted, WPc.admitted, WPc.holding, WPc.inCS, WPc.admRest, isAt, b2n]
      simp only [reduceCtorEq, decide_False, decide_True, Bool.false_eq_true, if_true, if_false,
        Nat.add_zero, Nat.sub_zero, Nat.add_sub_cancel]
      refine ⟨?_, ?_, ?_, ?_, ?_, ?_, ?_, ?_, ?_, ?_, ?_, ?_, ?_, ?_, ?_⟩
      · first
        | assumption
        | (clear * - hl p1 hc
           omega)
      · first
        | assumption
        | (clear * - hrl p3 hc
           omega)
      · assumption
      · first
        | assumption
        | (clear * - hrc p5
           omega)
      · assumption
      · first
        | assumption
        | (clear * - hres1 hres2 p7 hc
           omega)
      · first
        | assumption
        | (clear * - hrl hrc hres1 hres2 hres3 hpostR hfirstR hc p3 p4 p5 p6 p7 p8 p9 p10 p11 q1 q2 q3
           omega)
      · first
        | assumption
        | (clear * - hrl hrc hres1 hres2 hres3 hpostR hfirstR hc p3 p4 p5 p6 p7 p8 p9 p10 p11 q1 q2 q3
           omega)
      · first
        | assumption
        | (clear * - htry1 p2 hc
           omega)
      · first
        | assumption
        | (clear * - htry1 htry2 htry3 p2 hc
           omega)
      · first
        | assumption
        | (clear * - htry1 htry2 htry3 p2 hc
           omega)
      · first
        | assumption
        | (clear * - hrl hrc hres1 hres2 hres3 hpostR hfirstR hc p3 p4 p5 p6 p7 p8 p9 p10 p11 q1 q2 q3
           omega)
      · first
        | assumption
        | (clear * - hrl hrc hres1 hres2 hres3 hpostR hfirstR hc p3 p4 p5 p6 p7 p8 p9 p10 p11 q1 q2 q3
           omega)
      · assumption
      · assumption

set_option maxHeartbeats 4000000 in
theorem writer_inv {k : Nat} {s s' : State} {j : Nat} (h : Inv s)
    (hs : writer k s j = some s') : Inv s' := by
  obtain ⟨hl, hrl, hwl, hrc, hwc, hres1, hres2, hres3, htry1, htry2, htry3, hpostR, hfirstR, hpostW, hfirstW⟩ := h
  unfold writer at hs
  cases hj : s.writers[j]? with
  | none => simp [hj] at hs
  | some t =>
    have p1 := cntP_pos hj WPc.inL
    have p2 := cntP_pos hj WPc.inCS
    have p3 := cntP_pos hj WPc.inWl
    have p4 := cntP_pos hj WPc.wlRest
    have p5 := cntP_pos hj WPc.counted
    have p6 := cntP_pos hj WPc.admitted
    have p7 := cntP_pos hj WPc.holding
    have p8 := cntP_pos hj (isAt WPc.test)
    have p9 := cntP_pos hj (isAt WPc.waitTry)
    have p10 := cntP_pos hj (isAt WPc.postTry)
    have p11 := cntP_pos hj (isAt WPc.test2)
    have q1 := countedW_split s.writers
    have q2 := inWl_split s.writers
    have q3 := holdingW_split s.writers
    obtain ⟨pc, i, n⟩ := t
    simp only [hj] at hs
    simp only [holdL, holdTry, holdRl, holdWl, counted, countedW, writersInCS, readersInCS, readersHold, writersHoldTry, nR, nW, cnt] at hl hrl hwl hrc hwc hres1 hres2 hres3 htry1 htry2 htry3 hpostR hfirstR hpostW hfirstW q1 q2 q3
    cases pc <;> simp [sem_wait, sem_post] at hs <;>
      simp only [RPc.inL, RPc.inTry, RPc.inRl, RPc.rlRest, RPc.counted, RPc.admitted, RPc.inCS, RPc.admRest, RPc.holding, WPc.inL, WPc.inWl, WPc.wlRest, WPc.counted, WPc.admitted, WPc.holding, WPc.inCS, WPc.admRest, isAt, b2n, reduceCtorEq, decide_False, decide_True, Bool.false_eq_true, if_true,
        if_false] at p1 p2 p3 p4 p5 p6 p7 p8 p9 p10 p11
    all_goals
      first
      | contradiction
      | (have hc : True := trivial
         subst hs)
      | obtain ⟨hc, rfl⟩ := hs
      | (split at hs <;> rename_i hc <;> simp at hs <;> subst hs)
    all_goals
      rw [wp_inv_iff]
      simp only [holdL, holdTry, holdRl, holdWl, counted, countedW, writersInCS, readersInCS, readersHold, writersHoldTry, nR, nW, cnt, cntP_set hj, RPc.inL, RPc.inTry, RPc.inRl, RPc.rlRest, RPc.counted, RPc.admitted, RPc.inCS, RPc.admRest, RPc.holding, WPc.inL, WPc.inWl, WPc.wlRest, WPc.counted, WPc.admitted, WPc.holding, WPc.inCS, WPc.admRest, isAt, b2n]
      simp only [reduceCtorEq, decide_False, decide_True, Bool.false_eq_true, if_true, if_false,
        Nat.add_zero, Nat.sub_zero, Nat.add_sub_cancel]
      refine ⟨?_, ?_, ?_, ?_, ?_, ?_, ?_, ?_, ?_, ?_, ?_, ?_, ?_, ?_, ?_⟩
      · first
        | assumption
        | (clear * - hl p1 hc
           omega)
      · assumption
      · first
        | assumption
        | (clear * - hwl p3 hc
           omega)
      · assumption
      · first
        | assumption
        | (clear * - hwc p5
           omega)
      · first
        | assumption
        | (clear * - hres1 p2 hc
           omega)
      · first
        | assumption
        | (clear * - hres1 hres2 hres3 p2 hc
           omega)
      · first
        | assumption
        | (clear * - hres1 hres2 hres3 p2 hc
           omega)
      · first
        | assumption
        | (clear * - hwl hwc htry1 htry2 htry3 hpostW hfirstW hc p3 p4 p5 p6 p7 p8 p9 p10 p11 q1 q2 q3
           omega)
      · first
        | assumption
        | (clear * - hwl hwc htry1 htry2 htry3 hpostW hfirstW hc p3 p4 p5 p6 p7 p8 p9 p10 p11 q1 q2 q3
           omega)
      · first
        | assumption
        | (clear * - hwl hwc htry1 htry2 htry3 hpostW hfirstW hc p3 p4 p5 p6 p7 p8 p9 p10 p11 q1 q2 q3
           omega)
      · assumption
      · assumption
      · first
        | assumption
        | (clear * - hwl hwc htry1 htry2 htry3 hpostW hfirstW hc p3 p4 p5 p6 p7 p8 p9 p10 p11 q1 q2 q3
           omega)
      · first
        | assumption
        | (clear * - hwl hwc htry1 htry2 htry3 hpostW hfirstW hc p3 p4 p5 p6 p7 p8 p9 p10 p11 q1 q2 q3
           omega)

theorem wp_step_inv {c : Config} {s s' : State} {t : Tid} (h : Inv s)
    (hs : step c s t = some s') : Inv s' := by
  cases t with
  | writer j => exact writer_inv h hs
  | reader j => exact reader_inv h hs

theorem wp_run_inv {c : Config} {sched : List Tid} {s s' : State} (h : Inv s)
    (hs : run c s sched = some s') : Inv s' := by
  induction sched generalizing s with
  | nil =>
    simp only [run, Option.some.injEq] at hs
    exact hs ▸ h
  | cons t ts ih =>
    simp only [run, Option.bind_eq_some] at hs
    obtain ⟨s1, h1, h2⟩ := hs
    exact ih (wp_step_inv h h1) h2

theorem wp_reachable_inv {c : Config} {s : State} (h : Reachable c s) : Inv s := by
  obtain ⟨sched, hs⟩ := h
  exact wp_run_inv (wp_inv_main c) hs

end WP

/-! ## Consequences of the invariants -/

namespace RW

theorem pcAt_some {P : Type} {ts : List (Th P)} {j : Nat} {p : P} (h : pcAt ts j = some p) :
    ∃ t : Th P, ts[j]? = some t ∧ t.pc = p := by
  unfold pcAt at h
  cases hj : ts[j]? with
  | none => simp [hj] at h
  | some t =>
    simp [hj] at h
    exact ⟨t, rfl, h⟩

theorem cntP_pos_of_pcAt {P : Type} {ts : List (Th P)} {j : Nat} {p : P} (q : P → Bool)
    (h : pcAt ts j = some p) (hq : q p = true) : 1 ≤ cntP q ts := by
  obtain ⟨t, hj, ht⟩ := pcAt_some h
  have := cntP_pos hj q
  rw [ht, hq] at this
  exact this

end RW

namespace Fair

open RW

theorem fair_exclusion_of_inv {s : State} (h : Inv s) :
    writersInCS s ≤ 1 ∧ (1 ≤ writersInCS s → readersInCS s = 0) := by
  obtain ⟨hl, hsq, hrm, hrc, hres1, hres2, hres3, hpost, hfirst⟩ := h
  have q1 := fair_admitted_split s.readers
  have q2 := fair_holding_split s.readers
  simp only [writersInCS, readersInCS, readersHold, cnt] at *
  omega

theorem fair_writer_cs_readcount {s : State} (h : Inv s) (hw : 1 ≤ writersInCS s) :
    s.resource = 0 ∧ admitted s = 0 ∧ s.readcount = ((nR s .test + nR s .waitRes : Nat) : Int)
      ∧ s.readcount ≤ 1 := by
  obtain ⟨hl, hsq, hrm, hrc, hres1, hres2, hres3, hpost, hfirst⟩ := h
  have q1 := fair_counted_split s.readers
  have q2 := fair_holding_split s.readers
  have q3 := inRm_split s.readers
  simp only [writersInCS, readersInCS, readersHold, cnt, counted, admitted, holdRm, nR] at *
  omega

end Fair

namespace WP

open RW

theorem inTry_split (ts : List (Th RPc)) :
    cntP RPc.inTry ts = cnt .test ts + cnt .waitRes ts + cntP RPc.tryRest ts := by
  induction ts with
  | nil => rfl
  | cons a as ih =>
    have h : b2n (RPc.inTry a.pc)
        = b2n (isAt .test a.pc) + b2n (isAt .waitRes a.pc) + b2n (RPc.tryRest a.pc) := by
      cases a.pc <;> rfl
    simp only [cnt, cntP_cons] at ih ⊢
    omega

theorem wp_exclusion_of_inv {s : State} (h : Inv s) :
    writersInCS s ≤ 1 ∧ (1 ≤ writersInCS s → readersInCS s = 0) := by
  obtain ⟨hl, hrl, hwl, hrc, hwc, hres1, hres2, hres3, htry1, htry2, htry3, hpostR, hfirstR,
    hpostW, hfirstW⟩ := h
  have q1 := wp_admitted_split s.readers
  have q2 := wp_holding_split s.readers
  simp only [writersInCS, readersInCS, readersHold, cnt] at *
  omega

theorem wp_writer_cs_readcount {s : State} (h : Inv s) (hw : 1 ≤ writersInCS s) :
    s.read_write_lock = 0 ∧ s.readTry = 0 ∧ holdTry s = 0 ∧ writersHoldTry s
      ∧ s.readcount = 0 := by
  obtain ⟨hl, hrl, hwl, hrc, hwc, hres1, hres2, hres3, htry1, htry2, htry3, hpostR, hfirstR,
    hpostW, hfirstW⟩ := h
  have q1 := wp_counted_split s.readers
  have q2 := wp_holding_split s.readers
  have q3 := inTry_split s.readers
  have q4 := admittedW_split s.writers
  have q5 := holdingW_split s.writers
  simp only [writersInCS, readersInCS, readersHold, writersHoldTry, cnt, counted, holdTry,
    nR] at *
  omega

end WP

/-! ## The fair program: a state with an unfinished thread has an enabled step -/

namespace Fair

open RW

theorem fair_reader_stuck {k : Nat} {s : State} {j : Nat} {t : Th RPc} (hj : s.readers[j]? = some t)
    (h : reader_fair k s j = none) :
    ((t.pc = .waitL1 ∨ t.pc = .waitL2 ∨ t.pc = .waitL3) ∧ s.l = 0)
      ∨ (t.pc = .waitSQ ∧ s.serviceQueue = 0)
      ∨ ((t.pc = .waitRm ∨ t.pc = .waitRm2) ∧ s.rmutex = 0)
      ∨ (t.pc = .waitRes ∧ s.resource = 0)
      ∨ t.pc = .done := by
  unfold reader_fair at h
  simp only [hj] at h
  obtain ⟨pc, i, n⟩ := t
  cases pc <;> simp [sem_wait] at h ⊢ <;> first | exact h | (split at h <;> simp at h)

theorem fair_writer_stuck {k : Nat} {s : State} {j : Nat} {t : Th WPc} (hj : s.writers[j]? = some t)
    (h : writer_fair k s j = none) :
    ((t.pc = .waitL1 ∨ t.pc = .waitL2 ∨ t.pc = .waitL3) ∧ s.l = 0)
      ∨ (t.pc = .waitSQ ∧ s.serviceQueue = 0)
      ∨ (t.pc = .waitRes ∧ s.resource = 0)
      ∨ t.pc = .done := by
  unfold writer_fair at h
  simp only [hj] at h
  obtain ⟨pc, i, n⟩ := t
  cases pc <;> simp [sem_wait] at h ⊢ <;> first | exact h | (split at h <;> simp at h)

theorem fair_stuck_facts {c : Config} {s : State}
    (hst : ∀ t, step c s t = none) :
    cntP RPc.inL s.readers = 0 ∧ cntP WPc.inL s.writers = 0
      ∧ (1 ≤ cntP RPc.inRm s.readers → s.resource = 0 ∧ 1 ≤ cnt .waitRes s.readers)
      ∧ (1 ≤ cntP WPc.inCS s.writers → s.l = 0)
      ∧ (1 ≤ cntP RPc.holding s.readers → s.l = 0 ∨ s.rmutex = 0)
      ∧ (1 ≤ cntP RPc.inSQ s.readers → s.rmutex = 0 ∨ s.resource = 0)
      ∧ (1 ≤ cntP WPc.inSQ s.writers → s.resource = 0) := by
  refine ⟨?_, ?_, ?_, ?_, ?_, ?_, ?_⟩
  · apply cntP_zero_of_forall
    intro j t hj
    have hc := fair_reader_stuck (k := c.kr) hj (hst (.reader j))
    clear hst hj
    obtain ⟨pc, i, n⟩ := t
    cases pc <;> simp_all [RPc.inL]
  · apply cntP_zero_of_forall
    intro j t hj
    have hc := fair_writer_stuck (k := c.kw) hj (hst (.writer j))
    clear hst hj
    obtain ⟨pc, i, n⟩ := t
    cases pc <;> simp_all [WPc.inL]
  · intro h
    obtain ⟨j, t, hj, hq⟩ := cntP_exists h
    have hc := fair_reader_stuck (k := c.kr) hj (hst (.reader j))
    have h1 := cntP_pos hj (isAt RPc.waitRes)
    clear hst hj h
    obtain ⟨pc, i, n⟩ := t
    cases pc <;> simp_all [RPc.inRm, cnt, isAt, b2n]
  · intro h
    obtain ⟨j, t, hj, hq⟩ := cntP_exists h
    have hc := fair_writer_stuck (k := c.kw) hj (hst (.writer j))
    clear hst hj h
    obtain ⟨pc, i, n⟩ := t
    cases pc <;> simp_all [WPc.inCS, cnt, isAt, b2n]
  · intro h
    obtain ⟨j, t, hj, hq⟩ := cntP_exists h
    have hc := fair_reader_stuck (k := c.kr) hj (hst (.reader j))
    clear hst hj h
    obtain ⟨pc, i, n⟩ := t
    cases pc <;> simp_all [RPc.holding, cnt, isAt, b2n]
  · intro h
    obtain ⟨j, t, hj, hq⟩ := cntP_exists h
    have hc := fair_reader_stuck (k := c.kr) hj (hst (.reader j))
    clear hst hj h
    obtain ⟨pc, i, n⟩ := t
    cases pc <;> simp_all [RPc.inSQ, cnt, isAt, b2n]
  · intro h
    obtain ⟨j, t, hj, hq⟩ := cntP_exists h
    have hc := fair_writer_stuck (k := c.kw) hj (hst (.writer j))
    clear hst hj h
    obtain ⟨pc, i, n⟩ := t
    cases pc <;> simp_all [WPc.inSQ, cnt, isAt, b2n]

theorem fair_deadlock_free_of_inv {c : Config} {s : State} (h : Inv s) (hu : unfinished s) :
    ∃ t s', step c s t = some s' := by
  by_contra hne
  have hst : ∀ t, step c s t = none := by
    intro t
    cases hs : step c s t with
    | none => rfl
    | some s' => exact absurd ⟨t, s', hs⟩ hne
  obtain ⟨f1, f2, f3, f4, f5, f6, f7⟩ := fair_stuck_facts hst
  obtain ⟨hl, hsq, hrm, hrc, hres1, hres2, hres3, hpost, hfirst⟩ := h
  have q1 := fair_counted_split s.readers
  have q2 := inRm_split s.readers
  have q3 := fair_holding_split s.readers
  have g : s.l = 0 ∨ s.serviceQueue = 0 ∨ s.rmutex = 0 ∨ s.resource = 0 := by
    rcases hu with ⟨j, p, hp, hd⟩ | ⟨j, p, hp, hd⟩
    · obtain ⟨t, hj, rfl⟩ := pcAt_some hp
      rcases fair_reader_stuck (k := c.kr) hj (hst (.reader j)) with h | h | h | h | h
      · exact Or.inl h.2
      · exact Or.inr (Or.inl h.2)
      · exact Or.inr (Or.inr (Or.inl h.2))
      · exact Or.inr (Or.inr (Or.inr h.2))
      · exact absurd h hd
    · obtain ⟨t, hj, rfl⟩ := pcAt_some hp
      rcases fair_writer_stuck (k := c.kw) hj (hst (.writer j)) with h | h | h | h
      · exact Or.inl h.2
      · exact Or.inr (Or.inl h.2)
      · exact Or.inr (Or.inr (Or.inr h.2))
      · exact absurd h hd
  simp only [holdL, holdSQ, holdRm, counted, admitted, writersInCS, readersHold, nR, nW,
    cnt] at *
  omega

end Fair

/-! ## The writer-preference program: a state with an unfinished thread has an
enabled step -/

namespace WP

open RW

theorem wp_reader_stuck {k : Nat} {s : State} {j : Nat} {t : Th RPc} (hj : s.readers[j]? = some t)
    (h : reader k s j = none) :
    ((t.pc = .waitL1 ∨ t.pc = .waitL2 ∨ t.pc = .waitL3) ∧ s.l = 0)
      ∨ (t.pc = .waitTry ∧ s.readTry = 0)
      ∨ ((t.pc = .waitRl ∨ t.pc = .waitRl2) ∧ s.read_lock = 0)
      ∨ (t.pc = .waitRes ∧ s.read_write_lock = 0)
      ∨ t.pc = .done := by
  unfold reader at h
  simp only [hj] at h
  obtain ⟨pc, i, n⟩ := t
  cases pc <;> simp [sem_wait] at h ⊢ <;> first | exact h | (split at h <;> simp at h)

theorem wp_writer_stuck {k : Nat} {s : State} {j : Nat} {t : Th WPc} (hj : s.writers[j]? = some t)
    (h : writer k s j = none) :
    ((t.pc = .waitL1 ∨ t.pc = .waitL2 ∨ t.pc = .waitL3) ∧ s.l = 0)
      ∨ (t.pc = .waitTry ∧ s.readTry = 0)
      ∨ ((t.pc = .waitWl ∨ t.pc = .waitWl2) ∧ s.write_lock = 0)
      ∨ (t.pc = .waitRes ∧ s.read_write_lock = 0)
      ∨ t.pc = .done := by
  unfold writer at h
  simp only [hj] at h
  obtain ⟨pc, i, n⟩ := t
  cases pc <;> simp [sem_wait] at h ⊢ <;> first | exact h | (split at h <;> simp at h)

theorem wp_stuck_facts {c : Config} {s : State}
    (hst : ∀ t, step c s t = none) :
    cntP RPc.inL s.readers = 0 ∧ cntP WPc.inL s.writers = 0
      ∧ (1 ≤ cntP RPc.inRl s.readers → s.read_write_lock = 0 ∧ 1 ≤ cnt .waitRes s.readers)
      ∧ (1 ≤ cntP WPc.inCS s.writers → s.l = 0)
      ∧ (1 ≤ cntP RPc.holding s.readers → s.l = 0 ∨ s.read_lock = 0)
      ∧ (1 ≤ cntP RPc.inTry s.readers → s.read_lock = 0 ∨ s.read_write_lock = 0)
      ∧ (1 ≤ cntP WPc.inWl s.writers → s.readTry = 0 ∧ 1 ≤ cnt .waitTry s.writers)
      ∧ (1 ≤ cntP WPc.holding s.writers
          → s.read_write_lock = 0 ∨ s.l = 0 ∨ s.write_lock = 0) := by
  refine ⟨?_, ?_, ?_, ?_, ?_, ?_, ?_, ?_⟩
  · apply cntP_zero_of_forall
    intro j t hj
    have hc := wp_reader_stuck (k := c.kr) hj (hst (.reader j))
    clear hst hj
    obtain ⟨pc, i, n⟩ := t
    cases pc <;> simp_all [RPc.inL]
  · apply cntP_zero_of_forall
    intro j t hj
    have hc := wp_writer_stuck (k := c.kw) hj (hst (.writer j))
    clear hst hj
    obtain ⟨pc, i, n⟩ := t
    cases pc <;> simp_all [WPc.inL]
  · intro h
    obtain ⟨j, t, hj, hq⟩ := cntP_exists h
    have hc := wp_reader_stuck (k := c.kr) hj (hst (.reader j))
    have h1 := cntP_pos hj (isAt RPc.waitRes)
    clear hst hj h
    obtain ⟨pc, i, n⟩ := t
    cases pc <;> simp_all [RPc.inRl, cnt, isAt, b2n]
  · intro h
    obtain ⟨j, t, hj, hq⟩ := cntP_exists h
    have hc := wp_writer_stuck (k := c.kw) hj (hst (.writer j))
    clear hst hj h
    obtain ⟨pc, i, n⟩ := t
    cases pc <;> simp_all [WPc.inCS, cnt, isAt, b2n]
  · intro h
    obtain ⟨j, t, hj, hq⟩ := cntP_exists h
    have hc := wp_reader_stuck (k := c.kr) hj (hst (.reader j))
    clear hst hj h
    obtain ⟨pc, i, n⟩ := t
    cases pc <;> simp_all [RPc.holding, cnt, isAt, b2n]
  · intro h
    obtain ⟨j, t, hj, hq⟩ := cntP_exists h
    have hc := wp_reader_stuck (k := c.kr) hj (hst (.reader j))
    clear hst hj h
    obtain ⟨pc, i, n⟩ := t
    cases pc <;> simp_all [RPc.inTry, cnt, isAt, b2n]
  · intro h
    obtain ⟨j, t, hj, hq⟩ := cntP_exists h
    have hc := wp_writer_stuck (k := c.kw) hj (hst (.writer j))
    have h1 := cntP_pos hj (isAt WPc.waitTry)
    clear hst hj h
    obtain ⟨pc, i, n⟩ := t
    cases pc <;> simp_all [WPc.inWl, cnt, isAt, b2n]
  · intro h
    obtain ⟨j, t, hj, hq⟩ := cntP_exists h
    have hc := wp_writer_stuck (k := c.kw) hj (hst (.writer j))
    clear hst hj h
    obtain ⟨pc, i, n⟩ := t
    cases pc <;> simp_all [WPc.holding, cnt, isAt, b2n]

theorem wp_deadlock_free_of_inv {c : Config} {s : State} (h : Inv s) (hu : unfinished s) :
    ∃ t s', step c s t = some s' := by
  by_contra hne
  have hst : ∀ t, step c s t = none := by
    intro t
    cases hs : step c s t with
    | none => rfl
    | some s' => exact absurd ⟨t, s', hs⟩ hne
  obtain ⟨f1, f2, f3, f4, f5, f6, f7, f8⟩ := wp_stuck_facts hst
  obtain ⟨hl, hrl, hwl, hrc, hwc, hres1, hres2, hres3, htry1, htry2, htry3, hpostR, hfirstR,
    hpostW, hfirstW⟩ := h
  have q1 := wp_counted_split s.readers
  have q2 := inRl_split s.readers
  have q3 := wp_holding_split s.readers
  have q4 := countedW_split s.writers
  have q5 := inWl_split s.writers
  have q6 := holdingW_split s.writers
  have g : s.l = 0 ∨ s.readTry = 0 ∨ (s.read_lock = 0 ∨ s.write_lock = 0)
      ∨ s.read_write_lock = 0 := by
    rcases hu with ⟨j, p, hp, hd⟩ | ⟨j, p, hp, hd⟩
    · obtain ⟨t, hj, rfl⟩ := pcAt_some hp
      rcases wp_reader_stuck (k := c.kr) hj (hst (.reader j)) with h | h | h | h | h
      · exact Or.inl h.2
      · exact Or.inr (Or.inl h.2)
      · exact Or.inr (Or.inr (Or.inl (Or.inl h.2)))
      · exact Or.inr (Or.inr (Or.inr h.2))
      · exact absurd h hd
    · obtain ⟨t, hj, rfl⟩ := pcAt_some hp
      rcases wp_writer_stuck (k := c.kw) hj (hst (.writer j)) with h | h | h | h | h
      · exact Or.inl h.2
      · exact Or.inr (Or.inl h.2)
      · exact Or.inr (Or.inr (Or.inl (Or.inr h.2)))
      · exact Or.inr (Or.inr (Or.inr h.2))
      · exact absurd h hd
  simp only [holdL, holdTry, holdRl, holdWl, counted, countedW, writersInCS, readersHold,
    writersHoldTry, nR, nW, cnt] at *
  have e_l : s.l = 1 := by
    clear * - hl f1 f2
    omega
  have e_wcs : cntP WPc.inCS s.writers = 0 := by
    clear * - f4 e_l
    omega
  have e_rwl : s.read_write_lock = 1 := by
    clear * - hres1 hres2 hres3 f3 f5 hrl hfirstR hrc q1 q2 q3 e_l e_wcs
    omega
  have e_rl : s.read_lock = 1 := by
    clear * - hrl f3 e_rwl
    omega
  have e_try : s.readTry = 1 := by
    clear * - htry1 htry2 htry3 f6 f7 f8 hwl hfirstW hwc q4 q5 q6 e_l e_rwl e_rl
    omega
  have e_wl : s.write_lock = 1 := by
    clear * - hwl f7 e_try
    omega
  clear * - g e_l e_rwl e_rl e_try e_wl
  omega

end WP

/-! ## Steps of other threads, and properties along a trace -/

namespace Fair

open RW

theorem reader_fair_frame {k : Nat} {s s' : State} {j : Nat}
    (hs : reader_fair k s j = some s') :
    ∃ t t', s.readers[j]? = some t ∧ s'.readers = s.readers.set j t'
      ∧ s'.writers = s.writers := by
  unfold reader_fair at hs
  cases hj : s.readers[j]? with
  | none => simp [hj] at hs
  | some t =>
    simp only [hj] at hs
    obtain ⟨pc, i, n⟩ := t
    cases pc <;> simp [sem_wait] at hs <;>
      first
      | (subst hs
         exact ⟨_, _, rfl, rfl, rfl⟩)
      | (obtain ⟨hc, rfl⟩ := hs
         exact ⟨_, _, rfl, rfl, rfl⟩)
      | (split at hs <;> simp at hs <;> subst hs <;> exact ⟨_, _, rfl, rfl, rfl⟩)

theorem writer_fair_frame {k : Nat} {s s' : State} {j : Nat}
    (hs : writer_fair k s j = some s') :
    ∃ t t', s.writers[j]? = some t ∧ s'.writers = s.writers.set j t'
      ∧ s'.readers = s.readers := by
  unfold writer_fair at hs
  cases hj : s.writers[j]? with
  | none => simp [hj] at hs
  | some t =>
    simp only [hj] at hs
    obtain ⟨pc, i, n⟩ := t
    cases pc <;> simp [sem_wait] at hs <;>
      first
      | (subst hs
         exact ⟨_, _, rfl, rfl, rfl⟩)
      | (obtain ⟨hc, rfl⟩ := hs
         exact ⟨_, _, rfl, rfl, rfl⟩)
      | (split at hs <;> simp at hs <;> subst hs <;> exact ⟨_, _, rfl, rfl, rfl⟩)

theorem reader_fair_ticket {k : Nat} {s s' : State} {j : Nat} {p : RPc}
    (hs : reader_fair k s j = some s') (hp : pcAt s.readers j = some p)
    (hq : RPc.ticketed p = false) (hsq : s.serviceQueue = 0) :
    ∃ p', pcAt s'.readers j = some p' ∧ RPc.ticketed p' = false := by
  obtain ⟨t, hj, rfl⟩ := pcAt_some hp
  have hlt : j < s.readers.length := by
    by_contra hge
    rw [List.getElem?_eq_none (Nat.le_of_not_lt hge)] at hj
    exact Option.noConfusion hj
  unfold reader_fair at hs
  simp only [hj] at hs
  obtain ⟨pc, i, n⟩ := t
  cases pc <;> simp [RPc.ticketed] at hq <;> simp [sem_wait, hsq] at hs <;>
    first
    | (subst hs
       simp [pcAt, hlt, RPc.ticketed])
    | (obtain ⟨hc, rfl⟩ := hs
       simp [pcAt, hlt, RPc.ticketed])
    | (split at hs <;> simp at hs <;> subst hs <;> simp [pcAt, hlt, RPc.ticketed])

theorem fair_step_ticket {c : Config} {s s' : State} {t : Tid} {r : Nat} {p : RPc}
    (hs : step c s t = some s') (hp : pcAt s.readers r = some p)
    (hq : RPc.ticketed p = false) (hsq : s.serviceQueue = 0) :
    ∃ p', pcAt s'.readers r = some p' ∧ RPc.ticketed p' = false := by
  cases t with
  | writer j =>
    obtain ⟨t, t', _, _, hr⟩ := writer_fair_frame hs
    exact ⟨p, by rw [hr]; exact hp, hq⟩
  | reader j =>
    by_cases hjr : j = r
    · subst hjr
      exact reader_fair_ticket hs hp hq hsq
    · obtain ⟨t, t', _, hr, _⟩ := reader_fair_frame hs
      refine ⟨p, ?_, hq⟩
      unfold pcAt at hp ⊢
      rw [hr, List.getElem?_set_ne hjr]
      exact hp

theorem fair_trace_ticket {c : Config} {sched : List Tid} {s : State} {tr : List State}
    {w r : Nat} (hinv : Inv s) (htr : trace c s sched = some tr)
    (hw : ∀ u ∈ tr, pcAt u.writers w = some WPc.waitRes)
    (hr : ∃ p, pcAt s.readers r = some p ∧ RPc.ticketed p = false) :
    ∀ u ∈ tr, ∃ p, pcAt u.readers r = some p ∧ RPc.ticketed p = false := by
  induction sched generalizing s tr with
  | nil =>
    simp only [trace, Option.some.injEq] at htr
    subst htr
    intro u hu
    simp only [List.mem_singleton] at hu
    subst hu
    exact hr
  | cons t ts ih =>
    simp only [trace, Option.bind_eq_some, Option.map_eq_some'] at htr
    obtain ⟨s1, h1, tr1, h2, rfl⟩ := htr
    intro u hu
    rcases List.mem_cons.mp hu with rfl | hu1
    · exact hr
    · have hw0 := hw s (List.mem_cons_self _ _)
      have hsq : s.serviceQueue = 0 := by
        have h3 := cntP_pos_of_pcAt WPc.inSQ hw0 rfl
        have h4 := hinv.hsq
        simp only [holdSQ] at h4
        omega
      obtain ⟨p, hp, hq⟩ := hr
      exact ih (fair_step_inv hinv h1) h2 (fun v hv => hw v (List.mem_cons_of_mem _ hv))
        (fair_step_ticket h1 hp hq hsq) u hu1

end Fair

namespace WP

open RW

theorem reader_frame {k : Nat} {s s' : State} {j : Nat}
    (hs : reader k s j = some s') :
    ∃ t t', s.readers[j]? = some t ∧ s'.readers = s.readers.set j t'
      ∧ s'.writers = s.writers := by
  unfold reader at hs
  cases hj : s.readers[j]? with
  | none => simp [hj] at hs
  | some t =>
    simp only [hj] at hs
    obtain ⟨pc, i, n⟩ := t
    cases pc <;> simp [sem_wait] at hs <;>
      first
      | (subst hs
         exact ⟨_, _, rfl, rfl, rfl⟩)
      | (obtain ⟨hc, rfl⟩ := hs
         exact ⟨_, _, rfl, rfl, rfl⟩)
      | (split at hs <;> simp at hs <;> subst hs <;> exact ⟨_, _, rfl, rfl, rfl⟩)

theorem writer_frame {k : Nat} {s s' : State} {j : Nat}
    (hs : writer k s j = some s') :
    ∃ t t', s.writers[j]? = some t ∧ s'.writers = s.writers.set j t'
      ∧ s'.readers = s.readers := by
  unfold writer at hs
  cases hj : s.writers[j]? with
  | none => simp [hj] at hs
  | some t =>
    simp only [hj] at hs
    obtain ⟨pc, i, n⟩ := t
    cases pc <;> simp [sem_wait] at hs <;>
      first
      | (subst hs
         exact ⟨_, _, rfl, rfl, rfl⟩)
      | (obtain ⟨hc, rfl⟩ := hs
         exact ⟨_, _, rfl, rfl, rfl⟩)
      | (split at hs <;> simp at hs <;> subst hs <;> exact ⟨_, _, rfl, rfl, rfl⟩)

theorem reader_ticket {k : Nat} {s s' : State} {j : Nat} {p : RPc}
    (hs : reader k s j = some s') (hp : pcAt s.readers j = some p)
    (hq : RPc.ticketed p = false) (hsq : s.readTry = 0) :
    ∃ p', pcAt s'.readers j = some p' ∧ RPc.ticketed p' = false := by
  obtain ⟨t, hj, rfl⟩ := pcAt_some hp
  have hlt : j < s.readers.length := by
    by_contra hge
    rw [List.getElem?_eq_none (Nat.le_of_not_lt hge)] at hj
    exact Option.noConfusion hj
  unfold reader at hs
  simp only [hj] at hs
  obtain ⟨pc, i, n⟩ := t
  cases pc <;> simp [RPc.ticketed] at hq <;> simp [sem_wait, hsq] at hs <;>
    first
    | (subst hs
       simp [pcAt, hlt, RPc.ticketed])
    | (obtain ⟨hc, rfl⟩ := hs
       simp [pcAt, hlt, RPc.ticketed])
    | (split at hs <;> simp at hs <;> subst hs <;> simp [pcAt, hlt, RPc.ticketed])

theorem wp_step_ticket {c : Config} {s s' : State} {t : Tid} {r : Nat} {p : RPc}
    (hs : step c s t = some s') (hp : pcAt s.readers r = some p)
    (hq : RPc.ticketed p = false) (hsq : s.readTry = 0) :
    ∃ p', pcAt s'.readers r = some p' ∧ RPc.ticketed p' = false := by
  cases t with
  | writer j =>
    obtain ⟨t, t', _, _, hr⟩ := writer_frame hs
    exact ⟨p, by rw [hr]; exact hp, hq⟩
  | reader j =>
    by_cases hjr : j = r
    · subst hjr
      exact reader_ticket hs hp hq hsq
    · obtain ⟨t, t', _, hr, _⟩ := reader_frame hs
      refine ⟨p, ?_, hq⟩
      unfold pcAt at hp ⊢
      rw [hr, List.getElem?_set_ne hjr]
      exact hp

theorem wp_trace_ticket {c : Config} {sched : List Tid} {s : State} {tr : List State}
    {w r : Nat} (hinv : Inv s) (htr : trace c s sched = some tr)
    (hw : ∀ u ∈ tr, pcAt u.writers w = some WPc.waitRes)
    (hr : ∃ p, pcAt s.readers r = some p ∧ RPc.ticketed p = false) :
    ∀ u ∈ tr, ∃ p, pcAt u.readers r = some p ∧ RPc.ticketed p = false := by
  induction sched generalizing s tr with
  | nil =>
    simp only [trace, Option.some.injEq] at htr
    subst htr
    intro u hu
    simp only [List.mem_singleton] at hu
    subst hu
    exact hr
  | cons t ts ih =>
    simp only [trace, Option.bind_eq_some, Option.map_eq_some'] at htr
    obtain ⟨s1, h1, tr1, h2, rfl⟩ := htr
    intro u hu
    rcases List.mem_cons.mp hu with rfl | hu1
    · exact hr
    · have hw0 := hw s (List.mem_cons_self _ _)
      have hsq : s.readTry = 0 := by
        have h3 := cntP_pos_of_pcAt WPc.holding hw0 rfl
        have h4 := hinv.htry2
        simp only [writersHoldTry] at h4
        have h5 := h4 h3
        omega
      obtain ⟨p, hp, hq⟩ := hr
      exact ih (wp_step_inv hinv h1) h2 (fun v hv => hw v (List.mem_cons_of_mem _ hv))
        (wp_step_ticket h1 hp hq hsq) u hu1

end WP

/-! ## Any number of readers can be inside together -/

namespace RW

theorem cntP_eq_length {P : Type} {ts : List (Th P)} {q : P → Bool}
    (h : ∀ j, j < ts.length → ∃ p, pcAt ts j = some p ∧ q p = true) : cntP q ts = ts.length := by
  induction ts with
  | nil => rfl
  | cons a as ih =>
    have h0 := h 0 (by simp)
    obtain ⟨p, hp, hq⟩ := h0
    simp [pcAt] at hp
    have h1 : cntP q as = as.length := by
      apply ih
      intro j hj
      have := h (j + 1) (by simpa using hj)
      simpa [pcAt] using this
    rw [cntP_cons, h1, hp, hq]
    simp [b2n]

end RW

namespace Fair

open RW

theorem fair_withReader_self {s : State} {j : Nat} {t : Th RPc} (hj : s.readers[j]? = some t) :
    withReader s j s.readcount s.resource s.rmutex s.serviceQueue s.l s.fair_rw_log t = s := by
  have h : s.readers.set j t = s.readers := by
    apply List.ext_getElem?
    intro k
    by_cases hk : j = k
    · subst hk
      rw [List.getElem?_set_self', hj]
      rfl
    · rw [List.getElem?_set_ne hk]
  simp [withReader, h]

theorem fair_reader_steps {c : Config} {s : State} {j : Nat} (hlt : j < s.readers.length) :
    (∀ (rc : Int) (res rm sq l : Nat) (log : List LogEvent) (i m : Nat), i < c.kr → 
        step c (withReader s j rc res rm sq l log ⟨.loop, i, m⟩) (.reader j)
          = some (withReader s j rc res rm sq l log ⟨.waitL1, i, m⟩))
    ∧ (∀ (rc : Int) (res rm sq l : Nat) (log : List LogEvent) (i m : Nat), 0 < l → 
        step c (withReader s j rc res rm sq l log ⟨.waitL1, i, m⟩) (.reader j)
          = some (withReader s j rc res rm sq (l - 1) log ⟨.logReq, i, m⟩))
    ∧ (∀ (rc : Int) (res rm sq l : Nat) (log : List LogEvent) (i m : Nat), 
        step c (withReader s j rc res rm sq l log ⟨.logReq, i, m⟩) (.reader j)
          = some (withReader s j rc res rm sq l (log ++ [⟨i + 1, .Reader, .Request, j + 1⟩]) ⟨.postL1, i, m⟩))
    ∧ (∀ (rc : Int) (res rm sq l : Nat) (log : List LogEvent) (i m : Nat), 
        step c (withReader s j rc res rm sq l log ⟨.postL1, i, m⟩) (.reader j)
          = some (withReader s j rc res rm sq (l + 1) log ⟨.waitSQ, i, m⟩))
    ∧ (∀ (rc : Int) (res rm sq l : Nat) (log : List LogEvent) (i m : Nat), 0 < sq → 
        step c (withReader s j rc res rm sq l log ⟨.waitSQ, i, m⟩) (.reader j)
          = some (withReader s j rc res rm (sq - 1) l log ⟨.waitRm, i, m⟩))
    ∧ (∀ (rc : Int) (res rm sq l : Nat) (log : List LogEvent) (i m : Nat), 0 < rm → 
        step c (withReader s j rc res rm sq l log ⟨.waitRm, i, m⟩) (.reader j)
          = some (withReader s j rc res (rm - 1) sq l log ⟨.inc, i, m⟩))
    ∧ (∀ (rc : Int) (res rm sq l : Nat) (log : List LogEvent) (i m : Nat), 
        step c (withReader s j rc res rm sq l log ⟨.inc, i, m⟩) (.reader j)
          = some (withReader s j (rc + 1) res rm sq l log ⟨.test, i, m⟩))
    ∧ (∀ (rc : Int) (res rm sq l : Nat) (log : List LogEvent) (i m : Nat), rc = 1 → 
        step c (withReader s j rc res rm sq l log ⟨.test, i, m⟩) (.reader j)
          = some (withReader s j rc res rm sq l log ⟨.waitRes, i, m⟩))
    ∧ (∀ (rc : Int) (res rm sq l : Nat) (log : List LogEvent) (i m : Nat), rc ≠ 1 → 
        step c (withReader s j rc res rm sq l log ⟨.test, i, m⟩) (.reader j)
          = some (withReader s j rc res rm sq l log ⟨.postSQ, i, m⟩))
    ∧ (∀ (rc : Int) (res rm sq l : Nat) (log : List LogEvent) (i m : Nat), 0 < res → 
        step c (withReader s j rc res rm sq l log ⟨.waitRes, i, m⟩) (.reader j)
          = some (withReader s j rc (res - 1) rm sq l log ⟨.postSQ, i, m⟩))
    ∧ (∀ (rc : Int) (res rm sq l : Nat) (log : List LogEvent) (i m : Nat), 
        step c (withReader s j rc res rm sq l log ⟨.postSQ, i, m⟩) (.reader j)
          = some (withReader s j rc res rm (sq + 1) l log ⟨.postRm, i, m⟩))
    ∧ (∀ (rc : Int) (res rm sq l : Nat) (log : List LogEvent) (i m : Nat), 
        step c (withReader s j rc res rm sq l log ⟨.postRm, i, m⟩) (.reader j)
          = some (withReader s j rc res (rm + 1) sq l log ⟨.push, i, m⟩)) := by
  refine ⟨?_, ?_, ?_, ?_, ?_, ?_, ?_, ?_, ?_, ?_, ?_, ?_⟩ <;>
    intros <;>
    simp [step, reader_fair, withReader, hlt, sem_wait, sem_post, List.set_set, *]

theorem fair_enter_first {c : Config} {s : State} {j i m : Nat}
    (hj : s.readers[j]? = some ⟨.loop, i, m⟩) (hi : i < c.kr)
    (hl : s.l = 1) (hsq : s.serviceQueue = 1) (hrm : s.rmutex = 1) (hres : s.resource = 1)
    (hrc : s.readcount = 0) :
    run c s (List.replicate 11 (.reader j))
      = some (withReader s j 1 0 1 1 1
          (s.fair_rw_log ++ [⟨i + 1, .Reader, .Request, j + 1⟩]) ⟨.push, i, m⟩) := by
  have hlt : j < s.readers.length := by
    by_contra hge
    rw [List.getElem?_eq_none (Nat.le_of_not_lt hge)] at hj
    exact Option.noConfusion hj
  have e := fair_withReader_self hj
  rw [hl, hsq, hrm, hres, hrc] at e
  conv_lhs => rw [← e]
  obtain ⟨h1, h2, h3, h4, h5, h6, h7, h8, h9, h10, h11, h12⟩ := fair_reader_steps (c := c) hlt
  simp [List.replicate, run, h1, h2, h3, h4, h5, h6, h7, h8, h9, h10, h11, h12, hi]

theorem fair_enter_next {c : Config} {s : State} {j i m : Nat}
    (hj : s.readers[j]? = some ⟨.loop, i, m⟩) (hi : i < c.kr)
    (hl : s.l = 1) (hsq : s.serviceQueue = 1) (hrm : s.rmutex = 1)
    (hrc : 1 ≤ s.readcount) :
    run c s (List.replicate 10 (.reader j))
      = some (withReader s j (s.readcount + 1) s.resource 1 1 1
          (s.fair_rw_log ++ [⟨i + 1, .Reader, .Request, j + 1⟩]) ⟨.push, i, m⟩) := by
  have hlt : j < s.readers.length := by
    by_contra hge
    rw [List.getElem?_eq_none (Nat.le_of_not_lt hge)] at hj
    exact Option.noConfusion hj
  have e := fair_withReader_self hj
  rw [hl, hsq, hrm] at e
  conv_lhs => rw [← e]
  obtain ⟨h1, h2, h3, h4, h5, h6, h7, h8, h9, h10, h11, h12⟩ := fair_reader_steps (c := c) hlt
  have hne : s.readcount + 1 ≠ 1 := by omega
  simp [List.replicate, run, h1, h2, h3, h4, h5, h6, h7, h8, h9, h10, h11, h12, hi, hne]

theorem fair_run_append (c : Config) (s : State) (a b : List Tid) :
    run c s (a ++ b) = (run c s a).bind fun s' => run c s' b := by
  induction a generalizing s with
  | nil => rfl
  | cons t ts ih =>
    simp only [List.cons_append, run]
    cases step c s t with
    | none => rfl
    | some s1 => simpa using ih s1

theorem fair_crowd_reach (n k : Nat) (hk : k ≤ n) :
    ∃ s, run ⟨0, n, 0, 1⟩ (main ⟨0, n, 0, 1⟩) (crowdSched k) = some s
      ∧ s.l = 1 ∧ s.serviceQueue = 1 ∧ s.rmutex = 1 ∧ s.readcount = (k : Int)
      ∧ (k = 0 → s.resource = 1) ∧ s.readers.length = n
      ∧ (∀ j, j < k → pcAt s.readers j = some RPc.push)
      ∧ (∀ j, k ≤ j → j < n → s.readers[j]? = some ⟨RPc.loop, 0, 0⟩) := by
  induction k with
  | zero =>
    refine ⟨main ⟨0, n, 0, 1⟩, rfl, rfl, rfl, rfl, rfl, fun _ => rfl, by simp [main], ?_, ?_⟩
    · intro j hj
      exact absurd hj (Nat.not_lt_zero j)
    · intro j _ hj
      simp [main, hj]
  | succ k ih =>
    obtain ⟨s, hrun, hl, hsq, hrm, hrc, hres, hlen, hin, hout⟩ := ih (Nat.le_of_succ_le hk)
    have hj := hout k (Nat.le_refl k) hk
    have hlt : k < s.readers.length := by omega
    have key : ∃ (rc : Int) (res : Nat) (log : List LogEvent),
        run ⟨0, n, 0, 1⟩ s (enterSched k)
          = some (withReader s k rc res 1 1 1 log ⟨.push, 0, 0⟩) ∧ rc = (k : Int) + 1 := by
      by_cases hk0 : k = 0
      · refine ⟨1, 0, s.fair_rw_log ++ [⟨0 + 1, .Reader, .Request, k + 1⟩], ?_, ?_⟩
        · simp only [enterSched, hk0, if_true]
          subst hk0
          exact fair_enter_first hj Nat.zero_lt_one hl hsq hrm (hres rfl) hrc
        · simp [hk0]
      · refine ⟨s.readcount + 1, s.resource,
          s.fair_rw_log ++ [⟨0 + 1, .Reader, .Request, k + 1⟩], ?_, ?_⟩
        · simp only [enterSched, hk0, if_false]
          exact fair_enter_next hj Nat.zero_lt_one hl hsq hrm (by omega)
        · omega
    obtain ⟨rc, res, log, hrun2, hrc2⟩ := key
    refine ⟨withReader s k rc res 1 1 1 log ⟨.push, 0, 0⟩, ?_, rfl, rfl, rfl, ?_, ?_, ?_, ?_, ?_⟩
    · show run _ _ (crowdSched k ++ enterSched k) = _
      rw [fair_run_append, hrun]
      exact hrun2
    · show rc = _
      rw [hrc2]
      push_cast
      rfl
    · intro h
      exact absurd h (Nat.succ_ne_zero k)
    · simp [withReader, hlen]
    · intro j hjk
      by_cases hjk2 : j = k
      · subst hjk2
        simp [pcAt, withReader, hlt]
      · have := hin j (by omega)
        simp only [pcAt, withReader] at this ⊢
        rw [List.getElem?_set_ne (Ne.symm hjk2)]
        exact this
    · intro j hjk hjn
      have := hout j (by omega) hjn
      simp only [withReader]
      rw [List.getElem?_set_ne (by omega)]
      exact this

theorem fair_crowd (n : Nat) :
    ∃ s, Reachable ⟨0, n, 0, 1⟩ s ∧ readersInCS s = n := by
  obtain ⟨s, hrun, _, _, _, _, _, hlen, hin, _⟩ := fair_crowd_reach n n (Nat.le_refl n)
  refine ⟨s, ⟨_, hrun⟩, ?_⟩
  unfold readersInCS
  rw [cntP_eq_length, hlen]
  intro j hj
  exact ⟨_, hin j (by omega), rfl⟩

end Fair

namespace WP

open RW

theorem wp_withReader_self {s : State} {j : Nat} {t : Th RPc} (hj : s.readers[j]? = some t) :
    withReader s j s.readcount s.read_write_lock s.read_lock s.readTry s.l s.rw_lock t = s := by
  have h : s.readers.set j t = s.readers := by
    apply List.ext_getElem?
    intro k
    by_cases hk : j = k
    · subst hk
      rw [List.getElem?_set_self', hj]
      rfl
    · rw [List.getElem?_set_ne hk]
  simp [withReader, h]

theorem wp_reader_steps {c : Config} {s : State} {j : Nat} (hlt : j < s.readers.length) :
    (∀ (rc : Int) (res rl tr l : Nat) (log : List LogEvent) (i m : Nat), i < c.kr → 
        step c (withReader s j rc res rl tr l log ⟨.loop, i, m⟩) (.reader j)
          = some (withReader s j rc res rl tr l log ⟨.waitL1, i, m⟩))
    ∧ (∀ (rc : Int) (res rl tr l : Nat) (log : List LogEvent) (i m : Nat), 0 < l → 
        step c (withReader s j rc res rl tr l log ⟨.waitL1, i, m⟩) (.reader j)
          = some (withReader s j rc res rl tr (l - 1) log ⟨.logReq, i, m⟩))
    ∧ (∀ (rc : Int) (res rl tr l : Nat) (log : List LogEvent) (i m : Nat), 
        step c (withReader s j rc res rl tr l log ⟨.logReq, i, m⟩) (.reader j)
          = some (withReader s j rc res rl tr l (log ++ [⟨i + 1, .Reader, .Request, j + 1⟩]) ⟨.postL1, i, m⟩))
    ∧ (∀ (rc : Int) (res rl tr l : Nat) (log : List LogEvent) (i m : Nat), 
        step c (withReader s j rc res rl tr l log ⟨.postL1, i, m⟩) (.reader j)
          = some (withReader s j rc res rl tr (l + 1) log ⟨.waitTry, i, m⟩))
    ∧ (∀ (rc : Int) (res rl tr l : Nat) (log : List LogEvent) (i m : Nat), 0 < tr → 
        step c (withReader s j rc res rl tr l log ⟨.waitTry, i, m⟩) (.reader j)
          = some (withReader s j rc res rl (tr - 1) l log ⟨.waitRl, i, m⟩))
    ∧ (∀ (rc : Int) (res rl tr l : Nat) (log : List LogEvent) (i m : Nat), 0 < rl → 
        step c (withReader s j rc res rl tr l log ⟨.waitRl, i, m⟩) (.reader j)
          = some (withReader s j rc res (rl - 1) tr l log ⟨.inc, i, m⟩))
    ∧ (∀ (rc : Int) (res rl tr l : Nat) (log : List LogEvent) (i m : Nat), 
        step c (withReader s j rc res rl tr l log ⟨.inc, i, m⟩) (.reader j)
          = some (withReader s j (rc + 1) res rl tr l log ⟨.test, i, m⟩))
    ∧ (∀ (rc : Int) (res rl tr l : Nat) (log : List LogEvent) (i m : Nat), rc = 1 → 
        step c (withReader s j rc res rl tr l log ⟨.test, i, m⟩) (.reader j)
          = some (withReader s j rc res rl tr l log ⟨.waitRes, i, m⟩))
    ∧ (∀ (rc : Int) (res rl tr l : Nat) (log : List LogEvent) (i m : Nat), rc ≠ 1 → 
        step c (withReader s j rc res rl tr l log ⟨.test, i, m⟩) (.reader j)
          = some (withReader s j rc res rl tr l log ⟨.postRl, i, m⟩))
    ∧ (∀ (rc : Int) (res rl tr l : Nat) (log : List LogEvent) (i m : Nat), 0 < res → 
        step c (withReader s j rc res rl tr l log ⟨.waitRes, i, m⟩) (.reader j)
          = some (withReader s j rc (res - 1) rl tr l log ⟨.postRl, i, m⟩))
    ∧ (∀ (rc : Int) (res rl tr l : Nat) (log : List LogEvent) (i m : Nat), 
        step c (withReader s j rc res rl tr l log ⟨.postRl, i, m⟩) (.reader j)
          = some (withReader s j rc res (rl + 1) tr l log ⟨.postTry, i, m⟩))
    ∧ (∀ (rc : Int) (res rl tr l : Nat) (log : List LogEvent) (i m : Nat), 
        step c (withReader s j rc res rl tr l log ⟨.postTry, i, m⟩) (.reader j)
          = some (withReader s j rc res rl (tr + 1) l log ⟨.push, i, m⟩)) := by
  refine ⟨?_, ?_, ?_, ?_, ?_, ?_, ?_, ?_, ?_, ?_, ?_, ?_⟩ <;>
    intros <;>
    simp [step, reader, withReader, hlt, sem_wait, sem_post, List.set_set, *]

theorem wp_enter_first {c : Config} {s : State} {j i m : Nat}
    (hj : s.readers[j]? = some ⟨.loop, i, m⟩) (hi : i < c.kr)
    (hl : s.l = 1) (hsq : s.readTry = 1) (hrm : s.read_lock = 1)
    (hres : s.read_write_lock = 1)
    (hrc : s.readcount = 0) :
    run c s (List.replicate 11 (.reader j))
      = some (withReader s j 1 0 1 1 1
          (s.rw_lock ++ [⟨i + 1, .Reader, .Request, j + 1⟩]) ⟨.push, i, m⟩) := by
  have hlt : j < s.readers.length := by
    by_contra hge
    rw [List.getElem?_eq_none (Nat.le_of_not_lt hge)] at hj
    exact Option.noConfusion hj
  have e := wp_withReader_self hj
  rw [hl, hsq, hrm, hres, hrc] at e
  conv_lhs => rw [← e]
  obtain ⟨h1, h2, h3, h4, h5, h6, h7, h8, h9, h10, h11, h12⟩ := wp_reader_steps (c := c) hlt
  simp [List.replicate, run, h1, h2, h3, h4, h5, h6, h7, h8, h9, h10, h11, h12, hi]

theorem wp_enter_next {c : Config} {s : State} {j i m : Nat}
    (hj : s.readers[j]? = some ⟨.loop, i, m⟩) (hi : i < c.kr)
    (hl : s.l = 1) (hsq : s.readTry = 1) (hrm : s.read_lock = 1)
    (hrc : 1 ≤ s.readcount) :
    run c s (List.replicate 10 (.reader j))
      = some (withReader s j (s.readcount + 1) s.read_write_lock 1 1 1
          (s.rw_lock ++ [⟨i + 1, .Reader, .Request, j + 1⟩]) ⟨.push, i, m⟩) := by
  have hlt : j < s.readers.length := by
    by_contra hge
    rw [List.getElem?_eq_none (Nat.le_of_not_lt hge)] at hj
    exact Option.noConfusion hj
  have e := wp_withReader_self hj
  rw [hl, hsq, hrm] at e
  conv_lhs => rw [← e]
  obtain ⟨h1, h2, h3, h4, h5, h6, h7, h8, h9, h10, h11, h12⟩ := wp_reader_steps (c := c) hlt
  have hne : s.readcount + 1 ≠ 1 := by omega
  simp [List.replicate, run, h1, h2, h3, h4, h5, h6, h7, h8, h9, h10, h11, h12, hi, hne]

theorem wp_run_append (c : Config) (s : State) (a b : List Tid) :
    run c s (a ++ b) = (run c s a).bind fun s' => run c s' b := by
  induction a generalizing s with
  | nil => rfl
  | cons t ts ih =>
    simp only [List.cons_append, run]
    cases step c s t with
    | none => rfl
    | some s1 => simpa using ih s1

theorem wp_crowd_reach (n k : Nat) (hk : k ≤ n) :
    ∃ s, run ⟨0, n, 0, 1⟩ (main ⟨0, n, 0, 1⟩) (crowdSched k) = some s
      ∧ s.l = 1 ∧ s.readTry = 1 ∧ s.read_lock = 1 ∧ s.readcount = (k : Int)
      ∧ (k = 0 → s.read_write_lock = 1) ∧ s.readers.length = n
      ∧ (∀ j, j < k → pcAt s.readers j = some RPc.push)
      ∧ (∀ j, k ≤ j → j < n → s.readers[j]? = some ⟨RPc.loop, 0, 0⟩) := by
  induction k with
  | zero =>
    refine ⟨main ⟨0, n, 0, 1⟩, rfl, rfl, rfl, rfl, rfl, fun _ => rfl, by simp [main], ?_, ?_⟩
    · intro j hj
      exact absurd hj (Nat.not_lt_zero j)
    · intro j _ hj
      simp [main, hj]
  | succ k ih =>
    obtain ⟨s, hrun, hl, hsq, hrm, hrc, hres, hlen, hin, hout⟩ := ih (Nat.le_of_succ_le hk)
    have hj := hout k (Nat.le_refl k) hk
    have hlt : k < s.readers.length := by omega
    have key : ∃ (rc : Int) (res : Nat) (log : List LogEvent),
        run ⟨0, n, 0, 1⟩ s (enterSched k)
          = some (withReader s k rc res 1 1 1 log ⟨.push, 0, 0⟩) ∧ rc = (k : Int) + 1 := by
      by_cases hk0 : k = 0
      · refine ⟨1, 0, s.rw_lock ++ [⟨0 + 1, .Reader, .Request, k + 1⟩], ?_, ?_⟩
        · simp only [enterSched, hk0, if_true]
          subst hk0
          exact wp_enter_first hj Nat.zero_lt_one hl hsq hrm (hres rfl) hrc
        · simp [hk0]
      · refine ⟨s.readcount + 1, s.read_write_lock,
          s.rw_lock ++ [⟨0 + 1, .Reader, .Request, k + 1⟩], ?_, ?_⟩
        · simp only [enterSched, hk0, if_false]
          exact wp_enter_next hj Nat.zero_lt_one hl hsq hrm (by omega)
        · omega
    obtain ⟨rc, res, log, hrun2, hrc2⟩ := key
    refine ⟨withReader s k rc res 1 1 1 log ⟨.push, 0, 0⟩, ?_, rfl, rfl, rfl, ?_, ?_, ?_, ?_, ?_⟩
    · show run _ _ (crowdSched k ++ enterSched k) = _
      rw [wp_run_append, hrun]
      exact hrun2
    · show rc = _
      rw [hrc2]
      push_cast
      rfl
    · intro h
      exact absurd h (Nat.succ_ne_zero k)
    · simp [withReader, hlen]
    · intro j hjk
      by_cases hjk2 : j = k
      · subst hjk2
        simp [pcAt, withReader, hlt]
      · have := hin j (by omega)
        simp only [pcAt, withReader] at this ⊢
        rw [List.getElem?_set_ne (Ne.symm hjk2)]
        exact this
    · intro j hjk hjn
      have := hout j (by omega) hjn
      simp only [withReader]
      rw [List.getElem?_set_ne (by omega)]
      exact this

theorem wp_crowd (n : Nat) :
    ∃ s, Reachable ⟨0, n, 0, 1⟩ s ∧ readersInCS s = n := by
  obtain ⟨s, hrun, _, _, _, _, _, hlen, hin, _⟩ := wp_crowd_reach n n (Nat.le_refl n)
  refine ⟨s, ⟨_, hrun⟩, ?_⟩
  unfold readersInCS
  rw [cntP_eq_length, hlen]
  intro j hj
  exact ⟨_, hin j (by omega), rfl⟩

end WP

/-! ## Which statements change the counters -/

namespace Fair

open RW

theorem reader_fair_readcount {k : Nat} {s s' : State} {j : Nat}
    (hs : reader_fair k s j = some s') (hne : s'.readcount ≠ s.readcount) :
    ∃ p, pcAt s.readers j = some p ∧ RPc.inRm p = true ∧ (p = .inc ∨ p = .dec) := by
  unfold reader_fair at hs
  cases hj : s.readers[j]? with
  | none => simp [hj] at hs
  | some t =>
    have hp : pcAt s.readers j = some t.pc := by simp [pcAt, hj]
    simp only [hj] at hs
    obtain ⟨pc, i, n⟩ := t
    cases pc <;> simp [sem_wait] at hs <;>
      first
      | (subst hs
         first
         | exact absurd rfl hne
         | exact ⟨_, hp, rfl, Or.inl rfl⟩
         | exact ⟨_, hp, rfl, Or.inr rfl⟩)
      | (obtain ⟨hc, rfl⟩ := hs
         exact absurd rfl hne)
      | (split at hs <;> simp at hs <;> subst hs <;> exact absurd rfl hne)

theorem writer_fair_readcount {k : Nat} {s s' : State} {j : Nat}
    (hs : writer_fair k s j = some s') : s'.readcount = s.readcount := by
  unfold writer_fair at hs
  cases hj : s.writers[j]? with
  | none => simp [hj] at hs
  | some t =>
    simp only [hj] at hs
    obtain ⟨pc, i, n⟩ := t
    cases pc <;> simp [sem_wait] at hs <;>
      first
      | (subst hs
         rfl)
      | (obtain ⟨hc, rfl⟩ := hs
         rfl)
      | (split at hs <;> simp at hs <;> subst hs <;> rfl)

theorem reader_fair_dec {k : Nat} {s : State} {j : Nat}
    (hp : pcAt s.readers j = some RPc.dec) :
    ∃ s', reader_fair k s j = some s' ∧ s'.readcount = s.readcount - 1 := by
  obtain ⟨t, hj, ht⟩ := pcAt_some hp
  obtain ⟨pc, i, n⟩ := t
  simp only at ht
  subst ht
  refine ⟨{ s with readcount := s.readcount - 1,
                   readers := s.readers.set j ⟨.test2, i, n⟩ }, ?_, rfl⟩
  simp [reader_fair, hj]

end Fair

namespace WP

open RW

theorem reader_readcount {k : Nat} {s s' : State} {j : Nat}
    (hs : reader k s j = some s') (hne : s'.readcount ≠ s.readcount) :
    ∃ p, pcAt s.readers j = some p ∧ RPc.inRl p = true ∧ (p = .inc ∨ p = .dec) := by
  unfold reader at hs
  cases hj : s.readers[j]? with
  | none => simp [hj] at hs
  | some t =>
    have hp : pcAt s.readers j = some t.pc := by simp [pcAt, hj]
    simp only [hj] at hs
    obtain ⟨pc, i, n⟩ := t
    cases pc <;> simp [sem_wait] at hs <;>
      first
      | (subst hs
         first
         | exact absurd rfl hne
         | exact ⟨_, hp, rfl, Or.inl rfl⟩
         | exact ⟨_, hp, rfl, Or.inr rfl⟩)
      | (obtain ⟨hc, rfl⟩ := hs
         exact absurd rfl hne)
      | (split at hs <;> simp at hs <;> subst hs <;> exact absurd rfl hne)

theorem reader_writecount {k : Nat} {s s' : State} {j : Nat}
    (hs : reader k s j = some s') : s'.writecount = s.writecount := by
  unfold reader at hs
  cases hj : s.readers[j]? with
  | none => simp [hj] at hs
  | some t =>
    simp only [hj] at hs
    obtain ⟨pc, i, n⟩ := t
    cases pc <;> simp [sem_wait] at hs <;>
      first
      | (subst hs
         rfl)
      | (obtain ⟨hc, rfl⟩ := hs
         rfl)
      | (split at hs <;> simp at hs <;> subst hs <;> rfl)

theorem writer_writecount {k : Nat} {s s' : State} {j : Nat}
    (hs : writer k s j = some s') (hne : s'.writecount ≠ s.writecount) :
    ∃ p, pcAt s.writers j = some p ∧ WPc.inWl p = true ∧ (p = .inc ∨ p = .dec) := by
  unfold writer at hs
  cases hj : s.writers[j]? with
  | none => simp [hj] at hs
  | some t =>
    have hp : pcAt s.writers j = some t.pc := by simp [pcAt, hj]
    simp only [hj] at hs
    obtain ⟨pc, i, n⟩ := t
    cases pc <;> simp [sem_wait] at hs <;>
      first
      | (subst hs
         first
         | exact absurd rfl hne
         | exact ⟨_, hp, rfl, Or.inl rfl⟩
         | exact ⟨_, hp, rfl, Or.inr rfl⟩)
      | (obtain ⟨hc, rfl⟩ := hs
         exact absurd rfl hne)
      | (split at hs <;> simp at hs <;> subst hs <;> exact absurd rfl hne)

theorem writer_readcount {k : Nat} {s s' : State} {j : Nat}
    (hs : writer k s j = some s') : s'.readcount = s.readcount := by
  unfold writer at hs
  cases hj : s.writers[j]? with
  | none => simp [hj] at hs
  | some t =>
    simp only [hj] at hs
    obtain ⟨pc, i, n⟩ := t
    cases pc <;> simp [sem_wait] at hs <;>
      first
      | (subst hs
         rfl)
      | (obtain ⟨hc, rfl⟩ := hs
         rfl)
      | (split at hs <;> simp at hs <;> subst hs <;> rfl)

theorem reader_dec {k : Nat} {s : State} {j : Nat}
    (hp : pcAt s.readers j = some RPc.dec) :
    ∃ s', reader k s j = some s' ∧ s'.readcount = s.readcount - 1 := by
  obtain ⟨t, hj, ht⟩ := pcAt_some hp
  obtain ⟨pc, i, n⟩ := t
  simp only at ht
  subst ht
  refine ⟨{ s with readcount := s.readcount - 1,
                   readers := s.readers.set j ⟨.test2, i, n⟩ }, ?_, rfl⟩
  simp [reader, hj]

end WP

/-! ## The averaging code -/

namespace Avg

theorem foldl_add (ws : List ℚ) (a : ℚ) :
    ws.foldl (fun total wt => total + wt) a = a + ws.sum := by
  induction ws generalizing a with
  | nil => simp
  | cons w ws ih =>
    simp only [List.foldl_cons, List.sum_cons, ih]
    ring

theorem ddiv_some_pos (a : ℚ) {n : Nat} (h : n ≠ 0) :
    (ddiv (some a) n).val = some (a / (n : ℚ)) := by
  simp [ddiv, h]

theorem mean_of_foldl {ws : List ℚ} (h : ws ≠ []) :
    (ddiv (some (ws.foldl (fun total wt => total + wt) 0)) ws.length).val
      = some (specMean ws) := by
  have hn : ws.length ≠ 0 := by
    intro h0
    exact h (List.length_eq_zero.mp h0)
  rw [ddiv_some_pos _ hn, foldl_add, zero_add]
  rfl

theorem flatten_map_singleton {α : Type} (f : α → Nat) (xs : List α) :
    (xs.map (fun a => [f a])).flatten = xs.map f := by
  induction xs with
  | nil => rfl
  | cons x xs ih => simp [ih]

end Avg

/-! ## Loop variables, sample counts and a bound on the length of runs -/

namespace RW

theorem wsum_cons {P : Type} (f : Th P → Nat) (a : Th P) (ts : List (Th P)) :
    wsum f (a :: ts) = f a + wsum f ts := by
  simp [wsum]

theorem wsum_set_add {P : Type} (f : Th P → Nat) {ts : List (Th P)} {j : Nat} {t : Th P}
    (h : ts[j]? = some t) (t' : Th P) :
    wsum f (ts.set j t') + f t = wsum f ts + f t' := by
  induction ts generalizing j with
  | nil => simp at h
  | cons a as ih =>
    cases j with
    | zero =>
      simp at h
      subst h
      simp only [List.set_cons_zero, wsum_cons]
      omega
    | succ j =>
      simp at h
      have := ih h
      simp only [List.set_cons_succ, wsum_cons]
      omega

theorem wsum_replicate {P : Type} (f : Th P → Nat) (n : Nat) (t : Th P) :
    wsum f (List.replicate n t) = n * f t := by
  simp [wsum]

end RW

namespace Fair

open RW

theorem reader_fair_local {k : Nat} {s s' : State} {j : Nat}
    (hs : reader_fair k s j = some s') :
    ∃ t t', s.readers[j]? = some t ∧ s'.readers = s.readers.set j t'
      ∧ s'.writers = s.writers
      ∧ (RPc.localInv k t → RPc.localInv k t' ∧ RPc.todo k t' < RPc.todo k t) := by
  unfold reader_fair at hs
  cases hj : s.readers[j]? with
  | none => simp [hj] at hs
  | some t =>
    simp only [hj] at hs
    obtain ⟨pc, i, n⟩ := t
    cases pc <;> simp [sem_wait] at hs <;>
      first
      | (subst hs
         refine ⟨_, _, rfl, rfl, rfl, ?_⟩
         simp only [RPc.localInv, RPc.todo, RPc.inBody, RPc.finished, RPc.pushed, RPc.left, b2n]
         simp <;> omega)
      | (obtain ⟨hc, rfl⟩ := hs
         refine ⟨_, _, rfl, rfl, rfl, ?_⟩
         simp only [RPc.localInv, RPc.todo, RPc.inBody, RPc.finished, RPc.pushed, RPc.left, b2n]
         simp)
      | (split at hs <;> rename_i hc <;> simp at hs <;> subst hs <;>
           refine ⟨_, _, rfl, rfl, rfl, ?_⟩ <;>
           simp only [RPc.localInv, RPc.todo, RPc.inBody, RPc.finished, RPc.pushed, RPc.left, b2n] <;>
           simp <;> omega)

theorem writer_fair_local {k : Nat} {s s' : State} {j : Nat}
    (hs : writer_fair k s j = some s') :
    ∃ t t', s.writers[j]? = some t ∧ s'.writers = s.writers.set j t'
      ∧ s'.readers = s.readers
      ∧ (WPc.localInv k t → WPc.localInv k t' ∧ WPc.todo k t' < WPc.todo k t) := by
  unfold writer_fair at hs
  cases hj : s.writers[j]? with
  | none => simp [hj] at hs
  | some t =>
    simp only [hj] at hs
    obtain ⟨pc, i, n⟩ := t
    cases pc <;> simp [sem_wait] at hs <;>
      first
      | (subst hs
         refine ⟨_, _, rfl, rfl, rfl, ?_⟩
         simp only [WPc.localInv, WPc.todo, WPc.inBody, WPc.finished, WPc.pushed, WPc.left, b2n]
         simp <;> omega)
      | (obtain ⟨hc, rfl⟩ := hs
         refine ⟨_, _, rfl, rfl, rfl, ?_⟩
         simp only [WPc.localInv, WPc.todo, WPc.inBody, WPc.finished, WPc.pushed, WPc.left, b2n]
         simp)
      | (split at hs <;> rename_i hc <;> simp at hs <;> subst hs <;>
           refine ⟨_, _, rfl, rfl, rfl, ?_⟩ <;>
           simp only [WPc.localInv, WPc.todo, WPc.inBody, WPc.finished, WPc.pushed, WPc.left, b2n] <;>
           simp <;> omega)

theorem fair_local_main (c : Config) : LocalInv c (main c) := by
  constructor
  · intro j t hj
    simp only [main, List.getElem?_replicate] at hj
    split at hj
    · cases hj
      simp [RPc.localInv, RPc.inBody, RPc.finished, RPc.pushed, b2n]
    · cases hj
  · intro j t hj
    simp only [main, List.getElem?_replicate] at hj
    split at hj
    · cases hj
      simp [WPc.localInv, WPc.inBody, WPc.finished, WPc.pushed, b2n]
    · cases hj

theorem fair_todo_main (c : Config) :
    todo c (main c) = c.nr * (c.kr * 25 + 26) + c.nw * (c.kw * 17 + 18) := by
  simp [todo, main, wsum_replicate, RPc.todo, WPc.todo, RPc.finished, WPc.finished, RPc.left,
    WPc.left]

theorem fair_local_step {c : Config} {s s' : State} {t : Tid} (h : LocalInv c s)
    (hs : step c s t = some s') : LocalInv c s' ∧ todo c s' < todo c s := by
  cases t with
  | reader j =>
    obtain ⟨t, t', hj, hr, hw, himp⟩ := reader_fair_local hs
    obtain ⟨hl, hlt⟩ := himp (h.1 j t hj)
    refine ⟨⟨?_, ?_⟩, ?_⟩
    · intro j2 t2 h2
      rw [hr] at h2
      by_cases hjj : j = j2
      · subst hjj
        rw [List.getElem?_set_self', hj] at h2
        cases h2
        exact hl
      · rw [List.getElem?_set_ne hjj] at h2
        exact h.1 j2 t2 h2
    · intro j2 t2 h2
      rw [hw] at h2
      exact h.2 j2 t2 h2
    · have := wsum_set_add (RPc.todo c.kr) hj t'
      simp only [todo, hr, hw]
      omega
  | writer j =>
    obtain ⟨t, t', hj, hw, hr, himp⟩ := writer_fair_local hs
    obtain ⟨hl, hlt⟩ := himp (h.2 j t hj)
    refine ⟨⟨?_, ?_⟩, ?_⟩
    · intro j2 t2 h2
      rw [hr] at h2
      exact h.1 j2 t2 h2
    · intro j2 t2 h2
      rw [hw] at h2
      by_cases hjj : j = j2
      · subst hjj
        rw [List.getElem?_set_self', hj] at h2
        cases h2
        exact hl
      · rw [List.getElem?_set_ne hjj] at h2
        exact h.2 j2 t2 h2
    · have := wsum_set_add (WPc.todo c.kw) hj t'
      simp only [todo, hr, hw]
      omega

theorem fair_run_bound {c : Config} {sched : List Tid} {s s' : State} (h : LocalInv c s)
    (hs : run c s sched = some s') : LocalInv c s' ∧ sched.length + todo c s' ≤ todo c s := by
  induction sched generalizing s with
  | nil =>
    simp only [run, Option.some.injEq] at hs
    subst hs
    exact ⟨h, by simp⟩
  | cons t ts ih =>
    simp only [run, Option.bind_eq_some] at hs
    obtain ⟨s1, h1, h2⟩ := hs
    obtain ⟨hl1, hlt⟩ := fair_local_step h h1
    obtain ⟨hl2, hle⟩ := ih hl1 h2
    refine ⟨hl2, ?_⟩
    simp only [List.length_cons]
    omega

theorem fair_reachable_local {c : Config} {s : State} (h : Reachable c s) :
    LocalInv c s := by
  obtain ⟨sched, hs⟩ := h
  exact (fair_run_bound (fair_local_main c) hs).1

end Fair

namespace WP

open RW

theorem reader_local {k : Nat} {s s' : State} {j : Nat}
    (hs : reader k s j = some s') :
    ∃ t t', s.readers[j]? = some t ∧ s'.readers = s.readers.set j t'
      ∧ s'.writers = s.writers
      ∧ (RPc.localInv k t → RPc.localInv k t' ∧ RPc.todo k t' < RPc.todo k t) := by
  unfold reader at hs
  cases hj : s.readers[j]? with
  | none => simp [hj] at hs
  | some t =>
    simp only [hj] at hs
    obtain ⟨pc, i, n⟩ := t
    cases pc <;> simp [sem_wait] at hs <;>
      first
      | (subst hs
         refine ⟨_, _, rfl, rfl, rfl, ?_⟩
         simp only [RPc.localInv, RPc.todo, RPc.inBody, RPc.finished, RPc.pushed, RPc.left, b2n]
         simp <;> omega)
      | (obtain ⟨hc, rfl⟩ := hs
         refine ⟨_, _, rfl, rfl, rfl, ?_⟩
         simp only [RPc.localInv, RPc.todo, RPc.inBody, RPc.finished, RPc.pushed, RPc.left, b2n]
         simp)
      | (split at hs <;> rename_i hc <;> simp at hs <;> subst hs <;>
           refine ⟨_, _, rfl, rfl, rfl, ?_⟩ <;>
           simp only [RPc.localInv, RPc.todo, RPc.inBody, RPc.finished, RPc.pushed, RPc.left, b2n] <;>
           simp <;> omega)

theorem writer_local {k : Nat} {s s' : State} {j : Nat}
    (hs : writer k s j = some s') :
    ∃ t t', s.writers[j]? = some t ∧ s'.writers = s.writers.set j t'
      ∧ s'.readers = s.readers
      ∧ (WPc.localInv k t → WPc.localInv k t' ∧ WPc.todo k t' < WPc.todo k t) := by
  unfold writer at hs
  cases hj : s.writers[j]? with
  | none => simp [hj] at hs
  | some t =>
    simp only [hj] at hs
    obtain ⟨pc, i, n⟩ := t
    cases pc <;> simp [sem_wait] at hs <;>
      first
      | (subst hs
         refine ⟨_, _, rfl, rfl, rfl, ?_⟩
         simp only [WPc.localInv, WPc.todo, WPc.inBody, WPc.finished, WPc.pushed, WPc.left, b2n]
         simp <;> omega)
      | (obtain ⟨hc, rfl⟩ := hs
         refine ⟨_, _, rfl, rfl, rfl, ?_⟩
         simp only [WPc.localInv, WPc.todo, WPc.inBody, WPc.finished, WPc.pushed, WPc.left, b2n]
         simp)
      | (split at hs <;> rename_i hc <;> simp at hs <;> subst hs <;>
           refine ⟨_, _, rfl, rfl, rfl, ?_⟩ <;>
           simp only [WPc.localInv, WPc.todo, WPc.inBody, WPc.finished, WPc.pushed, WPc.left, b2n] <;>
           simp <;> omega)

theorem wp_local_main (c : Config) : LocalInv c (main c) := by
  constructor
  · intro j t hj
    simp only [main, List.getElem?_replicate] at hj
    split at hj
    · cases hj
      simp [RPc.localInv, RPc.inBody, RPc.finished, RPc.pushed, b2n]
    · cases hj
  · intro j t hj
    simp only [main, List.getElem?_replicate] at hj
    split at hj
    · cases hj
      simp [WPc.localInv, WPc.inBody, WPc.finished, WPc.pushed, b2n]
    · cases hj

theorem wp_todo_main (c : Config) :
    todo c (main c) = c.nr * (c.kr * 25 + 25) + c.nw * (c.kw * 25 + 25) := by
  simp [todo, main, wsum_replicate, RPc.todo, WPc.todo, RPc.finished, WPc.finished, RPc.left,
    WPc.left]

theorem wp_local_step {c : Config} {s s' : State} {t : Tid} (h : LocalInv c s)
    (hs : step c s t = some s') : LocalInv c s' ∧ todo c s' < todo c s := by
  cases t with
  | reader j =>
    obtain ⟨t, t', hj, hr, hw, himp⟩ := reader_local hs
    obtain ⟨hl, hlt⟩ := himp (h.1 j t hj)
    refine ⟨⟨?_, ?_⟩, ?_⟩
    · intro j2 t2 h2
      rw [hr] at h2
      by_cases hjj : j = j2
      · subst hjj
        rw [List.getElem?_set_self', hj] at h2
        cases h2
        exact hl
      · rw [List.getElem?_set_ne hjj] at h2
        exact h.1 j2 t2 h2
    · intro j2 t2 h2
      rw [hw] at h2
      exact h.2 j2 t2 h2
    · have := wsum_set_add (RPc.todo c.kr) hj t'
      simp only [todo, hr, hw]
      omega
  | writer j =>
    obtain ⟨t, t', hj, hw, hr, himp⟩ := writer_local hs
    obtain ⟨hl, hlt⟩ := himp (h.2 j t hj)
    refine ⟨⟨?_, ?_⟩, ?_⟩
    · intro j2 t2 h2
      rw [hr] at h2
      exact h.1 j2 t2 h2
    · intro j2 t2 h2
      rw [hw] at h2
      by_cases hjj : j = j2
      · subst hjj
        rw [List.getElem?_set_self', hj] at h2
        cases h2
        exact hl
      · rw [List.getElem?_set_ne hjj] at h2
        exact h.2 j2 t2 h2
    · have := wsum_set_add (WPc.todo c.kw) hj t'
      simp only [todo, hr, hw]
      omega

theorem wp_run_bound {c : Config} {sched : List Tid} {s s' : State} (h : LocalInv c s)
    (hs : run c s sched = some s') : LocalInv c s' ∧ sched.length + todo c s' ≤ todo c s := by
  induction sched generalizing s with
  | nil =>
    simp only [run, Option.some.injEq] at hs
    subst hs
    exact ⟨h, by simp⟩
  | cons t ts ih =>
    simp only [run, Option.bind_eq_some] at hs
    obtain ⟨s1, h1, h2⟩ := hs
    obtain ⟨hl1, hlt⟩ := wp_local_step h h1
    obtain ⟨hl2, hle⟩ := ih hl1 h2
    refine ⟨hl2, ?_⟩
    simp only [List.length_cons]
    omega

theorem wp_reachable_local {c : Config} {s : State} (h : Reachable c s) :
    LocalInv c s := by
  obtain ⟨sched, hs⟩ := h
  exact (wp_run_bound (wp_local_main c) hs).1

end WP


/-! ## Main results -/

open RW Avg

set_option maxRecDepth 100000

/-- C1: in every reachable state of the fair program and of the
writer-preference program at most one writer is inside its critical section, and
when a writer is inside no reader is inside; and for every `n` each program has a
reachable state with `n` readers inside their critical sections together. -/
theorem reader_writer_exclusion :
    (∀ (c : Config) (s : Fair.State), Fair.Reachable c s →
        Fair.writersInCS s ≤ 1 ∧ (1 ≤ Fair.writersInCS s → Fair.readersInCS s = 0))
    ∧ (∀ (c : Config) (s : WP.State), WP.Reachable c s →
        WP.writersInCS s ≤ 1 ∧ (1 ≤ WP.writersInCS s → WP.readersInCS s = 0))
    ∧ (∀ n : Nat, ∃ (c : Config) (s : Fair.State), Fair.Reachable c s ∧ Fair.readersInCS s = n)
    ∧ (∀ n : Nat, ∃ (c : Config) (s : WP.State), WP.Reachable c s ∧ WP.readersInCS s = n) :=
  ⟨fun _ _ h => Fair.fair_exclusion_of_inv (Fair.fair_reachable_inv h),
   fun _ _ h => WP.wp_exclusion_of_inv (WP.wp_reachable_inv h),
   fun n => ⟨_, Fair.fair_crowd n⟩,
   fun n => ⟨_, WP.wp_crowd n⟩⟩

/-- C1 at the state in which writer 0 of the fair program is inside its critical
section and writer 1 waits for `resource`. -/
theorem reader_writer_exclusion_witness :
    Fair.Reachable Fair.exConfig Fair.exQueuedState
      ∧ Fair.writersInCS Fair.exQueuedState = 1
      ∧ Fair.readersInCS Fair.exQueuedState = 0 :=
  have hr : Fair.Reachable Fair.exConfig Fair.exQueuedState := ⟨Fair.exQueued, by decide⟩
  ⟨hr, by decide, (reader_writer_exclusion.1 Fair.exConfig Fair.exQueuedState hr).2 (by decide)⟩

/-- C2, as stated, fails in the fair program: after writer 0 has entered its
critical section and reader 0 has executed `readcount++`, a writer holds
`resource` while `readcount` is 1. -/
theorem fair_writer_holds_readcount_pos :
    Fair.run Fair.exConfig (Fair.main Fair.exConfig) Fair.exWriterThenReader
        = some Fair.exWriterThenReaderState
      ∧ pcAt Fair.exWriterThenReaderState.writers 0 = some Fair.WPc.push
      ∧ Fair.writersInCS Fair.exWriterThenReaderState = 1
      ∧ Fair.exWriterThenReaderState.resource = 0
      ∧ Fair.exWriterThenReaderState.readcount = 1 := by
  decide

/-- C2 amended: in both programs the resource semaphore is never held by more
than one writer.  In the writer-preference program `readcount` is 0 while a writer
holds `read_write_lock`.  In the fair program, while a writer holds `resource`, no
reader is past line 70: `readcount` is at most 1 and counts only a reader that
is at line 69 or waits at line 70. -/
theorem writer_holds_readcount :
    (∀ (c : Config) (s : Fair.State), Fair.Reachable c s →
        Fair.writersInCS s ≤ 1
        ∧ (1 ≤ Fair.writersInCS s →
            s.resource = 0 ∧ Fair.admitted s = 0
            ∧ s.readcount = ((Fair.nR s .test + Fair.nR s .waitRes : Nat) : Int)
            ∧ s.readcount ≤ 1))
    ∧ (∀ (c : Config) (s : WP.State), WP.Reachable c s →
        WP.writersInCS s ≤ 1
        ∧ (1 ≤ WP.writersInCS s → s.read_write_lock = 0 ∧ s.readcount = 0)) :=
  ⟨fun _ _ h =>
    ⟨(Fair.fair_exclusion_of_inv (Fair.fair_reachable_inv h)).1,
     fun hw => Fair.fair_writer_cs_readcount (Fair.fair_reachable_inv h) hw⟩,
   fun _ _ h =>
    ⟨(WP.wp_exclusion_of_inv (WP.wp_reachable_inv h)).1,
     fun hw =>
      ⟨(WP.wp_writer_cs_readcount (WP.wp_reachable_inv h) hw).1,
       (WP.wp_writer_cs_readcount (WP.wp_reachable_inv h) hw).2.2.2.2⟩⟩⟩

/-- C2 amended at the state of the writer-preference program in which writer 0 is
inside its critical section. -/
theorem writer_holds_readcount_witness :
    WP.Reachable WP.exConfig WP.exQueuedState
      ∧ WP.writersInCS WP.exQueuedState = 1
      ∧ WP.exQueuedState.read_write_lock = 0 ∧ WP.exQueuedState.readcount = 0 :=
  have hr : WP.Reachable WP.exConfig WP.exQueuedState := ⟨WP.exQueued, by decide⟩
  ⟨hr, by decide, (writer_holds_readcount.2 WP.exConfig WP.exQueuedState hr).2 (by decide)⟩

/-- C3: in every reachable state of either program `readcount` equals the number
of readers that have executed `readcount++` and not yet `readcount--`, so it is
never negative; in particular a reader at `readcount--` can execute it, and in
the state right after it `readcount` is one less and again equals that number. -/
theorem readcount_counts_readers :
    (∀ (c : Config) (s : Fair.State), Fair.Reachable c s →
        (s.readcount = ((Fair.counted s : Nat) : Int) ∧ 0 ≤ s.readcount)
        ∧ ∀ j, pcAt s.readers j = some Fair.RPc.dec →
            ∃ s', Fair.step c s (.reader j) = some s'
              ∧ s'.readcount = s.readcount - 1
              ∧ s'.readcount = ((Fair.counted s' : Nat) : Int) ∧ 0 ≤ s'.readcount)
    ∧ (∀ (c : Config) (s : WP.State), WP.Reachable c s →
        (s.readcount = ((WP.counted s : Nat) : Int) ∧ 0 ≤ s.readcount)
        ∧ ∀ j, pcAt s.readers j = some WP.RPc.dec →
            ∃ s', WP.step c s (.reader j) = some s'
              ∧ s'.readcount = s.readcount - 1
              ∧ s'.readcount = ((WP.counted s' : Nat) : Int) ∧ 0 ≤ s'.readcount) := by
  constructor
  · intro c s h
    have hi := Fair.fair_reachable_inv h
    refine ⟨⟨hi.hrc, by rw [hi.hrc]; exact Int.natCast_nonneg _⟩, ?_⟩
    intro j hj
    obtain ⟨s', hs, hd⟩ := Fair.reader_fair_dec (k := c.kr) hj
    have hi2 := Fair.reader_fair_inv hi hs
    exact ⟨s', hs, hd, hi2.hrc, by rw [hi2.hrc]; exact Int.natCast_nonneg _⟩
  · intro c s h
    have hi := WP.wp_reachable_inv h
    refine ⟨⟨hi.hrc, by rw [hi.hrc]; exact Int.natCast_nonneg _⟩, ?_⟩
    intro j hj
    obtain ⟨s', hs, hd⟩ := WP.reader_dec (k := c.kr) hj
    have hi2 := WP.reader_inv hi hs
    exact ⟨s', hs, hd, hi2.hrc, by rw [hi2.hrc]; exact Int.natCast_nonneg _⟩

/-- C3 at the state of the fair program in which reader 0, alone inside, is at
`readcount--`: there `readcount` is 1, and after the decrement it is 0. -/
theorem readcount_counts_readers_witness :
    Fair.Reachable Fair.exConfig Fair.exDecState
      ∧ pcAt Fair.exDecState.readers 0 = some Fair.RPc.dec
      ∧ Fair.exDecState.readcount = 1
      ∧ ∃ s', Fair.step Fair.exConfig Fair.exDecState (.reader 0) = some s'
          ∧ s'.readcount = Fair.exDecState.readcount - 1
          ∧ s'.readcount = ((Fair.counted s' : Nat) : Int) ∧ 0 ≤ s'.readcount :=
  have hr : Fair.Reachable Fair.exConfig Fair.exDecState := ⟨Fair.exReaderToDec, by decide⟩
  ⟨hr, by decide, by decide,
    (readcount_counts_readers.1 Fair.exConfig Fair.exDecState hr).2 0 (by decide)⟩

/-- C4: with `nw = 2`, `nr = 3`, `kw = 3`, `kr = 3`, every reachable state of
either program in which some thread has not returned from its thread function has
a thread with an enabled step; and no run of the fair program has more than 441
steps, no run of the writer-preference program more than 500, so every run can be
continued until all threads have returned and no thread stays blocked. -/
theorem deadlock_free_2_3_3_3 :
    (∀ s : Fair.State, Fair.Reachable ⟨2, 3, 3, 3⟩ s → Fair.unfinished s →
        ∃ t s', Fair.step ⟨2, 3, 3, 3⟩ s t = some s')
    ∧ (∀ (sched : List Tid) (s : Fair.State),
        Fair.run ⟨2, 3, 3, 3⟩ (Fair.main ⟨2, 3, 3, 3⟩) sched = some s → sched.length ≤ 441)
    ∧ (∀ s : WP.State, WP.Reachable ⟨2, 3, 3, 3⟩ s → WP.unfinished s →
        ∃ t s', WP.step ⟨2, 3, 3, 3⟩ s t = some s')
    ∧ (∀ (sched : List Tid) (s : WP.State),
        WP.run ⟨2, 3, 3, 3⟩ (WP.main ⟨2, 3, 3, 3⟩) sched = some s → sched.length ≤ 500) := by
  refine ⟨fun _ h hu => Fair.fair_deadlock_free_of_inv (Fair.fair_reachable_inv h) hu, ?_,
    fun _ h hu => WP.wp_deadlock_free_of_inv (WP.wp_reachable_inv h) hu, ?_⟩
  · intro sched s hs
    have h := (Fair.fair_run_bound (Fair.fair_local_main _) hs).2
    rw [Fair.fair_todo_main] at h
    simp only at h
    omega
  · intro sched s hs
    have h := (WP.wp_run_bound (WP.wp_local_main _) hs).2
    rw [WP.wp_todo_main] at h
    simp only at h
    omega

/-- C4 at contended states of both programs with `nw = 2`, `nr = 3`, `kw = 3`,
`kr = 3`: writer 0 is inside its critical section, writer 1 is blocked on the
resource semaphore and the three readers are blocked on `serviceQueue` (fair) or
`readTry` (writer-preference); four of the five threads have no step, and a step
is enabled. -/
theorem deadlock_free_2_3_3_3_witness :
    (Fair.Reachable ⟨2, 3, 3, 3⟩ Fair.exBusyState
      ∧ Fair.unfinished Fair.exBusyState
      ∧ Fair.step ⟨2, 3, 3, 3⟩ Fair.exBusyState (.writer 1) = none
      ∧ Fair.step ⟨2, 3, 3, 3⟩ Fair.exBusyState (.reader 0) = none
      ∧ Fair.step ⟨2, 3, 3, 3⟩ Fair.exBusyState (.reader 1) = none
      ∧ Fair.step ⟨2, 3, 3, 3⟩ Fair.exBusyState (.reader 2) = none
      ∧ ∃ t s', Fair.step ⟨2, 3, 3, 3⟩ Fair.exBusyState t = some s')
    ∧ (WP.Reachable ⟨2, 3, 3, 3⟩ WP.exBusyState
      ∧ WP.unfinished WP.exBusyState
      ∧ WP.step ⟨2, 3, 3, 3⟩ WP.exBusyState (.writer 1) = none
      ∧ WP.step ⟨2, 3, 3, 3⟩ WP.exBusyState (.reader 0) = none
      ∧ WP.step ⟨2, 3, 3, 3⟩ WP.exBusyState (.reader 1) = none
      ∧ WP.step ⟨2, 3, 3, 3⟩ WP.exBusyState (.reader 2) = none
      ∧ ∃ t s', WP.step ⟨2, 3, 3, 3⟩ WP.exBusyState t = some s') :=
  have hr : Fair.Reachable ⟨2, 3, 3, 3⟩ Fair.exBusyState := ⟨Fair.exBusy, by decide⟩
  have hu : Fair.unfinished Fair.exBusyState :=
    Or.inr ⟨1, Fair.WPc.waitRes, by decide, by decide⟩
  have hr2 : WP.Reachable ⟨2, 3, 3, 3⟩ WP.exBusyState := ⟨WP.exBusy, by decide⟩
  have hu2 : WP.unfinished WP.exBusyState :=
    Or.inr ⟨1, WP.WPc.waitRes, by decide, by decide⟩
  ⟨⟨hr, hu, by decide, by decide, by decide, by decide,
      deadlock_free_2_3_3_3.1 Fair.exBusyState hr hu⟩,
   ⟨hr2, hu2, by decide, by decide, by decide, by decide,
      deadlock_free_2_3_3_3.2.2.1 WP.exBusyState hr2 hu2⟩⟩

/-- C5: in the fair program, from a reachable state in which writer `w` is at
line 128 (it holds `serviceQueue` and waits for `resource`) and reader `r` has not
yet acquired `serviceQueue`, along every continuation in which `w` has not yet
acquired `resource` the reader `r` has not acquired `serviceQueue` and is not in
its critical section: `r` enters only after `w`. -/
theorem fair_fifo_admission (c : Config) (s : Fair.State) (w r : Nat) (sched : List Tid)
    (tr : List Fair.State) (hreach : Fair.Reachable c s)
    (hr : ∃ p, pcAt s.readers r = some p ∧ Fair.RPc.beforeSQ p = true)
    (htr : Fair.trace c s sched = some tr)
    (hw : ∀ u ∈ tr, pcAt u.writers w = some Fair.WPc.waitRes) :
    ∀ u ∈ tr, ∃ p, pcAt u.readers r = some p
      ∧ Fair.RPc.ticketed p = false ∧ Fair.RPc.inCS p = false := by
  obtain ⟨p, hp, hb⟩ := hr
  have h0 : ∃ p, pcAt s.readers r = some p ∧ Fair.RPc.ticketed p = false :=
    ⟨p, hp, by cases p <;> first | rfl | exact absurd hb (by decide)⟩
  intro u hu
  obtain ⟨q, hq, ht⟩ := Fair.fair_trace_ticket (Fair.fair_reachable_inv hreach) htr hw h0 u hu
  exact ⟨q, hq, ht, by cases q <;> first | rfl | exact absurd ht (by decide)⟩

/-- C5 on the trace of the specification: writer 0 is inside its critical
section, writer 1 is queued at line 128, and a wave of two readers requests; in
all nine states of the trace neither reader is admitted. -/
theorem fair_fifo_admission_witness :
    Fair.Reachable Fair.exConfig Fair.exQueuedState
      ∧ pcAt Fair.exQueuedState.writers 0 = some Fair.WPc.push
      ∧ Fair.trace Fair.exConfig Fair.exQueuedState Fair.exWave = some Fair.exWaveTrace
      ∧ Fair.exWaveTrace.length = 9
      ∧ (∀ u ∈ Fair.exWaveTrace, ∃ p, pcAt u.readers 0 = some p
          ∧ Fair.RPc.ticketed p = false ∧ Fair.RPc.inCS p = false)
      ∧ (∀ u ∈ Fair.exWaveTrace, ∃ p, pcAt u.readers 1 = some p
          ∧ Fair.RPc.ticketed p = false ∧ Fair.RPc.inCS p = false) :=
  have hr : Fair.Reachable Fair.exConfig Fair.exQueuedState := ⟨Fair.exQueued, by decide⟩
  ⟨hr, by decide, by decide, by decide,
    fair_fifo_admission Fair.exConfig Fair.exQueuedState 1 0 Fair.exWave Fair.exWaveTrace hr
      ⟨Fair.RPc.loop, by decide, by decide⟩ (by decide) (by decide),
    fair_fifo_admission Fair.exConfig Fair.exQueuedState 1 1 Fair.exWave Fair.exWaveTrace hr
      ⟨Fair.RPc.loop, by decide, by decide⟩ (by decide) (by decide)⟩

/-- C6, as stated, fails: in the writer-preference program there is no reachable
state with a writer `w` waiting for `read_write_lock` (line 121) and a reader `r`
that has not yet acquired `readTry` (line 64), followed by a continuation in
which `r` is in its critical section while `w` has still not acquired
`read_write_lock`. -/
theorem wp_no_reader_overtakes_waiting_writer :
    ¬ ∃ (c : Config) (s : WP.State) (w r : Nat) (sched : List Tid) (tr : List WP.State)
        (u : WP.State) (p q : WP.RPc),
        WP.Reachable c s ∧ pcAt s.writers w = some WP.WPc.waitRes ∧ s.read_write_lock = 0
          ∧ pcAt s.readers r = some p ∧ WP.RPc.beforeTry p = true
          ∧ WP.trace c s sched = some tr
          ∧ (∀ v ∈ tr, pcAt v.writers w = some WP.WPc.waitRes)
          ∧ u ∈ tr ∧ pcAt u.readers r = some q ∧ WP.RPc.inCS q = true := by
  rintro ⟨c, s, w, r, sched, tr, u, p, q, hreach, _, _, hp, hb, htr, hw, hu, hq, hcs⟩
  have h0 : ∃ p, pcAt s.readers r = some p ∧ WP.RPc.ticketed p = false :=
    ⟨p, hp, by cases p <;> first | rfl | exact absurd hb (by decide)⟩
  obtain ⟨q2, hq2, ht⟩ := WP.wp_trace_ticket (WP.wp_reachable_inv hreach) htr hw h0 u hu
  rw [hq] at hq2
  cases hq2
  revert hcs ht
  cases q <;> decide

/-- C6 amended: the writer-preference program has a writer-priority mechanism.
In every reachable state in which writer `w` waits for `read_write_lock`
(line 121), `writecount` is positive, `readTry` is 0 and held by the writer group,
and no reader is between lines 64 and 70; and along every continuation in which
`w` has not yet acquired `read_write_lock`, a reader `r` that is not between
line 64 and the end of its critical section (in particular one that has not yet
acquired `readTry`) does not acquire `readTry` and is not in its critical
section. -/
theorem wp_writer_priority (c : Config) (s : WP.State) (w : Nat)
    (hreach : WP.Reachable c s) (hw0 : pcAt s.writers w = some WP.WPc.waitRes) :
    (1 ≤ s.writecount ∧ s.readTry = 0 ∧ WP.holdTry s = 0 ∧ WP.writersHoldTry s)
    ∧ ∀ (r : Nat) (sched : List Tid) (tr : List WP.State),
        (∃ p, pcAt s.readers r = some p ∧ WP.RPc.ticketed p = false) →
        WP.trace c s sched = some tr →
        (∀ u ∈ tr, pcAt u.writers w = some WP.WPc.waitRes) →
        ∀ u ∈ tr, ∃ p, pcAt u.readers r = some p
          ∧ WP.RPc.ticketed p = false ∧ WP.RPc.inCS p = false := by
  have hinv := WP.wp_reachable_inv hreach
  constructor
  · have h1 := cntP_pos_of_pcAt WP.WPc.holding hw0 rfl
    have h2 := cntP_pos_of_pcAt WP.WPc.counted hw0 rfl
    have h3 := hinv.htry2 h1
    have h4 := hinv.hwc
    simp only [WP.countedW] at h4
    exact ⟨by omega, by omega, by omega, h1⟩
  · intro r sched tr h0 htr hw u hu
    obtain ⟨q, hq, ht⟩ := WP.wp_trace_ticket hinv htr hw h0 u hu
    exact ⟨q, hq, ht, by cases q <;> first | rfl | exact absurd ht (by decide)⟩

/-- C6 amended at two states.  In the first, reader 0 is in its critical-section
delay and writer 0 waits at line 121 behind it, with no reader before line 64:
`writecount` is 1 and the writer group holds `readTry`.  In the second, writer 0
is inside its critical section, writer 1 waits at line 121, and two readers
request; along the trace reader 0 does not get past line 64. -/
theorem wp_writer_priority_witness :
    (WP.Reachable WP.exPairConfig WP.exBehindReaderState
      ∧ pcAt WP.exBehindReaderState.readers 0 = some WP.RPc.sleepCS
      ∧ pcAt WP.exBehindReaderState.writers 0 = some WP.WPc.waitRes
      ∧ WP.exBehindReaderState.read_write_lock = 0
      ∧ (1 ≤ WP.exBehindReaderState.writecount ∧ WP.exBehindReaderState.readTry = 0
          ∧ WP.holdTry WP.exBehindReaderState = 0
          ∧ WP.writersHoldTry WP.exBehindReaderState))
    ∧ (WP.Reachable WP.exConfig WP.exQueuedState
      ∧ pcAt WP.exQueuedState.writers 1 = some WP.WPc.waitRes
      ∧ WP.trace WP.exConfig WP.exQueuedState WP.exWave = some WP.exWaveTrace
      ∧ (1 ≤ WP.exQueuedState.writecount ∧ WP.exQueuedState.readTry = 0
          ∧ WP.holdTry WP.exQueuedState = 0 ∧ WP.writersHoldTry WP.exQueuedState)
      ∧ ∀ u ∈ WP.exWaveTrace, ∃ p, pcAt u.readers 0 = some p
          ∧ WP.RPc.ticketed p = false ∧ WP.RPc.inCS p = false) :=
  have hr1 : WP.Reachable WP.exPairConfig WP.exBehindReaderState :=
    ⟨WP.exBehindReader, by decide⟩
  have hr2 : WP.Reachable WP.exConfig WP.exQueuedState := ⟨WP.exQueued, by decide⟩
  have h2 := wp_writer_priority WP.exConfig WP.exQueuedState 1 hr2 (by decide)
  ⟨⟨hr1, by decide, by decide, by decide,
      (wp_writer_priority WP.exPairConfig WP.exBehindReaderState 0 hr1 (by decide)).1⟩,
   ⟨hr2, by decide, by decide, h2.1,
      h2.2 0 WP.exWave WP.exWaveTrace ⟨WP.RPc.loop, by decide, by decide⟩
        (by decide) (by decide)⟩⟩

/-- C7: for a non-empty list of samples, the per-thread average of `reader_fair`
and `writer_fair` and the `accumulate`-based average of `main` in the
writer-preference program all equal the sum of the samples divided by their
number (in exact arithmetic); for the samples 0.1, 0.2, 0.3 they are 0.2. -/
theorem average_is_sum_div_count (waitTimes : List ℚ) (h : waitTimes ≠ []) :
    (Fair.reader_fair_avg waitTimes).val = some (specMean waitTimes)
    ∧ (Fair.writer_fair_avg waitTimes).val = some (specMean waitTimes)
    ∧ (WP.main_thread_avg waitTimes).val = some (specMean waitTimes)
    ∧ (Fair.reader_fair_avg [1/10, 2/10, 3/10]).val = some (2/10)
    ∧ (Fair.writer_fair_avg [1/10, 2/10, 3/10]).val = some (2/10)
    ∧ (WP.main_thread_avg [1/10, 2/10, 3/10]).val = some (2/10) := by
  refine ⟨mean_of_foldl h, mean_of_foldl h, mean_of_foldl h, ?_, ?_, ?_⟩ <;>
    norm_num [Fair.reader_fair_avg, Fair.writer_fair_avg, WP.main_thread_avg, ddiv]

/-- C7 at the samples 0.5 and 1.5, whose mean is 1. -/
theorem average_is_sum_div_count_witness :
    ([1/2, 3/2] : List ℚ) ≠ []
      ∧ (Fair.reader_fair_avg [1/2, 3/2]).val = some (specMean [1/2, 3/2])
      ∧ specMean [1/2, 3/2] = 1 :=
  ⟨by simp, (average_is_sum_div_count [1/2, 3/2] (by simp)).1, by norm_num [specMean]⟩

/-- C8, as stated, fails: a thread with `k = 0` leaves its loop without a sample
and divides its sum by the sample count 0, and with `nr = 0` or `nw = 0` the
overall average is computed by a division by 0; the result is a non-finite
double. -/
theorem averaging_divides_by_zero :
    ((Fair.exZeroState.readers[0]?).map fun t => (t.pc, t.nwait)) = some (Fair.RPc.avg, 0)
    ∧ ((Fair.exZeroState.writers[0]?).map fun t => (t.pc, t.nwait)) = some (Fair.WPc.avg, 0)
    ∧ (Fair.reader_fair_avg []).divisors = [0] ∧ (Fair.reader_fair_avg []).val = none
    ∧ (Fair.writer_fair_avg []).divisors = [0] ∧ (Fair.writer_fair_avg []).val = none
    ∧ (WP.main_thread_avg []).divisors = [0] ∧ (WP.main_thread_avg []).val = none
    ∧ (Fair.main_report [] [[1]]).divisors = [1, 0, 1]
    ∧ (Fair.main_report [] [[1]]).val.overallAvgReaderWaitTime = none
    ∧ (Fair.main_report [[1]] []).divisors = [1, 1, 0]
    ∧ (Fair.main_report [[1]] []).val.overallAvgWriterWaitTime = none
    ∧ (WP.main_report [] [[1]]).divisors = [1, 0, 1]
    ∧ (WP.main_report [] [[1]]).val.overallAvgReaderWaitTime = none
    ∧ (WP.main_report [[1]] []).divisors = [1, 1, 0]
    ∧ (WP.main_report [[1]] []).val.overallAvgWriterWaitTime = none := by
  decide

/-- C8 amended: no division of the averaging code is guarded.  For every input
each program divides once by the sample count of every thread and once by each of
`nr` and `nw`, whatever their values; a thread without samples gets a non-finite
mean, and with `nr = 0` or `nw = 0` the overall average is non-finite.  A thread
that has left its loop has exactly `k` samples, so with `k = 0` it has none. -/
theorem averaging_divisions_unguarded (readerWaitTimes writerWaitTimes : List (List ℚ)) :
    (Fair.main_report readerWaitTimes writerWaitTimes).divisors
      = readerWaitTimes.map List.length ++ writerWaitTimes.map List.length
        ++ [readerWaitTimes.length, writerWaitTimes.length]
    ∧ (WP.main_report readerWaitTimes writerWaitTimes).divisors
      = readerWaitTimes.map List.length ++ writerWaitTimes.map List.length
        ++ [readerWaitTimes.length, writerWaitTimes.length]
    ∧ (Fair.reader_fair_avg []).val = none
    ∧ (Fair.writer_fair_avg []).val = none
    ∧ (WP.main_thread_avg []).val = none
    ∧ (Fair.main_report [] writerWaitTimes).val.overallAvgReaderWaitTime = none
    ∧ (Fair.main_report readerWaitTimes []).val.overallAvgWriterWaitTime = none
    ∧ (WP.main_report [] writerWaitTimes).val.overallAvgReaderWaitTime = none
    ∧ (WP.main_report readerWaitTimes []).val.overallAvgWriterWaitTime = none
    ∧ (∀ (c : Config) (s : Fair.State), Fair.Reachable c s →
        (∀ (j : Nat) (t : Th Fair.RPc), s.readers[j]? = some t →
            Fair.RPc.finished t.pc = true → t.nwait = c.kr)
        ∧ (∀ (j : Nat) (t : Th Fair.WPc), s.writers[j]? = some t →
            Fair.WPc.finished t.pc = true → t.nwait = c.kw))
    ∧ (∀ (c : Config) (s : WP.State), WP.Reachable c s →
        (∀ (j : Nat) (t : Th WP.RPc), s.readers[j]? = some t →
            WP.RPc.finished t.pc = true → t.nwait = c.kr)
        ∧ (∀ (j : Nat) (t : Th WP.WPc), s.writers[j]? = some t →
            WP.WPc.finished t.pc = true → t.nwait = c.kw)) := by
  refine ⟨?_, ?_, rfl, rfl, rfl, rfl, ?_, rfl, ?_, ?_, ?_⟩
  · simp [Fair.main_report, Fair.reader_fair_avg, Fair.writer_fair_avg, ddiv, List.map_map,
      Function.comp_def, flatten_map_singleton]
  · simp [WP.main_report, WP.main_thread_avg, ddiv, List.map_map,
      Function.comp_def, flatten_map_singleton]
  · simp [Fair.main_report, ddiv]
  · simp [WP.main_report, ddiv]
  · intro c s h
    have hl := Fair.fair_reachable_local h
    constructor
    · intro j t hj hf
      obtain ⟨_, _, h3, h4⟩ := hl.1 j t hj
      have h5 : Fair.RPc.pushed t.pc = false := by
        revert hf
        cases t.pc <;> decide
      rw [h4, h5, h3 hf]
      rfl
    · intro j t hj hf
      obtain ⟨_, _, h3, h4⟩ := hl.2 j t hj
      have h5 : Fair.WPc.pushed t.pc = false := by
        revert hf
        cases t.pc <;> decide
      rw [h4, h5, h3 hf]
      rfl
  · intro c s h
    have hl := WP.wp_reachable_local h
    constructor
    · intro j t hj hf
      obtain ⟨_, _, h3, h4⟩ := hl.1 j t hj
      have h5 : WP.RPc.pushed t.pc = false := by
        revert hf
        cases t.pc <;> decide
      rw [h4, h5, h3 hf]
      rfl
    · intro j t hj hf
      obtain ⟨_, _, h3, h4⟩ := hl.2 j t hj
      have h5 : WP.WPc.pushed t.pc = false := by
        revert hf
        cases t.pc <;> decide
      rw [h4, h5, h3 hf]
      rfl

/-- C8 amended at the state in which the reader of a configuration with `kr = 0`
has left its loop: it has no sample, and its mean is the quotient by 0. -/
theorem averaging_divisions_unguarded_witness :
    Fair.Reachable Fair.exZeroConfig Fair.exZeroState
      ∧ Fair.exZeroState.readers[0]? = some ⟨Fair.RPc.avg, 0, 0⟩
      ∧ (⟨Fair.RPc.avg, 0, 0⟩ : Th Fair.RPc).nwait = Fair.exZeroConfig.kr
      ∧ (Fair.reader_fair_avg []).val = none :=
  have hr : Fair.Reachable Fair.exZeroConfig Fair.exZeroState :=
    ⟨[.reader 0, .writer 0], by decide⟩
  ⟨hr, by decide,
    ((averaging_divisions_unguarded [] []).2.2.2.2.2.2.2.2.2.1 Fair.exZeroConfig
      Fair.exZeroState hr).1 0 ⟨Fair.RPc.avg, 0, 0⟩ (by decide) (by decide),
    (averaging_divisions_unguarded [] []).2.2.1⟩

/-- C9, as stated, fails in the writer-preference program: when writer 0 is in
its critical-section delay, `readTry` is 0 and no reader is between lines 64 and
70; the gate is held by the writer group, which took it at line 119 and posts it
only at line 143. -/
theorem wp_writer_delay_holds_readTry :
    WP.run WP.exConfig (WP.main WP.exConfig) WP.exWriterDelay = some WP.exDelayState
      ∧ pcAt WP.exDelayState.writers 0 = some WP.WPc.sleepCS
      ∧ WP.WPc.holding WP.WPc.sleepCS = true
      ∧ WP.exDelayState.readTry = 0
      ∧ WP.holdTry WP.exDelayState = 0
      ∧ WP.writersHoldTry WP.exDelayState := by
  decide

/-- C9 amended: in both programs the critical-section delay lies outside every
`sem_wait`/`sem_post` pair of the sleeping thread on `l`, on the mutex of a
counter and on `serviceQueue`/`readTry`, the program points between such a pair
account for the value of the semaphore, and during the delay the resource gate is
taken: by the sleeping writer, or by the reader group.  In the writer-preference
program the writer group also holds `readTry` during a writer's delay. -/
theorem delay_holds_only_gates :
    (∀ (c : Config) (s : Fair.State), Fair.Reachable c s →
        (s.l + Fair.holdL s = 1 ∧ s.serviceQueue + Fair.holdSQ s = 1
          ∧ s.rmutex + Fair.holdRm s = 1)
        ∧ (∀ j, pcAt s.readers j = some Fair.RPc.sleepCS →
            s.resource = 0 ∧ Fair.readersHold s ∧ Fair.writersInCS s = 0)
        ∧ (∀ j, pcAt s.writers j = some Fair.WPc.sleepCS →
            s.resource = 0 ∧ Fair.writersInCS s = 1 ∧ ¬ Fair.readersHold s))
    ∧ (Fair.RPc.inL .sleepCS = false ∧ Fair.RPc.inSQ .sleepCS = false
        ∧ Fair.RPc.inRm .sleepCS = false ∧ Fair.RPc.holding .sleepCS = true
        ∧ Fair.WPc.inL .sleepCS = false ∧ Fair.WPc.inSQ .sleepCS = false
        ∧ Fair.WPc.inCS .sleepCS = true)
    ∧ (∀ (c : Config) (s : WP.State), WP.Reachable c s →
        (s.l + WP.holdL s = 1 ∧ s.read_lock + WP.holdRl s = 1
          ∧ s.write_lock + WP.holdWl s = 1
          ∧ s.readTry + WP.holdTry s + (if WP.writersHoldTry s then 1 else 0) = 1)
        ∧ (∀ j, pcAt s.readers j = some WP.RPc.sleepCS →
            s.read_write_lock = 0 ∧ WP.readersHold s ∧ WP.writersInCS s = 0)
        ∧ (∀ j, pcAt s.writers j = some WP.WPc.sleepCS →
            s.read_write_lock = 0 ∧ WP.writersInCS s = 1 ∧ ¬ WP.readersHold s
            ∧ s.readTry = 0 ∧ WP.holdTry s = 0 ∧ WP.writersHoldTry s))
    ∧ (WP.RPc.inL .sleepCS = false ∧ WP.RPc.inTry .sleepCS = false
        ∧ WP.RPc.inRl .sleepCS = false ∧ WP.RPc.holding .sleepCS = true
        ∧ WP.WPc.inL .sleepCS = false ∧ WP.WPc.inWl .sleepCS = false
        ∧ WP.WPc.inCS .sleepCS = true ∧ WP.WPc.holding .sleepCS = true) := by
  refine ⟨?_, by decide, ?_, by decide⟩
  · intro c s h
    have hi := Fair.fair_reachable_inv h
    obtain ⟨hl, hsq, hrm, hrc, hres1, hres2, hres3, hpost, hfirst⟩ := hi
    refine ⟨⟨hl, hsq, hrm⟩, ?_, ?_⟩
    · intro j hj
      have h1 := cntP_pos_of_pcAt Fair.RPc.holding hj rfl
      have h2 := hres2 h1
      exact ⟨by omega, h1, by omega⟩
    · intro j hj
      have h1 := cntP_pos_of_pcAt Fair.WPc.inCS hj rfl
      simp only [Fair.writersInCS] at hres1 hres2 ⊢
      refine ⟨by omega, by omega, ?_⟩
      intro hh
      have := hres2 hh
      omega
  · intro c s h
    have hi := WP.wp_reachable_inv h
    obtain ⟨hl, hrl, hwl, hrc, hwc, hres1, hres2, hres3, htry1, htry2, htry3, hpostR, hfirstR,
      hpostW, hfirstW⟩ := hi
    refine ⟨⟨hl, hrl, hwl, ?_⟩, ?_, ?_⟩
    · by_cases hh : WP.writersHoldTry s
      · have := htry2 hh
        simp only [hh, if_true]
        omega
      · have := htry3 hh
        simp only [hh, if_false]
        omega
    · intro j hj
      have h1 := cntP_pos_of_pcAt WP.RPc.holding hj rfl
      have h2 := hres2 h1
      exact ⟨by omega, h1, by omega⟩
    · intro j hj
      have h1 := cntP_pos_of_pcAt WP.WPc.inCS hj rfl
      have h3 := cntP_pos_of_pcAt WP.WPc.holding hj rfl
      have h4 := htry2 h3
      simp only [WP.writersInCS] at hres1 hres2 ⊢
      refine ⟨by omega, by omega, ?_, by omega, by omega, h3⟩
      intro hh
      have := hres2 hh
      omega

/-- C9 amended at the state of the writer-preference program in which writer 0 is
in its critical-section delay. -/
theorem delay_holds_only_gates_witness :
    WP.Reachable WP.exConfig WP.exDelayState
      ∧ pcAt WP.exDelayState.writers 0 = some WP.WPc.sleepCS
      ∧ (WP.exDelayState.read_write_lock = 0 ∧ WP.writersInCS WP.exDelayState = 1
          ∧ ¬ WP.readersHold WP.exDelayState
          ∧ WP.exDelayState.readTry = 0 ∧ WP.holdTry WP.exDelayState = 0
          ∧ WP.writersHoldTry WP.exDelayState) :=
  have hr : WP.Reachable WP.exConfig WP.exDelayState := ⟨WP.exWriterDelay, by decide⟩
  ⟨hr, by decide,
    (delay_holds_only_gates.2.2.1 WP.exConfig WP.exDelayState hr).2.2 0 (by decide)⟩

/-- C10: in every reachable state of either program the semaphore that guards a
counter has value 0 or 1 and at most one thread is between its `sem_wait` and
`sem_post`; a step that changes `readcount` or `writecount` is the `++` or `--` of
a thread that is between the `sem_wait` and the `sem_post` of the guarding
semaphore, which then has value 0, and that thread is the only such thread. -/
theorem guarded_counters :
    (∀ (c : Config) (s : Fair.State), Fair.Reachable c s →
        s.rmutex ≤ 1 ∧ Fair.holdRm s ≤ 1
        ∧ ∀ t s', Fair.step c s t = some s' → s'.readcount ≠ s.readcount →
            ∃ j p, t = .reader j ∧ pcAt s.readers j = some p ∧ (p = .inc ∨ p = .dec)
              ∧ Fair.RPc.inRm p = true ∧ s.rmutex = 0 ∧ Fair.holdRm s = 1)
    ∧ (∀ (c : Config) (s : WP.State), WP.Reachable c s →
        s.read_lock ≤ 1 ∧ WP.holdRl s ≤ 1 ∧ s.write_lock ≤ 1 ∧ WP.holdWl s ≤ 1
        ∧ (∀ t s', WP.step c s t = some s' → s'.readcount ≠ s.readcount →
            ∃ j p, t = .reader j ∧ pcAt s.readers j = some p ∧ (p = .inc ∨ p = .dec)
              ∧ WP.RPc.inRl p = true ∧ s.read_lock = 0 ∧ WP.holdRl s = 1)
        ∧ (∀ t s', WP.step c s t = some s' → s'.writecount ≠ s.writecount →
            ∃ j p, t = .writer j ∧ pcAt s.writers j = some p ∧ (p = .inc ∨ p = .dec)
              ∧ WP.WPc.inWl p = true ∧ s.write_lock = 0 ∧ WP.holdWl s = 1)) := by
  constructor
  · intro c s h
    have hrm := (Fair.fair_reachable_inv h).hrm
    refine ⟨by omega, by omega, ?_⟩
    intro t s' hs hne
    cases t with
    | writer j => exact absurd (Fair.writer_fair_readcount hs) hne
    | reader j =>
      obtain ⟨p, hp, hin, hpc⟩ := Fair.reader_fair_readcount hs hne
      have h1 := cntP_pos_of_pcAt Fair.RPc.inRm hp hin
      simp only [Fair.holdRm] at hrm ⊢
      exact ⟨j, p, rfl, hp, hpc, hin, by omega, by omega⟩
  · intro c s h
    have hrl := (WP.wp_reachable_inv h).hrl
    have hwl := (WP.wp_reachable_inv h).hwl
    refine ⟨by omega, by omega, by omega, by omega, ?_, ?_⟩
    · intro t s' hs hne
      cases t with
      | writer j => exact absurd (WP.writer_readcount hs) hne
      | reader j =>
        obtain ⟨p, hp, hin, hpc⟩ := WP.reader_readcount hs hne
        have h1 := cntP_pos_of_pcAt WP.RPc.inRl hp hin
        simp only [WP.holdRl] at hrl ⊢
        exact ⟨j, p, rfl, hp, hpc, hin, by omega, by omega⟩
    · intro t s' hs hne
      cases t with
      | reader j => exact absurd (WP.reader_writecount hs) hne
      | writer j =>
        obtain ⟨p, hp, hin, hpc⟩ := WP.writer_writecount hs hne
        have h1 := cntP_pos_of_pcAt WP.WPc.inWl hp hin
        simp only [WP.holdWl] at hwl ⊢
        exact ⟨j, p, rfl, hp, hpc, hin, by omega, by omega⟩

/-- C10 at the state of the fair program in which reader 0 executes
`readcount--`: the step changes `readcount`, and reader 0 holds `rmutex`. -/
theorem guarded_counters_witness :
    Fair.Reachable Fair.exConfig Fair.exDecState
      ∧ Fair.step Fair.exConfig Fair.exDecState (.reader 0) = some Fair.exAfterDecState
      ∧ Fair.exAfterDecState.readcount ≠ Fair.exDecState.readcount
      ∧ ∃ j p, Tid.reader 0 = Tid.reader j ∧ pcAt Fair.exDecState.readers j = some p
          ∧ (p = .inc ∨ p = .dec) ∧ Fair.RPc.inRm p = true
          ∧ Fair.exDecState.rmutex = 0 ∧ Fair.holdRm Fair.exDecState = 1 :=
  have hr : Fair.Reachable Fair.exConfig Fair.exDecState := ⟨Fair.exReaderToDec, by decide⟩
  ⟨hr, by decide, by decide,
    (guarded_counters.1 Fair.exConfig Fair.exDecState hr).2.2 (.reader 0) Fair.exAfterDecState
      (by decide) (by decide)⟩
